import Mathlib

/-!
Verification development for the `txt-reader` task-orchestration core
(`src/txt-reader.ts`).

The embedding models:
* JavaScript runtime values (`JSValue`) as far as the marshalling and the
  message protocol need them;
* the closure marshaller `getItertorConfigMessage` / `functionToString`;
* the `TxtReader` scheduler as an explicit state machine (`ReaderState`,
  `step`): public action calls, worker messages, the zero-delay timeouts used
  for locally failed tasks, clock ticks and progress-observer registration are
  the events.

Modelling conventions, recorded once here:
* JS numbers are modelled as `Int` (no claim depends on fractional values; the
  `[0,100]` progress check has the same shape either way).
* JS arrays behave exactly like plain objects under `typeof` (which yields
  `"object"`) and `for..in` (which enumerates the index keys `"0"`, `"1"`, …),
  so they are represented as `JSValue.obj` with numeric-string keys.
* `typeof null` is `"object"` in JS, but a `for..in` loop over `null` performs
  no iterations, so `null` passing through `functionToString` unchanged is
  modelled by the catch-all branch.
* Promise `then`-callbacks that the library registers internally (e.g. the one
  in `loadFile` that records `file` and `lineCount`) run as microtasks right
  after resolution; the model applies them at the settlement step itself.  No
  claim under verification observes the sliver of time between the resolve and
  the microtask.
* `window.setTimeout(…, 0)` callbacks fire in scheduling order; the pending
  callbacks are kept in a FIFO list and an explicit event fires the head.
-/

namespace TxtReaderModel

mutual

/-- JavaScript values, as far as this library's data model needs them.
`func` carries the function's source text (what `.toString()` returns);
`error` models an `Error` object with its `message`; `file` models a DOM
`File` object.  An object's own enumerable properties are kept in `for..in`
enumeration order. -/
inductive JSValue where
  | null : JSValue
  | undefined : JSValue
  | num (n : Int) : JSValue
  | str (s : String) : JSValue
  | boolean (b : Bool) : JSValue
  | func (src : String) : JSValue
  | error (msg : String) : JSValue
  | file (name : String) : JSValue
  | obj (fields : JSFields) : JSValue

/-- An object's property list (a mutual inductive rather than a nested
`List`, so that the marshaller can be defined by mutual structural
recursion). -/
inductive JSFields where
  | nil : JSFields
  | cons (key : String) (value : JSValue) (rest : JSFields) : JSFields

end

/-- Build a property list from a `List` literal, for readable payloads. -/
def fieldsOf : List (String × JSValue) → JSFields
  | [] => .nil
  | (k, v) :: rest => .cons k v (fieldsOf rest)

/-- Property lookup, as `obj[key]` on own properties (first match wins). -/
def findField : JSFields → String → Option JSValue
  | .nil, _ => none
  | .cons k v rest, key => if k = key then some v else findField rest key

/-- `Object.prototype.toString.call(v) === '[object Error]'`, the check
`runTask` performs on the request data. -/
def isErrorData : JSValue → Bool
  | .error _ => true
  | _ => false

/-- The `message` property of an `Error`-shaped value (`""` otherwise). -/
def errorMessage : JSValue → String
  | .error m => m
  | _ => ""

/-- `Object.prototype.toString.call(v).toLowerCase() === '[object number]'
&& v >= 0 && v <= 100`: the validity check the worker-message handler applies
to a progress `result`. -/
def validProgressResult : JSValue → Bool
  | .num v => decide (0 ≤ v) && decide (v ≤ 100)
  | _ => false

/-- The numeric payload of a `num` value (`0` otherwise; only ever read after
`validProgressResult` has succeeded). -/
def numValue : JSValue → Int
  | .num v => v
  | _ => 0

/-- JS truthiness, for the `functionToString(config.scope, "") || {}`
expression. -/
def isTruthy : JSValue → Bool
  | .null => false
  | .undefined => false
  | .num n => decide (n ≠ 0)
  | .str s => decide (s ≠ "")
  | .boolean b => b
  | _ => true

mutual

/-- `functionToString(obj, entry)` from `getItertorConfigMessage`: walks a
value; on an object it visits every own enumerable property in order, replaces
a function-valued property by its source text while appending the property's
full access path to the function map, recurses into object-valued properties,
and leaves every other property untouched.  A non-object argument is returned
unchanged with no paths recorded.  Returns the transformed value together with
the paths pushed onto `functionMap`, in push order. -/
def functionToString : JSValue → String → JSValue × List String
  | .obj fields, path =>
    let r := functionToStringFields fields path
    (.obj r.1, r.2)
  | v, _ => (v, [])

/-- The `for (let i in obj)` loop body of `functionToString`, over the field
list in property order. -/
def functionToStringFields : JSFields → String → JSFields × List String
  | .nil, _ => (.nil, [])
  | .cons key value rest, path =>
    let pathi := path ++ "[\"" ++ key ++ "\"]"
    let r := functionToStringFields rest path
    match value with
    | .func src => (.cons key (.str src) r.1, pathi :: r.2)
    | .obj fields =>
      let inner := functionToStringFields fields pathi
      (.cons key (.obj inner.1) r.1, inner.2 ++ r.2)
    | v => (.cons key v r.1, r.2)

end

/-- The caller-facing iterator configuration `IIteratorConfig`:
`eachLine` is a function value, `scope` an optional object graph
(`undefined` when absent). -/
structure IIteratorConfig where
  eachLine : JSValue
  scope : Option JSValue

/-- The wire form `IIteratorConfigMessage` produced by the marshaller. -/
structure IIteratorConfigMessage where
  eachLine : String
  scope : JSValue
  functionMap : List String

/-- `v.toString()` on a function value: its source text. -/
def funcSource : JSValue → String
  | .func src => src
  | _ => ""

mutual

/-- `lodash.cloneDeep` on a JS value: a structural deep copy.  Function
properties inside a cloned object are copied by reference (lodash treats
functions as uncloneable and keeps the original reference when they occur
below the root), so the clone is extensionally equal to the original; what the
clone changes is object identity, which a value-level model cannot (and need
not) distinguish — see `marshalCloned` for where identity matters. -/
def cloneDeepV : JSValue → JSValue
  | .obj fields => .obj (cloneDeepFields fields)
  | v => v

/-- Field-by-field clone of an object's property list. -/
def cloneDeepFields : JSFields → JSFields
  | .nil => .nil
  | .cons k v rest => .cons k (cloneDeepV v) (cloneDeepFields rest)

end

/-- `cloneDeep(config)` on a whole iterator configuration. -/
def cloneDeepConfig (c : IIteratorConfig) : IIteratorConfig :=
  { eachLine := cloneDeepV c.eachLine, scope := c.scope.map cloneDeepV }

/-- `TxtReader.getItertorConfigMessage(config)`: the top-level callback is
converted to its source text, the scope graph is rewritten by
`functionToString` starting from the empty path (`|| {}` turns a falsy result,
e.g. an absent scope, into an empty object), and the collected paths become
`functionMap`. -/
def getItertorConfigMessage (config : IIteratorConfig) : IIteratorConfigMessage :=
  let r := match config.scope with
    | some sc => functionToString sc ""
    | none => (JSValue.undefined, [])
  { eachLine := funcSource config.eachLine
    scope := if isTruthy r.1 then r.1 else .obj .nil
    functionMap := r.2 }

/-- The caller's view of its configuration object after
`getItertorConfigMessage` ran on that very object: `functionToString` assigns
`obj[i] = obj[i].toString()` in place, so every function property inside the
scope graph has been replaced by a string; `config.eachLine.toString()` does
not mutate the `eachLine` slot. -/
def configAfterAliasedMarshal (c : IIteratorConfig) : IIteratorConfig :=
  { eachLine := c.eachLine
    scope := c.scope.map (fun sc => (functionToString sc "").1) }

/-- Outcome of one marshalling call: the message that was produced, and the
configuration object as the caller observes it afterwards. -/
structure MarshalCall where
  callerView : IIteratorConfig
  message : IIteratorConfigMessage

/-- `getItertorConfigMessage(config)` applied directly to the caller's object
(no clone): the in-place mutation is visible to the caller. -/
def marshalAliased (c : IIteratorConfig) : MarshalCall :=
  { callerView := configAfterAliasedMarshal c
    message := getItertorConfigMessage c }

/-- `getItertorConfigMessage(cloneDeep(config))`, as `loadFile`,
`iterateLines` and `iterateSporadicLines` invoke it: `cloneDeep` allocates a
distinct object graph, so `functionToString`'s in-place mutation is confined
to the clone and the caller's own object is untouched. -/
def marshalCloned (c : IIteratorConfig) : MarshalCall :=
  { callerView := c
    message := (marshalAliased (cloneDeepConfig c)).message }

mutual

/-- Does the scope graph contain a function in property position (i.e. one
that `functionToString` would replace)? -/
def scopeHasFunc : JSValue → Bool
  | .obj fields => scopeFieldsHaveFunc fields
  | _ => false

/-- Field-list form of `scopeHasFunc`. -/
def scopeFieldsHaveFunc : JSFields → Bool
  | .nil => false
  | .cons _ (.func _) _ => true
  | .cons _ (.obj fields) rest => scopeFieldsHaveFunc fields || scopeFieldsHaveFunc rest
  | .cons _ _ rest => scopeFieldsHaveFunc rest

end

/-! ## The scheduler state machine -/

/-- `TxtReaderTaskState` from the source. -/
inductive TaskState where
  | Initialized : TaskState
  | Queued : TaskState
  | Running : TaskState
  | Completed : TaskState
deriving DecidableEq

/-- The `ITaskResponse` object a fulfilled task resolves with. -/
structure TaskResponse where
  timeTaken : Nat
  message : String
  result : JSValue

/-- `IResponseMessage`: what the worker (or the synthetic local-failure
timeout) delivers. -/
structure ResponseMsg where
  taskId : Nat
  success : Bool
  done : Bool
  message : String
  result : JSValue

/-- The internal `then`-callback a public method registers on the task it
creates.  Only `loadFile`'s callback touches reader state (it records the
loaded file and its line count); the decoding callbacks of `getLines` /
`getLines2` rewrite the delivered payload only and are modelled as `none`. -/
inductive SettleHook where
  | none : SettleHook
  | loadFile (file : JSValue) : SettleHook

/-- One `TxtReaderTask`.  `reqTaskId` is the `taskId` stamped into the task's
`RequestMessage` by the constructor.  `promiseAlive` is true while
`this.promise` / `this.resolve` / `this.reject` are non-null (i.e. until
`dispose` runs).  `outcome` is the settled state of the promise
(`none` while pending).  `progressLog` records every value delivered to the
registered progress observer, in order; `onProgress` is whether an observer
is registered. -/
structure Task where
  id : Nat
  action : String
  data : JSValue
  reqTaskId : Nat
  state : TaskState
  startTime : Nat
  hook : SettleHook
  onProgress : Bool
  progressLog : List Int
  promiseAlive : Bool
  outcome : Option (Except String TaskResponse)

/-- A `RequestMessage` as posted to the worker via `postMessage`. -/
structure PostedMsg where
  action : String
  data : JSValue
  taskId : Nat

/-- The complete state of one `TxtReader` instance, plus the environment
pieces the code interacts with: the append-only log of messages posted to the
worker, the FIFO list of pending zero-delay timeout callbacks (each one, when
it fires, hands its prebuilt synthetic `ResponseMsg` to `completeTask`), and
the current clock value `now` (`new Date().getTime()`). -/
structure ReaderState where
  taskList : List Task
  runningTask : Option Nat
  queuedTaskList : List Nat
  file : Option JSValue
  lineCount : Int
  verboseLogging : Bool
  posted : List PostedMsg
  timeouts : List ResponseMsg
  now : Nat

/-- Look a task up in a task list by id. -/
def findTaskIn (ts : List Task) (i : Nat) : Option Task :=
  ts.find? (fun t => t.id = i)

/-- Look a task up in the task list by id. -/
def findTask (s : ReaderState) (i : Nat) : Option Task :=
  findTaskIn s.taskList i

/-- Replace the task with the given id (tasks are mutated in place in the
source; ids are unique in every reachable state). -/
def updateTask (ts : List Task) (i : Nat) (f : Task → Task) : List Task :=
  ts.map (fun t => if t.id = i then f t else t)

/-- `TxtReader.newTaskId`: `1` for the first task, last task's id plus one
afterwards. -/
def newTaskId (s : ReaderState) : Nat :=
  match s.taskList.getLast? with
  | none => 1
  | some t => t.id + 1

/-- The request a task's `requestMessage` represents on the wire. -/
def requestOf (t : Task) : PostedMsg :=
  { action := t.action, data := t.data, taskId := t.reqTaskId }

/-- The synthetic terminal `ResponseMsg` the zero-delay timeout in `runTask`
builds for a task whose data is an `Error`. -/
def syntheticResponse (t : Task) : ResponseMsg :=
  { success := false
    message := errorMessage t.data
    result := .null
    done := true
    taskId := t.id }

/-- The `TxtReaderTask` constructor: state `Initialized`, no observer, pending
promise with live resolver references, and the id stamped into the request. -/
def mkTask (i : Nat) (action : String) (data : JSValue) (hook : SettleHook) : Task :=
  { id := i, action := action, data := data, reqTaskId := i
    state := .Initialized, startTime := 0, hook := hook
    onProgress := false, progressLog := [], promiseAlive := true, outcome := none }

/-- `TxtReader.runTask`: record the task as running; post its request to the
worker unless its data is an `Error`, in which case schedule a zero-delay
timeout that will complete the then-running task with a synthetic failure
response; finally `task.run()` sets the state to `Running` and records the
start time. -/
def runTask (s : ReaderState) (t : Task) : ReaderState :=
  let s1 := { s with runningTask := some t.id }
  let s2 :=
    if isErrorData t.data then
      { s1 with timeouts := s1.timeouts ++ [syntheticResponse t] }
    else
      { s1 with posted := s1.posted ++ [requestOf t] }
  { s2 with
    taskList := updateTask s2.taskList t.id
      (fun tk => { tk with state := .Running, startTime := s.now }) }

/-- `TxtReader.newTask`: assign the next id, build the task, append it to the
task history, then run it immediately when idle and queue it (state `Queued`)
otherwise.  Returns the new state together with the new task's id. -/
def newTask (s : ReaderState) (action : String) (data : JSValue)
    (hook : SettleHook) : ReaderState × Nat :=
  let i := newTaskId s
  let t := mkTask i action data hook
  let s1 := { s with taskList := s.taskList ++ [t] }
  if s1.runningTask = none then
    (runTask s1 t, i)
  else
    ({ s1 with
        queuedTaskList := s1.queuedTaskList ++ [i]
        taskList := updateTask s1.taskList i (fun tk => { tk with state := .Queued }) }, i)

/-- Payload of `response.result.lineCount`, read by `loadFile`'s internal
`then`-callback (`0` when the shape is unexpected; the worker contract
guarantees the shape, and no claim depends on the value). -/
def resultLineCount (v : JSValue) : Int :=
  match v with
  | .obj fields =>
    match findField fields "lineCount" with
    | some (.num n) => n
    | _ => 0
  | _ => 0

/-- Apply a task's internal `then`-callback after fulfilment. -/
def applyHook (s : ReaderState) (hook : SettleHook) (r : ResponseMsg) : ReaderState :=
  match hook with
  | .none => s
  | .loadFile f => { s with file := some f, lineCount := resultLineCount r.result }

/-- `TxtReaderTask.complete` on the task with id `i`: mark it `Completed`,
settle the promise — fulfilled with `{timeTaken, message, result}` when
`success`, rejected with the message otherwise — run the internally registered
`then`-callback on fulfilment, and `dispose` (release resolver references). -/
def completeWith (s : ReaderState) (i : Nat) (r : ResponseMsg) : ReaderState :=
  match findTask s i with
  | none => s
  | some t =>
    let outcome : Except String TaskResponse :=
      if r.success then
        .ok { timeTaken := s.now - t.startTime, message := r.message, result := r.result }
      else
        .error r.message
    let s1 := { s with
      taskList := updateTask s.taskList i (fun tk =>
        { tk with state := .Completed, outcome := some outcome, promiseAlive := false }) }
    if r.success then applyHook s1 t.hook r else s1

/-- `TxtReader.runNextTask`: dequeue the head of the FIFO pending queue, if
any, and run it. -/
def runNextTask (s : ReaderState) : ReaderState :=
  match s.queuedTaskList with
  | [] => s
  | h :: rest =>
    match findTask s h with
    | none => s
    | some t => runTask { s with queuedTaskList := rest } t

/-- `TxtReader.completeTask`: when a task is running, complete it with the
given response, clear the running slot, and dispatch the next queued task. -/
def completeTask (s : ReaderState) (r : ResponseMsg) : ReaderState :=
  match s.runningTask with
  | none => s
  | some i =>
    let s1 := completeWith s i r
    runNextTask { s1 with runningTask := none }

/-- The worker `message` event listener installed in the `TxtReader`
constructor.  `Except.error` models an uncaught `throw` escaping the listener
(all state mutation happens after the checks, so a throw leaves the state
unchanged). -/
def handleWorkerMessage (s : ReaderState) (r : ResponseMsg) :
    Except String ReaderState :=
  match s.runningTask with
  | none => .ok s
  | some i =>
    if r.taskId ≠ i then
      .error ("Received task ID (" ++ toString r.taskId ++
        ") does not match the running task ID (" ++ toString i ++ ").")
    else if r.done then
      .ok (completeTask s r)
    else if validProgressResult r.result then
      .ok { s with
        taskList := updateTask s.taskList i (fun t =>
          if t.onProgress then
            { t with progressLog := t.progressLog ++ [numValue r.result] }
          else t) }
    else
      .error "Unkown message type"

/-- The constructor's initial state; the clock starts at an arbitrary origin
`0`. -/
def initialState : ReaderState :=
  { taskList := [], runningTask := none, queuedTaskList := []
    file := none, lineCount := 0, verboseLogging := false
    posted := [], timeouts := [], now := 0 }

/-- The public action methods of `TxtReader`, with their arguments.  Numeric
and range arguments are carried as the values the methods embed into the
request payloads. -/
inductive PublicCall where
  | sniffLines (file : JSValue) (lineNumber : Int) (decode : Bool) : PublicCall
  | loadFile (file : JSValue) (config : Option IIteratorConfig) : PublicCall
  | setChunkSize (chunkSize : Int) : PublicCall
  | enableVerbose : PublicCall
  | getLines2 (linesRanges : JSValue) : PublicCall
  | getLines (start : Int) (count : Int) (decode : Bool) : PublicCall
  | getSporadicLines (linesRanges : JSValue) (decode : Bool) : PublicCall
  | iterateLines (config : IIteratorConfig) (start : Option Int) (count : Option Int) : PublicCall
  | iterateSporadicLines (config : IIteratorConfig) (linesRanges : JSValue) : PublicCall

/-- The `Error` both `getLines`, `getLines2` and `iterateLines` construct when
no file has been loaded. -/
def notLoadedError : JSValue :=
  .error "TxtReader has not loaded a file yet."

/-- Encode an `IIteratorConfigMessage` as the JS object embedded into a
request payload. -/
def encodeConfigMessage (m : IIteratorConfigMessage) : JSValue :=
  .obj (fieldsOf [("eachLine", .str m.eachLine), ("scope", m.scope),
        ("functionMap", .obj (fieldsOf (m.functionMap.enum.map
          (fun p => (toString p.1, JSValue.str p.2)))))])

/-- `start !== undefined ? start : null` for optional numeric arguments. -/
def optionalNum : Option Int → JSValue
  | Option.none => .null
  | some n => .num n

/-- The body of each public action method: build the payload exactly as the
source does (including the not-loaded `Error` branches of `getLines`,
`getLines2` and `iterateLines` — the last reuses the `"getLines"` action
string — and the `cloneDeep` before marshalling an iterator config), then call
`newTask`. -/
def doCall (s : ReaderState) : PublicCall → ReaderState
  | .sniffLines f n d =>
    (newTask s "sniffLines"
      (.obj (fieldsOf [("file", f), ("lineNumber", .num n), ("decode", .boolean d)]))
      .none).1
  | .loadFile f cfg =>
    let s0 := { s with file := none, lineCount := 0 }
    let data : JSValue :=
      match cfg with
      | Option.none => .obj (fieldsOf [("file", f)])
      | some c => .obj (fieldsOf [("file", f),
          ("config", encodeConfigMessage (getItertorConfigMessage (cloneDeepConfig c)))])
    (newTask s0 "loadFile" data (.loadFile f)).1
  | .setChunkSize n =>
    (newTask s "setChunkSize" (.num n) .none).1
  | .enableVerbose =>
    (newTask { s with verboseLogging := true } "enableVerbose" .null .none).1
  | .getLines2 linesRanges =>
    if s.file.isNone then
      (newTask s "getLines2" notLoadedError .none).1
    else
      (newTask s "getLines2" linesRanges .none).1
  | .getLines start count _ =>
    if s.file.isNone then
      (newTask s "getLines" notLoadedError .none).1
    else
      (newTask s "getLines" (.obj (fieldsOf [("start", .num start), ("count", .num count)])) .none).1
  | .getSporadicLines linesRanges decode =>
    (newTask s "getSporadicLines"
      (.obj (fieldsOf [("linesRanges", linesRanges), ("decode", .boolean decode)])) .none).1
  | .iterateLines c start count =>
    if s.file.isNone then
      (newTask s "getLines" notLoadedError .none).1
    else
      (newTask s "iterateLines"
        (.obj (fieldsOf [("config", encodeConfigMessage (getItertorConfigMessage (cloneDeepConfig c))),
               ("start", optionalNum start), ("count", optionalNum count)])) .none).1
  | .iterateSporadicLines c linesRanges =>
    (newTask s "iterateSporadicLines"
      (.obj (fieldsOf [("config", encodeConfigMessage (getItertorConfigMessage (cloneDeepConfig c))),
             ("lines", linesRanges)])) .none).1

/-- The events the scheduler reacts to: a public method call, a `message`
event from the worker, the firing of the oldest pending zero-delay timeout,
the wall clock advancing, and a caller registering a progress observer on a
task (`task.progress(cb)`). -/
inductive Event where
  | call (c : PublicCall) : Event
  | worker (r : ResponseMsg) : Event
  | fireTimeout : Event
  | tick (dt : Nat) : Event
  | registerProgress (i : Nat) : Event

/-- One scheduler step.  An uncaught throw inside the worker-message listener
leaves the state unchanged (the listener mutates nothing before it throws). -/
def step (s : ReaderState) : Event → ReaderState
  | .call c => doCall s c
  | .worker r =>
    match handleWorkerMessage s r with
    | .ok s1 => s1
    | .error _ => s
  | .fireTimeout =>
    match s.timeouts with
    | [] => s
    | r :: rest => completeTask { s with timeouts := rest } r
  | .tick dt => { s with now := s.now + dt }
  | .registerProgress i =>
    { s with taskList := updateTask s.taskList i (fun t => { t with onProgress := true }) }

/-- Run a sequence of events. -/
def run (s : ReaderState) (es : List Event) : ReaderState :=
  es.foldl step s

/-- A state the machine can reach from a fresh `TxtReader`. -/
def Reachable (s : ReaderState) : Prop :=
  ∃ es : List Event, run initialState es = s

/-- Worker conformance (§6 of the message contract): the worker only ever
responds to requests it received, so every `worker` event's `taskId` is the id
of some request already posted at that moment.  The local zero-delay timeouts
and all other events are unconstrained. -/
def eventConforms (s : ReaderState) : Event → Bool
  | .worker r => s.posted.any (fun m => m.taskId = r.taskId)
  | _ => true

/-- A whole event sequence conforms when every event conforms in the state it
is delivered in. -/
def conformingFrom (s : ReaderState) : List Event → Bool
  | [] => true
  | e :: es => eventConforms s e && conformingFrom (step s e) es

/-- A state reachable under a worker that honours the message contract. -/
def CReachable (s : ReaderState) : Prop :=
  ∃ es : List Event, conformingFrom initialState es = true ∧ run initialState es = s

/-- What a fulfilment observer registered via `TxtReaderTask.then` *now* will
eventually be invoked with, for a task that is no longer pending:
`then` attaches its callback only when `this.promise` is non-null, and a JS
promise that is already fulfilled still invokes a callback attached later —
but only if it was attached at all.  For a live pending promise the delivery
happens at the later settlement step and is not described by this function. -/
def thenDelivered (t : Task) : Option TaskResponse :=
  if t.promiseAlive then
    match t.outcome with
    | some (.ok r) => some r
    | _ => none
  else none

/-- Same as `thenDelivered` for a rejection observer registered via
`TxtReaderTask.catch`. -/
def catchDelivered (t : Task) : Option String :=
  if t.promiseAlive then
    match t.outcome with
    | some (.error m) => some m
    | _ => none
  else none

/-! ### Spec-side description of the closure marshaller

The two definitions below transcribe the specification's words for the scope
walk (§4.3): every callable property value is replaced in place by its source
text, nested objects are recursed into, everything else passes through
unchanged, and the access paths of the replaced functions are collected
depth-first.  They exist to be compared against `functionToString`, which is
transcribed from the source. -/

mutual

/-- Spec-side: the scope graph with every callable property replaced by its
textual source. -/
def specReplaceFuncs : JSValue → JSValue
  | .obj fields => .obj (specReplaceFuncsFields fields)
  | v => v

/-- Field-list form of `specReplaceFuncs`. -/
def specReplaceFuncsFields : JSFields → JSFields
  | .nil => .nil
  | .cons k (.func src) rest => .cons k (.str src) (specReplaceFuncsFields rest)
  | .cons k (.obj fs) rest => .cons k (.obj (specReplaceFuncsFields fs)) (specReplaceFuncsFields rest)
  | .cons k v rest => .cons k v (specReplaceFuncsFields rest)

end

mutual

/-- Spec-side: the flat function map — the full access path of every callable
property value, collected by a depth-first walk in property order. -/
def specFuncPaths : JSValue → String → List String
  | .obj fields, path => specFuncPathsFields fields path
  | _, _ => []

/-- Field-list form of `specFuncPaths`. -/
def specFuncPathsFields : JSFields → String → List String
  | .nil, _ => []
  | .cons k (.func _) rest, path =>
    (path ++ "[\"" ++ k ++ "\"]") :: specFuncPathsFields rest path
  | .cons k (.obj fs) rest, path =>
    specFuncPathsFields fs (path ++ "[\"" ++ k ++ "\"]") ++ specFuncPathsFields rest path
  | .cons _ _ rest, path => specFuncPathsFields rest path

end

/-- The configuration of the spec's marshalling scenario:
`{eachLine: f, scope: {util: {double: g}, factor: 3}}`. -/
def scenarioConfig : IIteratorConfig :=
  { eachLine := .func "function (raw, progress, lineNumber) { this.util.double(progress); }"
    scope := some (.obj (fieldsOf
      [("util", .obj (fieldsOf [("double", .func "function (x) { return x * 2; }")])),
       ("factor", .num 3)])) }

/-! ### The scheduler invariant

Everything below holds in every reachable state (`invariant_reachable`); the
conformance-dependent part holds in every state reachable under a contract-
honouring worker (`cinvariant_creachable`). -/

/-- The machine invariant of a `TxtReader` instance. -/
structure Inv (s : ReaderState) : Prop where
  /-- Task ids are `1, 2, …, n` in creation order. -/
  ids : s.taskList.map Task.id = List.range' 1 s.taskList.length
  /-- Every request carries its task's id. -/
  req_id : ∀ t ∈ s.taskList, t.reqTaskId = t.id
  /-- Only `loadFile` registers the file-recording `then`-callback. -/
  hook_action : ∀ t ∈ s.taskList, ∀ f, t.hook = SettleHook.loadFile f →
    t.action = "loadFile"
  /-- The running slot points at an existing task in `Running` state. -/
  running_state : ∀ i, s.runningTask = some i →
    ∃ t, findTask s i = some t ∧ t.state = TaskState.Running
  /-- Every `Running` task is the one in the running slot. -/
  running_unique : ∀ t ∈ s.taskList, t.state = TaskState.Running →
    s.runningTask = some t.id
  /-- Queued ids denote existing tasks in `Queued` state. -/
  queued_state : ∀ i ∈ s.queuedTaskList, ∃ t, findTask s i = some t ∧
    t.state = TaskState.Queued
  /-- No id is queued twice. -/
  queued_nodup : s.queuedTaskList.Nodup
  /-- A queued task's request has never been posted to the worker. -/
  queued_unposted : ∀ i ∈ s.queuedTaskList, ∀ m ∈ s.posted, m.taskId ≠ i
  /-- Every posted message is the request of an existing non-`Error`-data
  task. -/
  posted_src : ∀ m ∈ s.posted, ∃ t, findTask s m.taskId = some t ∧
    isErrorData t.data = false ∧ m = requestOf t
  /-- A running task with normal data has had its request posted. -/
  running_posted : ∀ i, s.runningTask = some i → ∀ t, findTask s i = some t →
    isErrorData t.data = false → requestOf t ∈ s.posted
  /-- Every pending zero-delay timeout is the synthetic failure response of an
  existing `Error`-data task. -/
  timeout_src : ∀ r ∈ s.timeouts, ∃ t, findTask s r.taskId = some t ∧
    isErrorData t.data = true ∧ r = syntheticResponse t
  /-- A task's promise is settled exactly when the task is `Completed`. -/
  settled_iff : ∀ t ∈ s.taskList, (t.outcome.isSome ↔ t.state = TaskState.Completed)
  /-- Resolver references are live exactly until completion (`dispose`). -/
  alive_iff : ∀ t ∈ s.taskList, (t.promiseAlive = true ↔ t.state ≠ TaskState.Completed)
  /-- A recorded file always stems from a fulfilled `loadFile` task. -/
  file_src : ∀ f, s.file = some f → ∃ t ∈ s.taskList, t.action = "loadFile" ∧
    ∃ r, t.outcome = some (Except.ok r)

/-- The extra invariant available under a contract-honouring worker: at most
one zero-delay timeout is ever pending, it belongs to the currently running
task, and an `Error`-data task can only ever settle as a rejection with its
own error message. -/
structure CInv (s : ReaderState) extends Inv s : Prop where
  timeouts_shape : s.timeouts = [] ∨
    ∃ r, s.timeouts = [r] ∧ s.runningTask = some r.taskId
  error_outcome : ∀ t ∈ s.taskList, isErrorData t.data = true →
    ∀ o, t.outcome = some o → o = Except.error (errorMessage t.data)

/-! ## Lemmas: the closure marshaller -/

mutual

/-- The source's `functionToString` computes exactly the spec-side
transformation and path list. -/
theorem functionToString_spec : ∀ (v : JSValue) (p : String),
    functionToString v p = (specReplaceFuncs v, specFuncPaths v p)
  | .obj fields, p => by
    simp [functionToString, specReplaceFuncs, specFuncPaths,
      functionToStringFields_spec fields p]
  | .null, _ => rfl
  | .undefined, _ => rfl
  | .num _, _ => rfl
  | .str _, _ => rfl
  | .boolean _, _ => rfl
  | .func _, _ => rfl
  | .error _, _ => rfl
  | .file _, _ => rfl

/-- Field-list form of `functionToString_spec`. -/
theorem functionToStringFields_spec : ∀ (fs : JSFields) (p : String),
    functionToStringFields fs p = (specReplaceFuncsFields fs, specFuncPathsFields fs p)
  | .nil, _ => rfl
  | .cons k (.func src) rest, p => by
    simp [functionToStringFields, specReplaceFuncsFields, specFuncPathsFields,
      functionToStringFields_spec rest p]
  | .cons k (.obj fs) rest, p => by
    simp [functionToStringFields, specReplaceFuncsFields, specFuncPathsFields,
      functionToStringFields_spec rest p,
      functionToStringFields_spec fs (p ++ "[\"" ++ k ++ "\"]")]
  | .cons k (.null) rest, p => by
    simp [functionToStringFields, specReplaceFuncsFields, specFuncPathsFields,
      functionToStringFields_spec rest p]
  | .cons k (.undefined) rest, p => by
    simp [functionToStringFields, specReplaceFuncsFields, specFuncPathsFields,
      functionToStringFields_spec rest p]
  | .cons k (.num _) rest, p => by
    simp [functionToStringFields, specReplaceFuncsFields, specFuncPathsFields,
      functionToStringFields_spec rest p]
  | .cons k (.str _) rest, p => by
    simp [functionToStringFields, specReplaceFuncsFields, specFuncPathsFields,
      functionToStringFields_spec rest p]
  | .cons k (.boolean _) rest, p => by
    simp [functionToStringFields, specReplaceFuncsFields, specFuncPathsFields,
      functionToStringFields_spec rest p]
  | .cons k (.error _) rest, p => by
    simp [functionToStringFields, specReplaceFuncsFields, specFuncPathsFields,
      functionToStringFields_spec rest p]
  | .cons k (.file _) rest, p => by
    simp [functionToStringFields, specReplaceFuncsFields, specFuncPathsFields,
      functionToStringFields_spec rest p]

end

mutual

/-- `cloneDeep` reproduces its argument's value exactly (only object identity
differs, which the value model does not track). -/
theorem cloneDeepV_eq : ∀ v : JSValue, cloneDeepV v = v
  | .obj fields => by simp [cloneDeepV, cloneDeepFields_eq fields]
  | .null => rfl
  | .undefined => rfl
  | .num _ => rfl
  | .str _ => rfl
  | .boolean _ => rfl
  | .func _ => rfl
  | .error _ => rfl
  | .file _ => rfl

/-- Field-list form of `cloneDeepV_eq`. -/
theorem cloneDeepFields_eq : ∀ fs : JSFields, cloneDeepFields fs = fs
  | .nil => rfl
  | .cons k v rest => by simp [cloneDeepFields, cloneDeepV_eq v, cloneDeepFields_eq rest]

end

/-- `cloneDeep` of a whole configuration reproduces its value. -/
theorem cloneDeepConfig_eq (c : IIteratorConfig) : cloneDeepConfig c = c := by
  cases c with
  | mk eachLine scope =>
    simp [cloneDeepConfig, cloneDeepV_eq]
    cases scope <;> simp [cloneDeepV_eq]

mutual

/-- The marshalled scope graph contains no function in property position any
more: every one has been replaced by its source string. -/
theorem specReplaceFuncs_no_func :
    ∀ v : JSValue, scopeHasFunc (specReplaceFuncs v) = false
  | .obj fields => by
    simp [specReplaceFuncs, scopeHasFunc, specReplaceFuncsFields_no_func fields]
  | .null => rfl
  | .undefined => rfl
  | .num _ => rfl
  | .str _ => rfl
  | .boolean _ => rfl
  | .func _ => rfl
  | .error _ => rfl
  | .file _ => rfl

/-- Field-list form of `specReplaceFuncs_no_func`. -/
theorem specReplaceFuncsFields_no_func :
    ∀ fs : JSFields,
      scopeFieldsHaveFunc (specReplaceFuncsFields fs) = false
  | .nil => rfl
  | .cons k (.func src) rest => by
    simp [specReplaceFuncsFields, scopeFieldsHaveFunc,
      specReplaceFuncsFields_no_func rest]
  | .cons k (.obj fs) rest => by
    simp [specReplaceFuncsFields, scopeFieldsHaveFunc,
      specReplaceFuncsFields_no_func rest, specReplaceFuncsFields_no_func fs]
  | .cons k (.null) rest => by
    simp [specReplaceFuncsFields, scopeFieldsHaveFunc,
      specReplaceFuncsFields_no_func rest]
  | .cons k (.undefined) rest => by
    simp [specReplaceFuncsFields, scopeFieldsHaveFunc,
      specReplaceFuncsFields_no_func rest]
  | .cons k (.num _) rest => by
    simp [specReplaceFuncsFields, scopeFieldsHaveFunc,
      specReplaceFuncsFields_no_func rest]
  | .cons k (.str _) rest => by
    simp [specReplaceFuncsFields, scopeFieldsHaveFunc,
      specReplaceFuncsFields_no_func rest]
  | .cons k (.boolean _) rest => by
    simp [specReplaceFuncsFields, scopeFieldsHaveFunc,
      specReplaceFuncsFields_no_func rest]
  | .cons k (.error _) rest => by
    simp [specReplaceFuncsFields, scopeFieldsHaveFunc,
      specReplaceFuncsFields_no_func rest]
  | .cons k (.file _) rest => by
    simp [specReplaceFuncsFields, scopeFieldsHaveFunc,
      specReplaceFuncsFields_no_func rest]

end

/-- C4 — counterexample.  On the spec's own scenario
`{eachLine: f, scope: {util: {double: g}, factor: 3}}` the produced
`functionMap` holds exactly one access path, `["util"]["double"]`: the claim's
"exactly two access paths — one for `eachLine` itself and one for
`util.double`" is false, because `functionToString` only walks `config.scope`
and `eachLine` is serialized into its own field without a map entry. -/
theorem c4_functionMap_counterexample :
    (getItertorConfigMessage scenarioConfig).functionMap = ["[\"util\"][\"double\"]"]
    ∧ ¬ ((getItertorConfigMessage scenarioConfig).functionMap.length = 2) := by
  exact ⟨rfl, by decide⟩

/-- C4 (amended): on the scenario configuration, marshalling leaves `factor`
as the literal `3`, replaces the function slot `util.double` by its textual
source, serializes `eachLine`'s source into its own field, and produces a
`functionMap` holding exactly one access path — `["util"]["double"]`;
in general `functionToString` walks the scope graph depth-first in property
order, replaces every callable property value in place by its source text
appending its full access path to the flat map, recurses into nested objects,
and passes every other value through unchanged (the spec-side transcription
`specReplaceFuncs` / `specFuncPaths` of exactly those words). -/
theorem c4_marshalling_amended :
    (getItertorConfigMessage scenarioConfig).eachLine
        = "function (raw, progress, lineNumber) { this.util.double(progress); }"
    ∧ (getItertorConfigMessage scenarioConfig).scope
        = .obj (fieldsOf
            [("util", .obj (fieldsOf [("double", .str "function (x) { return x * 2; }")])),
             ("factor", .num 3)])
    ∧ (getItertorConfigMessage scenarioConfig).functionMap = ["[\"util\"][\"double\"]"]
    ∧ (∀ (v : JSValue) (p : String),
        functionToString v p = (specReplaceFuncs v, specFuncPaths v p)) :=
  ⟨rfl, rfl, rfl, functionToString_spec⟩

/-- C10: `loadFile`, `iterateLines` and `iterateSporadicLines` marshal
`cloneDeep(config)` (see their cases in `doCall`, which embed
`getItertorConfigMessage (cloneDeepConfig c)` into the request payload), so
the caller's configuration object is left unchanged — `eachLine` and every
function inside the scope graph remain functions.  The clone changes nothing
about the produced message (it is value-faithful); its sole effect is to
confine `functionToString`'s in-place mutation, which — as the last conjunct
shows — would otherwise have replaced the caller's scope functions by source
strings. -/
theorem c10_clone_protects_caller :
    (∀ c : IIteratorConfig, cloneDeepConfig c = c)
    ∧ (∀ c : IIteratorConfig, (marshalCloned c).callerView = c)
    ∧ (∀ c : IIteratorConfig, (marshalCloned c).message = getItertorConfigMessage c)
    ∧ (∀ (c : IIteratorConfig) (sc : JSValue), c.scope = some sc →
        scopeHasFunc sc = true → (marshalAliased c).callerView ≠ c) := by
  refine ⟨cloneDeepConfig_eq, fun c => rfl, ?_, ?_⟩
  · intro c
    simp [marshalCloned, marshalAliased, cloneDeepConfig_eq]
  · intro c sc hsc hfn heq
    have h1 : (marshalAliased c).callerView.scope = some ((functionToString sc "").1) := by
      simp [marshalAliased, configAfterAliasedMarshal, hsc]
    rw [heq, hsc] at h1
    have h2 : sc = (functionToString sc "").1 := Option.some.inj h1
    have h3 : scopeHasFunc (functionToString sc "").1 = false := by
      rw [functionToString_spec]
      exact specReplaceFuncs_no_func sc
    rw [← h2, hfn] at h3
    exact Bool.true_eq_false.mp h3

/-- C10 — witness: a concrete configuration whose scope holds a function; the
clone-protected caller view is unchanged while the aliased marshalling would
have mutated it. -/
theorem c10_clone_protects_caller_witness :
    (marshalCloned scenarioConfig).callerView = scenarioConfig
    ∧ (marshalAliased scenarioConfig).callerView ≠ scenarioConfig :=
  ⟨c10_clone_protects_caller.2.1 scenarioConfig,
   c10_clone_protects_caller.2.2.2 scenarioConfig _ rfl rfl⟩

/-! ## Lemmas: task-list plumbing -/

theorem findTaskIn_id {ts : List Task} {i : Nat} {t : Task}
    (h : findTaskIn ts i = some t) : t.id = i := by
  unfold findTaskIn at h
  exact of_decide_eq_true (List.find?_some (p := fun u : Task => decide (u.id = i)) h)

theorem findTaskIn_mem {ts : List Task} {i : Nat} {t : Task}
    (h : findTaskIn ts i = some t) : t ∈ ts := by
  unfold findTaskIn at h
  exact List.mem_of_find?_eq_some h

theorem findTaskIn_cons_pos {t : Task} {l : List Task} {j : Nat} (h : t.id = j) :
    findTaskIn (t :: l) j = some t :=
  List.find?_cons_of_pos _ (by simp [h])

theorem findTaskIn_cons_neg {t : Task} {l : List Task} {j : Nat} (h : ¬ t.id = j) :
    findTaskIn (t :: l) j = findTaskIn l j :=
  List.find?_cons_of_neg _ (by simp [h])

theorem findTaskIn_updateTask (ts : List Task) (i : Nat) (f : Task → Task)
    (hf : ∀ t, (f t).id = t.id) (j : Nat) :
    findTaskIn (updateTask ts i f) j =
      if j = i then (findTaskIn ts j).map f else findTaskIn ts j := by
  induction ts with
  | nil =>
    simp only [updateTask, List.map_nil, findTaskIn, List.find?_nil, Option.map_none']
    split <;> rfl
  | cons t rest ih =>
    show findTaskIn ((if t.id = i then f t else t) :: updateTask rest i f) j = _
    by_cases hti : t.id = i
    · rw [if_pos hti]
      by_cases htj : t.id = j
      · have hji : j = i := htj ▸ hti
        rw [findTaskIn_cons_pos (by rw [hf]; exact htj), if_pos hji,
          findTaskIn_cons_pos htj, Option.map_some']
      · have hji : ¬ j = i := fun he => htj (by rw [hti, he])
        rw [findTaskIn_cons_neg (fun he => htj (by rw [← hf t]; exact he)), ih,
          if_neg hji, findTaskIn_cons_neg htj, if_neg hji]
    · rw [if_neg hti]
      by_cases htj : t.id = j
      · have hji : ¬ j = i := fun he => hti (by rw [htj, he])
        rw [findTaskIn_cons_pos htj, if_neg hji, findTaskIn_cons_pos htj]
      · rw [findTaskIn_cons_neg htj, ih, findTaskIn_cons_neg htj]

theorem updateTask_map_id (ts : List Task) (i : Nat) (f : Task → Task)
    (hf : ∀ t, (f t).id = t.id) :
    (updateTask ts i f).map Task.id = ts.map Task.id := by
  induction ts with
  | nil => rfl
  | cons t rest ih =>
    simp only [updateTask, List.map_cons] at *
    by_cases hti : t.id = i
    · simp [hti, hf, ih]
    · simp [hti, ih]

theorem updateTask_length (ts : List Task) (i : Nat) (f : Task → Task) :
    (updateTask ts i f).length = ts.length := by
  simp [updateTask]

theorem mem_updateTask {ts : List Task} {i : Nat} {f : Task → Task} {u : Task}
    (hu : u ∈ updateTask ts i f) : ∃ t ∈ ts, u = f t ∨ u = t := by
  rcases List.mem_map.mp hu with ⟨t, ht, he⟩
  refine ⟨t, ht, ?_⟩
  by_cases hti : t.id = i
  · left; rw [← he, if_pos hti]
  · right; rw [← he, if_neg hti]

theorem mem_updateTask' {ts : List Task} {i : Nat} {f : Task → Task} {u : Task}
    (hu : u ∈ updateTask ts i f) :
    ∃ t ∈ ts, (t.id = i ∧ u = f t) ∨ (¬ t.id = i ∧ u = t) := by
  rcases List.mem_map.mp hu with ⟨t, ht, he⟩
  by_cases hti : t.id = i
  · exact ⟨t, ht, Or.inl ⟨hti, by rw [← he, if_pos hti]⟩⟩
  · exact ⟨t, ht, Or.inr ⟨hti, by rw [← he, if_neg hti]⟩⟩

theorem mem_updateTask_of_ne {ts : List Task} {i : Nat} {f : Task → Task} {t : Task}
    (ht : t ∈ ts) (hne : t.id ≠ i) : t ∈ updateTask ts i f := by
  unfold updateTask
  exact List.mem_map.mpr ⟨t, ht, by simp [hne]⟩

theorem ids_nodup {ts : List Task}
    (h : ts.map Task.id = List.range' 1 ts.length) : (ts.map Task.id).Nodup := by
  rw [h]; exact List.nodup_range' 1 ts.length

theorem mem_id_bounds {ts : List Task}
    (h : ts.map Task.id = List.range' 1 ts.length) {t : Task} (ht : t ∈ ts) :
    1 ≤ t.id ∧ t.id ≤ ts.length := by
  have hm : t.id ∈ ts.map Task.id := List.mem_map_of_mem Task.id ht
  rw [h] at hm
  rcases List.mem_range'.mp hm with ⟨k, hk, hmk⟩
  omega

theorem findTaskIn_of_mem {ts : List Task} (hnd : (ts.map Task.id).Nodup)
    {t : Task} (ht : t ∈ ts) : findTaskIn ts t.id = some t := by
  induction ts with
  | nil => cases ht
  | cons u rest ih =>
    rw [List.map_cons, List.nodup_cons] at hnd
    rcases List.mem_cons.mp ht with h | h
    · subst h
      exact List.find?_cons_of_pos _ (by simp)
    · have hne : u.id ≠ t.id := by
        intro he
        exact hnd.1 (he ▸ List.mem_map_of_mem Task.id h)
      rw [findTaskIn, List.find?_cons_of_neg _ (by simp [hne])]
      exact ih hnd.2 h

theorem findTaskIn_eq_none {ts : List Task} {i : Nat}
    (h : i ∉ ts.map Task.id) : findTaskIn ts i = none := by
  refine List.find?_eq_none.mpr fun t ht => ?_
  simp only [decide_eq_true_eq]
  intro he
  exact h (he ▸ List.mem_map_of_mem Task.id ht)

theorem findTaskIn_append (ts : List Task) (t : Task) (i : Nat) :
    findTaskIn (ts ++ [t]) i =
      (findTaskIn ts i).or (if t.id = i then some t else none) := by
  rw [findTaskIn, List.find?_append]
  congr 1
  by_cases ht : t.id = i
  · simp [ht]
  · simp [ht]

theorem findTaskIn_append_of_some {ts : List Task} {t u : Task} {i : Nat}
    (h : findTaskIn ts i = some u) : findTaskIn (ts ++ [t]) i = some u := by
  rw [findTaskIn_append, h]; rfl

theorem newTaskId_eq {s : ReaderState}
    (h : s.taskList.map Task.id = List.range' 1 s.taskList.length) :
    newTaskId s = s.taskList.length + 1 := by
  unfold newTaskId
  cases hl : s.taskList.getLast? with
  | none =>
    have he : s.taskList = [] := List.getLast?_eq_none_iff.mp hl
    simp [he]
  | some t =>
    have hmap : (s.taskList.map Task.id).getLast? = some t.id := by
      rw [List.getLast?_map, hl]; rfl
    rw [h] at hmap
    dsimp only
    cases hn : s.taskList.length with
    | zero => rw [hn] at hmap; simp [List.range'] at hmap
    | succ m =>
      rw [hn, List.range'_1_concat, List.getLast?_concat] at hmap
      have : 1 + m = t.id := Option.some.inj hmap
      omega

/-- The fresh id `n + 1` is not yet in the task list. -/
theorem fresh_id_not_mem {ts : List Task}
    (h : ts.map Task.id = List.range' 1 ts.length) :
    ts.length + 1 ∉ ts.map Task.id := by
  rw [h]
  intro hm
  rcases List.mem_range'.mp hm with ⟨k, hk, hmk⟩
  omega

theorem requestOf_congr {f : Task → Task}
    (hreq : ∀ t, (f t).reqTaskId = t.reqTaskId)
    (haction : ∀ t, (f t).action = t.action)
    (hdata : ∀ t, (f t).data = t.data) (t : Task) :
    requestOf (f t) = requestOf t := by
  simp [requestOf, hreq, haction, hdata]

theorem syntheticResponse_congr {f : Task → Task}
    (hid : ∀ t, (f t).id = t.id)
    (hdata : ∀ t, (f t).data = t.data) (t : Task) :
    syntheticResponse (f t) = syntheticResponse t := by
  simp [syntheticResponse, hid, hdata]

/-! ## Lemmas: invariant preservation -/

/-- Updating one task in a way that leaves its id, request fields, hook,
state, outcome and promise liveness unchanged (e.g. appending to its progress
log or registering a progress observer) preserves the invariant. -/
theorem Inv_updateTask_benign {s : ReaderState} (hInv : Inv s) (j : Nat)
    (f : Task → Task)
    (hid : ∀ t, (f t).id = t.id)
    (hreq : ∀ t, (f t).reqTaskId = t.reqTaskId)
    (haction : ∀ t, (f t).action = t.action)
    (hdata : ∀ t, (f t).data = t.data)
    (hhook : ∀ t, (f t).hook = t.hook)
    (hstate : ∀ t, (f t).state = t.state)
    (houtcome : ∀ t, (f t).outcome = t.outcome)
    (halive : ∀ t, (f t).promiseAlive = t.promiseAlive) :
    Inv { s with taskList := updateTask s.taskList j f } := by
  have hfind : ∀ i : Nat,
      findTaskIn (updateTask s.taskList j f) i =
        if i = j then (findTaskIn s.taskList i).map f else findTaskIn s.taskList i :=
    findTaskIn_updateTask s.taskList j f hid
  have hfind2 : ∀ i : Nat, ∀ P : Task → Prop,
      (∀ t, P t → P (f t)) →
      (∃ t, findTaskIn s.taskList i = some t ∧ P t) →
      (∃ t, findTaskIn (updateTask s.taskList j f) i = some t ∧ P t) := by
    intro i P hPf ⟨t, htf, htP⟩
    rw [hfind i]
    by_cases hij : i = j
    · exact ⟨f t, by rw [if_pos hij, htf]; rfl, hPf t htP⟩
    · exact ⟨t, by rw [if_neg hij]; exact htf, htP⟩
  refine
    { ids := ?_, req_id := ?_, hook_action := ?_, running_state := ?_
      running_unique := ?_, queued_state := ?_, queued_nodup := hInv.queued_nodup
      queued_unposted := hInv.queued_unposted, posted_src := ?_
      running_posted := ?_, timeout_src := ?_, settled_iff := ?_
      alive_iff := ?_, file_src := ?_ }
  · show (updateTask s.taskList j f).map Task.id
      = List.range' 1 (updateTask s.taskList j f).length
    rw [updateTask_map_id s.taskList j f hid, updateTask_length]
    exact hInv.ids
  · intro u hu
    rcases mem_updateTask hu with ⟨t, ht, he | he⟩
    · rw [he, hreq, hid]; exact hInv.req_id t ht
    · rw [he]; exact hInv.req_id t ht
  · intro u hu g hg
    rcases mem_updateTask hu with ⟨t, ht, he | he⟩
    · rw [he, haction]; rw [he, hhook] at hg; exact hInv.hook_action t ht g hg
    · rw [he]; rw [he] at hg; exact hInv.hook_action t ht g hg
  · intro i hi
    exact hfind2 i _ (fun t ht => by rw [hstate]; exact ht)
      (hInv.running_state i hi)
  · intro u hu hrun
    rcases mem_updateTask hu with ⟨t, ht, he | he⟩
    · rw [he, hid]
      rw [he, hstate] at hrun
      exact hInv.running_unique t ht hrun
    · rw [he]
      rw [he] at hrun
      exact hInv.running_unique t ht hrun
  · intro i hi
    exact hfind2 i _ (fun t ht => by rw [hstate]; exact ht)
      (hInv.queued_state i hi)
  · intro m hm
    rcases hInv.posted_src m hm with ⟨t, htf, hd, hreqm⟩
    refine hfind2 m.taskId _ ?_ ⟨t, htf, hd, hreqm⟩
    intro t ⟨h1, h2⟩
    exact ⟨by rw [hdata]; exact h1,
      by rw [requestOf_congr hreq haction hdata]; exact h2⟩
  · intro i hi u hu hd
    simp only [findTask] at hu
    rw [hfind i] at hu
    by_cases hij : i = j
    · rw [if_pos hij] at hu
      cases htf : findTaskIn s.taskList i with
      | none => rw [htf] at hu; cases hu
      | some t =>
        rw [htf, Option.map_some'] at hu
        have : u = f t := (Option.some.inj hu).symm
        rw [this, requestOf_congr hreq haction hdata]
        rw [this, hdata] at hd
        exact hInv.running_posted i hi t htf hd
    · rw [if_neg hij] at hu
      exact hInv.running_posted i hi u hu hd
  · intro rr hrr
    rcases hInv.timeout_src rr hrr with ⟨t, htf, hd, hsr⟩
    refine hfind2 rr.taskId _ ?_ ⟨t, htf, hd, hsr⟩
    intro t ⟨h1, h2⟩
    exact ⟨by rw [hdata]; exact h1,
      by rw [syntheticResponse_congr hid hdata]; exact h2⟩
  · intro u hu
    rcases mem_updateTask hu with ⟨t, ht, he | he⟩
    · rw [he, hstate, houtcome]; exact hInv.settled_iff t ht
    · rw [he]; exact hInv.settled_iff t ht
  · intro u hu
    rcases mem_updateTask hu with ⟨t, ht, he | he⟩
    · rw [he, hstate, halive]; exact hInv.alive_iff t ht
    · rw [he]; exact hInv.alive_iff t ht
  · intro g hg
    rcases hInv.file_src g hg with ⟨t, ht, hact, rr, hout⟩
    by_cases hti : t.id = j
    · refine ⟨f t, ?_, by rw [haction]; exact hact, rr, by rw [houtcome]; exact hout⟩
      have := List.mem_map_of_mem (fun u => if u.id = j then f u else u) ht
      simpa [updateTask, hti] using this
    · exact ⟨t, mem_updateTask_of_ne ht hti, hact, rr, hout⟩

/-- `runTask` establishes the invariant when fired from an idle scheduler on
a present, pending, unqueued task — the two call sites (`newTask` on an idle
instance, and `runNextTask` after a completion) both satisfy exactly these
premises. -/
theorem Inv_runTask {s : ReaderState} {t : Task}
    (hids : s.taskList.map Task.id = List.range' 1 s.taskList.length)
    (hreq : ∀ u ∈ s.taskList, u.reqTaskId = u.id)
    (hhook : ∀ u ∈ s.taskList, ∀ f, u.hook = SettleHook.loadFile f →
      u.action = "loadFile")
    (hnorun : ∀ u ∈ s.taskList, u.state ≠ TaskState.Running)
    (hqs : ∀ i ∈ s.queuedTaskList, ∃ u, findTaskIn s.taskList i = some u ∧
      u.state = TaskState.Queued)
    (hqnd : s.queuedTaskList.Nodup)
    (hqup : ∀ i ∈ s.queuedTaskList, ∀ m ∈ s.posted, m.taskId ≠ i)
    (hps : ∀ m ∈ s.posted, ∃ u, findTaskIn s.taskList m.taskId = some u ∧
      isErrorData u.data = false ∧ m = requestOf u)
    (hts : ∀ r ∈ s.timeouts, ∃ u, findTaskIn s.taskList r.taskId = some u ∧
      isErrorData u.data = true ∧ r = syntheticResponse u)
    (hsi : ∀ u ∈ s.taskList, (u.outcome.isSome ↔ u.state = TaskState.Completed))
    (hai : ∀ u ∈ s.taskList, (u.promiseAlive = true ↔ u.state ≠ TaskState.Completed))
    (hfs : ∀ f, s.file = some f → ∃ u ∈ s.taskList, u.action = "loadFile" ∧
      ∃ r, u.outcome = some (Except.ok r))
    (hmem : findTaskIn s.taskList t.id = some t)
    (hnotq : t.id ∉ s.queuedTaskList)
    (hnc : t.state ≠ TaskState.Completed) :
    Inv (runTask s t) := by
  have hnd := ids_nodup hids
  have ht_mem : t ∈ s.taskList := findTaskIn_mem hmem
  have heqt : ∀ t' ∈ s.taskList, t'.id = t.id → t' = t := by
    intro t' ht' he
    have h1 := findTaskIn_of_mem hnd ht'
    rw [he, hmem] at h1
    exact (Option.some.inj h1).symm
  set g : Task → Task :=
    fun tk => { tk with state := TaskState.Running, startTime := s.now } with hg
  have hgid : ∀ tk, (g tk).id = tk.id := fun _ => rfl
  have hfind : ∀ j : Nat,
      findTaskIn (updateTask s.taskList t.id g) j =
        if j = t.id then (findTaskIn s.taskList j).map g
        else findTaskIn s.taskList j :=
    findTaskIn_updateTask s.taskList t.id g hgid
  have hfindt : findTaskIn (updateTask s.taskList t.id g) t.id = some (g t) := by
    rw [hfind, if_pos rfl, hmem, Option.map_some']
  have hfind_ne : ∀ j : Nat, j ≠ t.id →
      findTaskIn (updateTask s.taskList t.id g) j = findTaskIn s.taskList j := by
    intro j hj
    rw [hfind, if_neg hj]
  have hfind_any : ∀ (j : Nat) (P : Task → Prop), (∀ u, P u → P (g u)) →
      (∃ u, findTaskIn s.taskList j = some u ∧ P u) →
      (∃ u, findTaskIn (updateTask s.taskList t.id g) j = some u ∧ P u) := by
    intro j P hPg ⟨u, huf, huP⟩
    rw [hfind]
    by_cases hj : j = t.id
    · exact ⟨g u, by rw [if_pos hj, huf, Option.map_some'], hPg u huP⟩
    · exact ⟨u, by rw [if_neg hj, huf], huP⟩
  have hmain : ∀ postedE timeoutsE,
      (∀ m ∈ postedE, ∃ u, findTaskIn (updateTask s.taskList t.id g) m.taskId
        = some u ∧ isErrorData u.data = false ∧ m = requestOf u) →
      (∀ i ∈ s.queuedTaskList, ∀ m ∈ postedE, m.taskId ≠ i) →
      (isErrorData t.data = false → requestOf t ∈ postedE) →
      (∀ r ∈ timeoutsE, ∃ u, findTaskIn (updateTask s.taskList t.id g) r.taskId
        = some u ∧ isErrorData u.data = true ∧ r = syntheticResponse u) →
      Inv { s with
        runningTask := some t.id
        posted := postedE
        timeouts := timeoutsE
        taskList := updateTask s.taskList t.id g } := by
    intro postedE timeoutsE hpsE hqupE hselfE htsE
    refine
      { ids := ?_, req_id := ?_, hook_action := ?_, running_state := ?_
        running_unique := ?_, queued_state := ?_, queued_nodup := hqnd
        queued_unposted := hqupE, posted_src := hpsE
        running_posted := ?_, timeout_src := htsE, settled_iff := ?_
        alive_iff := ?_, file_src := ?_ }
    · show (updateTask s.taskList t.id g).map Task.id
        = List.range' 1 (updateTask s.taskList t.id g).length
      rw [updateTask_map_id s.taskList t.id g hgid, updateTask_length]
      exact hids
    · intro u hu
      rcases mem_updateTask hu with ⟨t', ht', he | he⟩
      · rw [he]; exact hreq t' ht'
      · rw [he]; exact hreq t' ht'
    · intro u hu f hf
      rcases mem_updateTask hu with ⟨t', ht', he | he⟩
      · rw [he]; rw [he] at hf; exact hhook t' ht' f hf
      · rw [he]; rw [he] at hf; exact hhook t' ht' f hf
    · intro i hi
      have : i = t.id := Option.some.inj hi.symm
      subst this
      exact ⟨g t, hfindt, rfl⟩
    · intro u hu hrun
      rcases mem_updateTask' hu with ⟨t', ht', ⟨hti, he⟩ | ⟨hti, he⟩⟩
      · rw [he, hgid, hti]
      · rw [he] at hrun
        exact absurd hrun (hnorun t' ht')
    · intro i hi
      rcases hqs i hi with ⟨u, huf, hust⟩
      have hit : i ≠ t.id := fun he => hnotq (he ▸ hi)
      refine ⟨u, ?_, hust⟩
      show findTaskIn (updateTask s.taskList t.id g) i = some u
      rw [hfind_ne i hit]
      exact huf
    · intro i hi u hu hd
      have : i = t.id := Option.some.inj hi.symm
      subst this
      simp only [findTask] at hu
      rw [hfindt] at hu
      have hu' : u = g t := (Option.some.inj hu).symm
      rw [hu']
      have : requestOf (g t) = requestOf t := rfl
      rw [this]
      apply hselfE
      rw [hu'] at hd
      exact hd
    · intro u hu
      rcases mem_updateTask' hu with ⟨t', ht', ⟨hti, he⟩ | ⟨hti, he⟩⟩
      · have ht'' : t' = t := heqt t' ht' hti
        subst ht''
        rw [he]
        show t'.outcome.isSome ↔ TaskState.Running = TaskState.Completed
        have h1 := hsi t' ht'
        have h2 : ¬ t'.outcome.isSome := by
          intro hsome
          exact hnc (h1.mp hsome)
        simp [h2]
      · rw [he]; exact hsi t' ht'
    · intro u hu
      rcases mem_updateTask' hu with ⟨t', ht', ⟨hti, he⟩ | ⟨hti, he⟩⟩
      · have ht'' : t' = t := heqt t' ht' hti
        subst ht''
        rw [he]
        show t'.promiseAlive = true ↔ TaskState.Running ≠ TaskState.Completed
        have h1 := (hai t' ht').mpr hnc
        simp [h1]
      · rw [he]; exact hai t' ht'
    · intro f hf
      rcases hfs f hf with ⟨u, hu, hact, rr, hout⟩
      have hut : u.id ≠ t.id := by
        intro he
        have : u = t := heqt u hu he
        subst this
        have : u.state = TaskState.Completed := (hsi u hu).mp (by rw [hout]; rfl)
        exact hnc this
      exact ⟨u, mem_updateTask_of_ne hu hut, hact, rr, hout⟩
  by_cases herr : isErrorData t.data = true
  · have hres : runTask s t = { s with
        runningTask := some t.id
        posted := s.posted
        timeouts := s.timeouts ++ [syntheticResponse t]
        taskList := updateTask s.taskList t.id g } := by
      simp [runTask, herr]
    rw [hres]
    apply hmain
    · intro m hm
      exact hfind_any m.taskId _ (fun u hu => hu) (hps m hm)
    · exact hqup
    · intro hfalse
      rw [herr] at hfalse
      cases hfalse
    · intro r hr
      rcases List.mem_append.mp hr with hr | hr
      · exact hfind_any r.taskId _ (fun u hu => hu) (hts r hr)
      · have : r = syntheticResponse t := List.mem_singleton.mp hr
        subst this
        exact ⟨g t, hfindt, herr, rfl⟩
  · have herr' : isErrorData t.data = false := by
      cases h : isErrorData t.data
      · rfl
      · exact absurd h herr
    have hres : runTask s t = { s with
        runningTask := some t.id
        posted := s.posted ++ [requestOf t]
        timeouts := s.timeouts
        taskList := updateTask s.taskList t.id g } := by
      simp [runTask, herr']
    rw [hres]
    apply hmain
    · intro m hm
      rcases List.mem_append.mp hm with hm | hm
      · exact hfind_any m.taskId _ (fun u hu => hu) (hps m hm)
      · have : m = requestOf t := List.mem_singleton.mp hm
        subst this
        have hreqt : (requestOf t).taskId = t.id := hreq t ht_mem
        rw [hreqt]
        exact ⟨g t, hfindt, herr', rfl⟩
    · intro i hi m hm
      rcases List.mem_append.mp hm with hm | hm
      · exact hqup i hi m hm
      · have : m = requestOf t := List.mem_singleton.mp hm
        subst this
        have hreqt : (requestOf t).taskId = t.id := hreq t ht_mem
        rw [hreqt]
        intro he
        exact hnotq (he ▸ hi)
    · intro _
      exact List.mem_append.mpr (Or.inr (List.mem_singleton.mpr rfl))
    · intro r hr
      exact hfind_any r.taskId _ (fun u hu => hu) (hts r hr)

theorem map_id_of_ne {ts : List Task} {i : Nat} {f : Task → Task}
    (h : i ∉ ts.map Task.id) : updateTask ts i f = ts := by
  induction ts with
  | nil => rfl
  | cons t rest ih =>
    rw [List.map_cons, List.mem_cons] at h
    push_neg at h
    show (if t.id = i then f t else t) :: updateTask rest i f = t :: rest
    rw [if_neg (fun he => h.1 he.symm), ih h.2]

theorem updateTask_append_fresh (ts : List Task) (t0 : Task) (f : Task → Task)
    (hfresh : t0.id ∉ ts.map Task.id) :
    updateTask (ts ++ [t0]) t0.id f = ts ++ [f t0] := by
  unfold updateTask
  rw [List.map_append]
  have h1 : updateTask ts t0.id f = ts := map_id_of_ne hfresh
  unfold updateTask at h1
  rw [h1]
  simp

theorem findTaskIn_append_fresh (ts : List Task) (t0 : Task)
    (hfresh : t0.id ∉ ts.map Task.id) :
    findTaskIn (ts ++ [t0]) t0.id = some t0 := by
  rw [findTaskIn_append, findTaskIn_eq_none hfresh, if_pos rfl]
  rfl

/-- `newTask` preserves the invariant, provided the `loadFile` hook only comes
with the `loadFile` action (which is how every public method calls it). -/
theorem Inv_newTask {s : ReaderState} (hInv : Inv s) (a : String) (d : JSValue)
    (hk : SettleHook)
    (hka : ∀ f, hk = SettleHook.loadFile f → a = "loadFile") :
    Inv (newTask s a d hk).1 := by
  have hid := newTaskId_eq hInv.ids
  set n := s.taskList.length with hn
  set t0 : Task := mkTask (n + 1) a d hk with ht0
  have ht0id : t0.id = n + 1 := rfl
  have hfresh : t0.id ∉ s.taskList.map Task.id := fresh_id_not_mem hInv.ids
  have hids1 : (s.taskList ++ [t0]).map Task.id
      = List.range' 1 (s.taskList ++ [t0]).length := by
    rw [List.map_append, hInv.ids, List.length_append]
    show _ = List.range' 1 (n + 1)
    rw [List.range'_1_concat]
    simp [ht0id, Nat.add_comm]
  have hbounds : ∀ u ∈ s.taskList, u.id ≤ n := fun u hu =>
    (mem_id_bounds hInv.ids hu).2
  have hfind_old : ∀ (j : Nat) (u : Task), findTaskIn s.taskList j = some u →
      findTaskIn (s.taskList ++ [t0]) j = some u := fun j u h =>
    findTaskIn_append_of_some h
  have hqbound : ∀ i ∈ s.queuedTaskList, i ≤ n := by
    intro i hi
    rcases hInv.queued_state i hi with ⟨u, huf, _⟩
    have := findTaskIn_id huf
    exact this ▸ hbounds u (findTaskIn_mem huf)
  have hpbound : ∀ m ∈ s.posted, m.taskId ≤ n := by
    intro m hm
    rcases hInv.posted_src m hm with ⟨u, huf, _, _⟩
    have := findTaskIn_id huf
    exact this ▸ hbounds u (findTaskIn_mem huf)
  by_cases hrun : s.runningTask = none
  · have hres : (newTask s a d hk).1
        = runTask { s with taskList := s.taskList ++ [t0] } t0 := by
      simp [newTask, hid, hrun, ht0, hn]
    rw [hres]
    apply Inv_runTask (t := t0)
    · exact hids1
    · intro u hu
      rcases List.mem_append.mp hu with hu | hu
      · exact hInv.req_id u hu
      · rw [List.mem_singleton.mp hu]; rfl
    · intro u hu f hf
      rcases List.mem_append.mp hu with hu | hu
      · exact hInv.hook_action u hu f hf
      · rw [List.mem_singleton.mp hu]
        rw [List.mem_singleton.mp hu] at hf
        exact hka f hf
    · intro u hu hst
      rcases List.mem_append.mp hu with hu | hu
      · have := hInv.running_unique u hu hst
        rw [hrun] at this
        cases this
      · rw [List.mem_singleton.mp hu] at hst
        cases hst
    · intro i hi
      rcases hInv.queued_state i hi with ⟨u, huf, hust⟩
      exact ⟨u, hfind_old i u huf, hust⟩
    · exact hInv.queued_nodup
    · exact hInv.queued_unposted
    · intro m hm
      rcases hInv.posted_src m hm with ⟨u, huf, h1, h2⟩
      exact ⟨u, hfind_old m.taskId u huf, h1, h2⟩
    · intro r hr
      rcases hInv.timeout_src r hr with ⟨u, huf, h1, h2⟩
      exact ⟨u, hfind_old r.taskId u huf, h1, h2⟩
    · intro u hu
      rcases List.mem_append.mp hu with hu | hu
      · exact hInv.settled_iff u hu
      · rw [List.mem_singleton.mp hu]
        simp [ht0, mkTask]
    · intro u hu
      rcases List.mem_append.mp hu with hu | hu
      · exact hInv.alive_iff u hu
      · rw [List.mem_singleton.mp hu]
        simp [ht0, mkTask]
    · intro f hf
      rcases hInv.file_src f hf with ⟨u, hu, h1, h2⟩
      exact ⟨u, List.mem_append_left _ hu, h1, h2⟩
    · exact findTaskIn_append_fresh s.taskList t0 hfresh
    · rw [ht0id]
      intro hq
      have := hqbound _ hq
      omega
    · simp [mkTask, ht0]
  · have hres : (newTask s a d hk).1 = { s with
        taskList := s.taskList ++ [{ t0 with state := TaskState.Queued }]
        queuedTaskList := s.queuedTaskList ++ [n + 1] } := by
      simp only [newTask, hid, hrun]
      rw [if_neg (by simp [hrun])]
      have := updateTask_append_fresh s.taskList t0
        (fun tk => { tk with state := TaskState.Queued }) hfresh
      rw [ht0id] at this
      simp only [← hn, ← ht0]
      rw [this]
    rw [hres]
    set t0q : Task := { t0 with state := TaskState.Queued } with ht0q
    have hfresh' : t0q.id ∉ s.taskList.map Task.id := hfresh
    have hids1' : (s.taskList ++ [t0q]).map Task.id
        = List.range' 1 (s.taskList ++ [t0q]).length := by
      rw [List.map_append, hInv.ids, List.length_append]
      show _ = List.range' 1 (n + 1)
      rw [List.range'_1_concat]
      simp [Nat.add_comm]
      rfl
    refine
      { ids := hids1', req_id := ?_, hook_action := ?_, running_state := ?_
        running_unique := ?_, queued_state := ?_, queued_nodup := ?_
        queued_unposted := ?_, posted_src := ?_, running_posted := ?_
        timeout_src := ?_, settled_iff := ?_, alive_iff := ?_, file_src := ?_ }
    · intro u hu
      rcases List.mem_append.mp hu with hu | hu
      · exact hInv.req_id u hu
      · rw [List.mem_singleton.mp hu]; rfl
    · intro u hu f hf
      rcases List.mem_append.mp hu with hu | hu
      · exact hInv.hook_action u hu f hf
      · rw [List.mem_singleton.mp hu]
        rw [List.mem_singleton.mp hu] at hf
        exact hka f hf
    · intro i hi
      rcases hInv.running_state i hi with ⟨u, huf, hust⟩
      exact ⟨u, findTaskIn_append_of_some huf, hust⟩
    · intro u hu hst
      rcases List.mem_append.mp hu with hu | hu
      · exact hInv.running_unique u hu hst
      · rw [List.mem_singleton.mp hu] at hst
        cases hst
    · intro i hi
      rcases List.mem_append.mp hi with hi | hi
      · rcases hInv.queued_state i hi with ⟨u, huf, hust⟩
        exact ⟨u, findTaskIn_append_of_some huf, hust⟩
      · rw [List.mem_singleton.mp hi]
        refine ⟨t0q, ?_, rfl⟩
        have := findTaskIn_append_fresh s.taskList t0q hfresh'
        exact this
    · rw [List.nodup_append]
      refine ⟨hInv.queued_nodup, List.nodup_singleton _, ?_⟩
      intro i hi hi'
      rw [List.mem_singleton.mp hi'] at hi
      have := hqbound _ hi
      omega
    · intro i hi m hm
      rcases List.mem_append.mp hi with hi | hi
      · exact hInv.queued_unposted i hi m hm
      · rw [List.mem_singleton.mp hi]
        have := hpbound m hm
        omega
    · intro m hm
      rcases hInv.posted_src m hm with ⟨u, huf, h1, h2⟩
      exact ⟨u, findTaskIn_append_of_some huf, h1, h2⟩
    · intro i hi u hu hd
      have hiold : i ≤ n := by
        rcases hInv.running_state i hi with ⟨v, hvf, _⟩
        have := findTaskIn_id hvf
        exact this ▸ hbounds v (findTaskIn_mem hvf)
      rcases hInv.running_state i hi with ⟨v, hvf, hvst⟩
      have hvm : findTaskIn (s.taskList ++ [t0q]) i = some v :=
        findTaskIn_append_of_some hvf
      simp only [findTask] at hu
      rw [hvm] at hu
      have : u = v := (Option.some.inj hu).symm
      subst this
      exact hInv.running_posted i hi u hvf hd
    · intro r hr
      rcases hInv.timeout_src r hr with ⟨u, huf, h1, h2⟩
      exact ⟨u, findTaskIn_append_of_some huf, h1, h2⟩
    · intro u hu
      rcases List.mem_append.mp hu with hu | hu
      · exact hInv.settled_iff u hu
      · rw [List.mem_singleton.mp hu]
        simp [ht0q, ht0, mkTask]
    · intro u hu
      rcases List.mem_append.mp hu with hu | hu
      · exact hInv.alive_iff u hu
      · rw [List.mem_singleton.mp hu]
        simp [ht0q, ht0, mkTask]
    · intro f hf
      rcases hInv.file_src f hf with ⟨u, hu, h1, h2⟩
      exact ⟨u, List.mem_append_left _ hu, h1, h2⟩

/-- `completeTask` — settling the running task with an arbitrary response and
dispatching the FIFO head — preserves the invariant. -/
theorem Inv_completeTask {s : ReaderState} (hInv : Inv s) (r : ResponseMsg) :
    Inv (completeTask s r) := by
  have hnd := ids_nodup hInv.ids
  cases hrun : s.runningTask with
  | none =>
    have : completeTask s r = s := by unfold completeTask; rw [hrun]
    rw [this]
    exact hInv
  | some i =>
    obtain ⟨t, htf, htst⟩ := hInv.running_state i hrun
    have htfL : findTaskIn s.taskList i = some t := htf
    have hti : t.id = i := findTaskIn_id htf
    have ht_mem : t ∈ s.taskList := findTaskIn_mem htf
    have heqt : ∀ t' ∈ s.taskList, t'.id = i → t' = t := by
      intro t' ht' he
      have h1 := findTaskIn_of_mem hnd ht'
      rw [he, htfL] at h1
      exact (Option.some.inj h1).symm
    have htout : t.outcome = none := by
      have h1 := hInv.settled_iff t ht_mem
      cases ho : t.outcome with
      | none => rfl
      | some o =>
        have : t.state = TaskState.Completed := h1.mp (by rw [ho]; rfl)
        rw [htst] at this
        cases this
    set outc : Except String TaskResponse :=
      if r.success then
        Except.ok { timeTaken := s.now - t.startTime, message := r.message
                    result := r.result }
      else Except.error r.message with houtc
    set fC : Task → Task := fun tk =>
      { tk with state := TaskState.Completed, outcome := some outc
                promiseAlive := false } with hfC
    have hfCid : ∀ tk, (fC tk).id = tk.id := fun _ => rfl
    -- the component form of `completeWith`
    have hcw : ∃ fileV lineV,
        completeWith s i r = { s with
          taskList := updateTask s.taskList i fC
          file := fileV, lineCount := lineV }
        ∧ (fileV = s.file ∨ (r.success = true ∧
            ∃ ff, t.hook = SettleHook.loadFile ff ∧ fileV = some ff)) := by
      unfold completeWith
      rw [htf]
      cases hsucc : r.success
      · refine ⟨s.file, s.lineCount, ?_, Or.inl rfl⟩
        simp only [Bool.false_eq_true, if_false]
        rw [hfC, houtc, hsucc]
        simp
      · cases hhk : t.hook with
        | none =>
          refine ⟨s.file, s.lineCount, ?_, Or.inl rfl⟩
          rw [hfC, houtc, hsucc]
          simp [applyHook, hhk]
        | loadFile ff =>
          refine ⟨some ff, resultLineCount r.result, ?_,
            Or.inr ⟨rfl, ff, rfl, rfl⟩⟩
          rw [hfC, houtc, hsucc]
          simp [applyHook, hhk]
    obtain ⟨fileV, lineV, hcweq, hfileV⟩ := hcw
    have hres : completeTask s r = runNextTask { s with
        taskList := updateTask s.taskList i fC
        file := fileV, lineCount := lineV
        runningTask := none } := by
      unfold completeTask
      rw [hrun]
      dsimp only
      rw [hcweq]
    rw [hres]
    -- shared facts about the post-completion task list
    have hfind : ∀ j : Nat,
        findTaskIn (updateTask s.taskList i fC) j =
          if j = i then (findTaskIn s.taskList j).map fC
          else findTaskIn s.taskList j :=
      findTaskIn_updateTask s.taskList i fC hfCid
    have hids' : (updateTask s.taskList i fC).map Task.id
        = List.range' 1 (updateTask s.taskList i fC).length := by
      rw [updateTask_map_id s.taskList i fC hfCid, updateTask_length]
      exact hInv.ids
    have hfind_any : ∀ (j : Nat) (P : Task → Prop), (∀ u, P u → P (fC u)) →
        (∃ u, findTaskIn s.taskList j = some u ∧ P u) →
        (∃ u, findTaskIn (updateTask s.taskList i fC) j = some u ∧ P u) := by
      intro j P hPf ⟨u, huf, huP⟩
      rw [hfind]
      by_cases hj : j = i
      · exact ⟨fC u, by rw [if_pos hj, huf, Option.map_some'], hPf u huP⟩
      · exact ⟨u, by rw [if_neg hj, huf], huP⟩
    have hreq' : ∀ u ∈ updateTask s.taskList i fC, u.reqTaskId = u.id := by
      intro u hu
      rcases mem_updateTask hu with ⟨t', ht', he | he⟩
      · rw [he]; exact hInv.req_id t' ht'
      · rw [he]; exact hInv.req_id t' ht'
    have hhook' : ∀ u ∈ updateTask s.taskList i fC, ∀ f,
        u.hook = SettleHook.loadFile f → u.action = "loadFile" := by
      intro u hu f hf
      rcases mem_updateTask hu with ⟨t', ht', he | he⟩
      · rw [he]; rw [he] at hf; exact hInv.hook_action t' ht' f hf
      · rw [he]; rw [he] at hf; exact hInv.hook_action t' ht' f hf
    have hnorun' : ∀ u ∈ updateTask s.taskList i fC,
        u.state ≠ TaskState.Running := by
      intro u hu
      rcases mem_updateTask' hu with ⟨t', ht', ⟨_, he⟩ | ⟨hne, he⟩⟩
      · rw [he]
        intro hcon
        cases hcon
      · rw [he]
        intro hcon
        have := hInv.running_unique t' ht' hcon
        rw [hrun] at this
        exact hne (Option.some.inj this).symm
    have hqueued' : ∀ j ∈ s.queuedTaskList, ∃ u,
        findTaskIn (updateTask s.taskList i fC) j = some u ∧
        u.state = TaskState.Queued := by
      intro j hj
      rcases hInv.queued_state j hj with ⟨u, huf, hust⟩
      have hji : j ≠ i := by
        intro he
        have : u = t := heqt u (findTaskIn_mem huf) ((findTaskIn_id huf).trans he)
        rw [this, htst] at hust
        cases hust
      exact ⟨u, by rw [hfind, if_neg hji]; exact huf, hust⟩
    have hps' : ∀ m ∈ s.posted, ∃ u,
        findTaskIn (updateTask s.taskList i fC) m.taskId = some u ∧
        isErrorData u.data = false ∧ m = requestOf u := by
      intro m hm
      exact hfind_any m.taskId _ (fun u hu => hu) (hInv.posted_src m hm)
    have hts' : ∀ rr ∈ s.timeouts, ∃ u,
        findTaskIn (updateTask s.taskList i fC) rr.taskId = some u ∧
        isErrorData u.data = true ∧ rr = syntheticResponse u := by
      intro rr hrr
      exact hfind_any rr.taskId _ (fun u hu => hu) (hInv.timeout_src rr hrr)
    have hsi' : ∀ u ∈ updateTask s.taskList i fC,
        (u.outcome.isSome ↔ u.state = TaskState.Completed) := by
      intro u hu
      rcases mem_updateTask' hu with ⟨t', ht', ⟨_, he⟩ | ⟨_, he⟩⟩
      · rw [he]; simp [hfC]
      · rw [he]; exact hInv.settled_iff t' ht'
    have hai' : ∀ u ∈ updateTask s.taskList i fC,
        (u.promiseAlive = true ↔ u.state ≠ TaskState.Completed) := by
      intro u hu
      rcases mem_updateTask' hu with ⟨t', ht', ⟨_, he⟩ | ⟨_, he⟩⟩
      · rw [he]; simp [hfC]
      · rw [he]; exact hInv.alive_iff t' ht'
    have hfs' : ∀ f, fileV = some f →
        ∃ u ∈ updateTask s.taskList i fC, u.action = "loadFile" ∧
        ∃ rr, u.outcome = some (Except.ok rr) := by
      intro f hf
      rcases hfileV with hconst | ⟨hsucc, ff, hhk, hfv⟩
      · rw [hconst] at hf
        rcases hInv.file_src f hf with ⟨u, hu, hact, rr, hout⟩
        have hune : u.id ≠ i := by
          intro he
          have : u = t := heqt u hu he
          rw [this, htout] at hout
          cases hout
        exact ⟨u, mem_updateTask_of_ne hu hune, hact, rr, hout⟩
      · refine ⟨fC t, ?_, ?_, ?_⟩
        · have := List.mem_map_of_mem (fun u => if u.id = i then fC u else u) ht_mem
          simpa [updateTask, hti] using this
        · show t.action = "loadFile"
          exact hInv.hook_action t ht_mem ff hhk
        · refine ⟨{ timeTaken := s.now - t.startTime, message := r.message
                    result := r.result }, ?_⟩
          show some outc = _
          rw [houtc, hsucc]
          simp
    obtain hq | ⟨h, rest, hq⟩ :
        s.queuedTaskList = [] ∨ ∃ h rest, s.queuedTaskList = h :: rest := by
      cases s.queuedTaskList with
      | nil => exact Or.inl rfl
      | cons a l => exact Or.inr ⟨a, l, rfl⟩
    · have hrn : runNextTask { s with
          taskList := updateTask s.taskList i fC
          file := fileV, lineCount := lineV
          runningTask := none } = { s with
          taskList := updateTask s.taskList i fC
          file := fileV, lineCount := lineV
          runningTask := none } := by
        unfold runNextTask
        dsimp only
        rw [hq]
      rw [hrn]
      refine
        { ids := hids', req_id := hreq', hook_action := hhook'
          running_state := ?_, running_unique := ?_, queued_state := ?_
          queued_nodup := ?_, queued_unposted := ?_, posted_src := hps'
          running_posted := ?_, timeout_src := hts', settled_iff := hsi'
          alive_iff := hai', file_src := hfs' }
      · intro j hj
        cases hj
      · intro u hu hst
        exact absurd hst (hnorun' u hu)
      · intro j hj
        rw [hq] at hj
        cases hj
      · show s.queuedTaskList.Nodup
        exact hInv.queued_nodup
      · intro j hj
        rw [hq] at hj
        cases hj
      · intro j hj
        rw [hq] at hj
        cases hj
    · obtain ⟨th, hthf, hthst⟩ := hqueued' h (by rw [hq]; exact List.mem_cons_self h rest)
      have hrn : runNextTask { s with
          taskList := updateTask s.taskList i fC
          file := fileV, lineCount := lineV
          runningTask := none } = runTask { s with
          taskList := updateTask s.taskList i fC
          file := fileV, lineCount := lineV
          runningTask := none
          queuedTaskList := rest } th := by
        unfold runNextTask
        dsimp only
        rw [hq]
        dsimp only
        rw [show findTask { s with
            taskList := updateTask s.taskList i fC
            file := fileV, lineCount := lineV
            runningTask := none
            queuedTaskList := h :: rest } h = some th from hthf]
      rw [hrn]
      have hthid : th.id = h := findTaskIn_id hthf
      have hqnodup : (h :: rest).Nodup := hq ▸ hInv.queued_nodup
      apply Inv_runTask (t := th)
      · exact hids'
      · exact hreq'
      · exact hhook'
      · exact hnorun'
      · intro j hj
        exact hqueued' j (by rw [hq]; exact List.mem_cons_of_mem h hj)
      · exact (List.nodup_cons.mp hqnodup).2
      · intro j hj m hm
        exact hInv.queued_unposted j (by rw [hq]; exact List.mem_cons_of_mem h hj) m hm
      · exact hps'
      · exact hts'
      · exact hsi'
      · exact hai'
      · exact hfs'
      · rw [hthid]; exact hthf
      · rw [hthid]
        exact (List.nodup_cons.mp hqnodup).1
      · rw [hthst]
        intro hcon
        cases hcon

/-- The clock advancing preserves the invariant. -/
theorem Inv_tick {s : ReaderState} (hInv : Inv s) (dt : Nat) :
    Inv { s with now := s.now + dt } :=
  { ids := hInv.ids, req_id := hInv.req_id, hook_action := hInv.hook_action
    running_state := hInv.running_state, running_unique := hInv.running_unique
    queued_state := hInv.queued_state, queued_nodup := hInv.queued_nodup
    queued_unposted := hInv.queued_unposted, posted_src := hInv.posted_src
    running_posted := hInv.running_posted, timeout_src := hInv.timeout_src
    settled_iff := hInv.settled_iff, alive_iff := hInv.alive_iff
    file_src := hInv.file_src }

/-- Resetting the recorded file (the start of `loadFile`) preserves the
invariant. -/
theorem Inv_setFileNone {s : ReaderState} (hInv : Inv s) :
    Inv { s with file := none, lineCount := 0 } :=
  { ids := hInv.ids, req_id := hInv.req_id, hook_action := hInv.hook_action
    running_state := hInv.running_state, running_unique := hInv.running_unique
    queued_state := hInv.queued_state, queued_nodup := hInv.queued_nodup
    queued_unposted := hInv.queued_unposted, posted_src := hInv.posted_src
    running_posted := hInv.running_posted, timeout_src := hInv.timeout_src
    settled_iff := hInv.settled_iff, alive_iff := hInv.alive_iff
    file_src := fun f hf => by cases hf }

/-- Toggling verbose logging preserves the invariant. -/
theorem Inv_setVerbose {s : ReaderState} (hInv : Inv s) (b : Bool) :
    Inv { s with verboseLogging := b } :=
  { ids := hInv.ids, req_id := hInv.req_id, hook_action := hInv.hook_action
    running_state := hInv.running_state, running_unique := hInv.running_unique
    queued_state := hInv.queued_state, queued_nodup := hInv.queued_nodup
    queued_unposted := hInv.queued_unposted, posted_src := hInv.posted_src
    running_posted := hInv.running_posted, timeout_src := hInv.timeout_src
    settled_iff := hInv.settled_iff, alive_iff := hInv.alive_iff
    file_src := hInv.file_src }

/-- Popping the head of the timeout queue preserves the invariant. -/
theorem Inv_timeouts_tail {s : ReaderState} (hInv : Inv s) {r : ResponseMsg}
    {rest : List ResponseMsg} (hto : s.timeouts = r :: rest) :
    Inv { s with timeouts := rest } :=
  { ids := hInv.ids, req_id := hInv.req_id, hook_action := hInv.hook_action
    running_state := hInv.running_state, running_unique := hInv.running_unique
    queued_state := hInv.queued_state, queued_nodup := hInv.queued_nodup
    queued_unposted := hInv.queued_unposted, posted_src := hInv.posted_src
    running_posted := hInv.running_posted
    timeout_src := fun rr hrr =>
      hInv.timeout_src rr (by rw [hto]; exact List.mem_cons_of_mem r hrr)
    settled_iff := hInv.settled_iff, alive_iff := hInv.alive_iff
    file_src := hInv.file_src }

/-- Every scheduler step preserves the invariant. -/
theorem Inv_step {s : ReaderState} (hInv : Inv s) (e : Event) :
    Inv (step s e) := by
  cases e with
  | call c =>
    show Inv (doCall s c)
    cases c with
    | sniffLines f n d =>
      unfold doCall
      dsimp only
      exact Inv_newTask hInv _ _ _ (fun g hg => by cases hg)
    | loadFile f cfg =>
      have hInv0 := Inv_setFileNone hInv
      unfold doCall
      dsimp only
      cases cfg with
      | none => exact Inv_newTask hInv0 _ _ _ (fun g _ => rfl)
      | some c => exact Inv_newTask hInv0 _ _ _ (fun g _ => rfl)
    | setChunkSize n =>
      unfold doCall
      dsimp only
      exact Inv_newTask hInv _ _ _ (fun g hg => by cases hg)
    | enableVerbose =>
      unfold doCall
      dsimp only
      exact Inv_newTask (Inv_setVerbose hInv true) _ _ _ (fun g hg => by cases hg)
    | getLines2 lr =>
      unfold doCall
      dsimp only
      split
      · exact Inv_newTask hInv _ _ _ (fun g hg => by cases hg)
      · exact Inv_newTask hInv _ _ _ (fun g hg => by cases hg)
    | getLines start count d =>
      unfold doCall
      dsimp only
      split
      · exact Inv_newTask hInv _ _ _ (fun g hg => by cases hg)
      · exact Inv_newTask hInv _ _ _ (fun g hg => by cases hg)
    | getSporadicLines lr d =>
      unfold doCall
      dsimp only
      exact Inv_newTask hInv _ _ _ (fun g hg => by cases hg)
    | iterateLines c start count =>
      unfold doCall
      dsimp only
      split
      · exact Inv_newTask hInv _ _ _ (fun g hg => by cases hg)
      · exact Inv_newTask hInv _ _ _ (fun g hg => by cases hg)
    | iterateSporadicLines c lr =>
      unfold doCall
      dsimp only
      exact Inv_newTask hInv _ _ _ (fun g hg => by cases hg)
  | worker r =>
    show Inv (match handleWorkerMessage s r with
      | .ok s1 => s1
      | .error _ => s)
    cases hrun : s.runningTask with
    | none =>
      have hh : handleWorkerMessage s r = .ok s := by
        unfold handleWorkerMessage
        rw [hrun]
      rw [hh]
      exact hInv
    | some i =>
      by_cases hid : r.taskId ≠ i
      · have hh : handleWorkerMessage s r = .error
            ("Received task ID (" ++ toString r.taskId ++
              ") does not match the running task ID (" ++ toString i ++ ").") := by
          unfold handleWorkerMessage
          rw [hrun]
          dsimp only
          rw [if_pos hid]
        rw [hh]
        exact hInv
      · by_cases hdone : r.done = true
        · have hh : handleWorkerMessage s r = .ok (completeTask s r) := by
            unfold handleWorkerMessage
            rw [hrun]
            dsimp only
            rw [if_neg hid, if_pos hdone]
          rw [hh]
          exact Inv_completeTask hInv r
        · by_cases hvp : validProgressResult r.result = true
          · have hh : handleWorkerMessage s r = .ok { s with
                taskList := updateTask s.taskList i (fun t =>
                  if t.onProgress then
                    { t with progressLog := t.progressLog ++ [numValue r.result] }
                  else t) } := by
              unfold handleWorkerMessage
              rw [hrun]
              dsimp only
              rw [if_neg hid, if_neg hdone, if_pos hvp]
            rw [hh]
            exact Inv_updateTask_benign hInv i _
              (fun t => by split <;> rfl)
              (fun t => by split <;> rfl)
              (fun t => by split <;> rfl)
              (fun t => by split <;> rfl)
              (fun t => by split <;> rfl)
              (fun t => by split <;> rfl)
              (fun t => by split <;> rfl)
              (fun t => by split <;> rfl)
          · have hh : handleWorkerMessage s r = .error "Unkown message type" := by
              unfold handleWorkerMessage
              rw [hrun]
              dsimp only
              rw [if_neg hid, if_neg hdone, if_neg hvp]
            rw [hh]
            exact hInv
  | fireTimeout =>
    show Inv (step s .fireTimeout)
    unfold step
    cases hto : s.timeouts with
    | nil => exact hInv
    | cons r rest =>
      exact Inv_completeTask (Inv_timeouts_tail hInv hto) r
  | tick dt => exact Inv_tick hInv dt
  | registerProgress i =>
    exact Inv_updateTask_benign hInv i _
      (fun t => rfl) (fun t => rfl) (fun t => rfl) (fun t => rfl)
      (fun t => rfl) (fun t => rfl) (fun t => rfl) (fun t => rfl)

/-- The fresh instance satisfies the invariant. -/
theorem Inv_initialState : Inv initialState :=
  { ids := rfl
    req_id := fun t ht => by cases ht
    hook_action := fun t ht => by cases ht
    running_state := fun i hi => by cases hi
    running_unique := fun t ht => by cases ht
    queued_state := fun i hi => by cases hi
    queued_nodup := List.nodup_nil
    queued_unposted := fun i hi => by cases hi
    posted_src := fun m hm => by cases hm
    running_posted := fun i hi => by cases hi
    timeout_src := fun r hr => by cases hr
    settled_iff := fun t ht => by cases ht
    alive_iff := fun t ht => by cases ht
    file_src := fun f hf => by cases hf }

/-- The invariant holds along any run. -/
theorem Inv_run {s : ReaderState} (hInv : Inv s) (es : List Event) :
    Inv (run s es) := by
  induction es generalizing s with
  | nil => exact hInv
  | cons e rest ih => exact ih (Inv_step hInv e)

/-- The invariant holds in every reachable state. -/
theorem invariant_reachable {s : ReaderState} (hs : Reachable s) : Inv s := by
  obtain ⟨es, he⟩ := hs
  rw [← he]
  exact Inv_run Inv_initialState es

/-! ## Shape lemmas: explicit forms of the composite operations -/

theorem runTask_err {s : ReaderState} {t : Task}
    (herr : isErrorData t.data = true) :
    runTask s t = { s with
      runningTask := some t.id
      timeouts := s.timeouts ++ [syntheticResponse t]
      taskList := updateTask s.taskList t.id
        (fun tk => { tk with state := TaskState.Running, startTime := s.now }) } := by
  simp [runTask, herr]

theorem runTask_post {s : ReaderState} {t : Task}
    (herr : isErrorData t.data = false) :
    runTask s t = { s with
      runningTask := some t.id
      posted := s.posted ++ [requestOf t]
      taskList := updateTask s.taskList t.id
        (fun tk => { tk with state := TaskState.Running, startTime := s.now }) } := by
  simp [runTask, herr]

theorem runNextTask_nil {s : ReaderState} (hq : s.queuedTaskList = []) :
    runNextTask s = s := by
  unfold runNextTask
  rw [hq]

theorem runNextTask_cons {s : ReaderState} {h : Nat} {rest : List Nat} {th : Task}
    (hq : s.queuedTaskList = h :: rest) (hth : findTask s h = some th) :
    runNextTask s = runTask { s with queuedTaskList := rest } th := by
  unfold runNextTask
  rw [hq]
  dsimp only
  rw [hth]

theorem completeTask_none {s : ReaderState} (hrun : s.runningTask = none)
    (r : ResponseMsg) : completeTask s r = s := by
  unfold completeTask
  rw [hrun]

theorem completeTask_some {s : ReaderState} {i : Nat}
    (hrun : s.runningTask = some i) (r : ResponseMsg) :
    completeTask s r = runNextTask { completeWith s i r with runningTask := none } := by
  unfold completeTask
  rw [hrun]

theorem completeWith_shape {s : ReaderState} {i : Nat} {t : Task}
    (htf : findTask s i = some t) (r : ResponseMsg) :
    ∃ fileV lineV, completeWith s i r = { s with
        taskList := updateTask s.taskList i (fun tk => { tk with
          state := TaskState.Completed
          promiseAlive := false
          outcome := some (if r.success then
              Except.ok { timeTaken := s.now - t.startTime, message := r.message
                          result := r.result }
            else Except.error r.message) })
        file := fileV, lineCount := lineV }
      ∧ (fileV = s.file ∨ (r.success = true ∧
          ∃ ff, t.hook = SettleHook.loadFile ff ∧ fileV = some ff)) := by
  unfold completeWith
  rw [htf]
  cases hsucc : r.success
  · refine ⟨s.file, s.lineCount, ?_, Or.inl rfl⟩
    simp [hsucc]
  · cases hhk : t.hook with
    | none =>
      refine ⟨s.file, s.lineCount, ?_, Or.inl rfl⟩
      simp [hsucc, applyHook, hhk]
    | loadFile ff =>
      refine ⟨some ff, resultLineCount r.result, ?_, Or.inr ⟨rfl, ff, rfl, rfl⟩⟩
      simp [hsucc, applyHook, hhk]

theorem newTask_idle {s : ReaderState}
    (hids : s.taskList.map Task.id = List.range' 1 s.taskList.length)
    (hrun : s.runningTask = none) (a : String) (d : JSValue) (hk : SettleHook) :
    newTask s a d hk =
      (runTask { s with taskList :=
          s.taskList ++ [mkTask (s.taskList.length + 1) a d hk] }
        (mkTask (s.taskList.length + 1) a d hk),
       s.taskList.length + 1) := by
  have hid := newTaskId_eq hids
  simp [newTask, hid, hrun]

theorem newTask_busy {s : ReaderState}
    (hids : s.taskList.map Task.id = List.range' 1 s.taskList.length)
    (hrun : s.runningTask ≠ none) (a : String) (d : JSValue) (hk : SettleHook) :
    newTask s a d hk =
      ({ s with
          taskList := s.taskList ++
            [{ mkTask (s.taskList.length + 1) a d hk with state := TaskState.Queued }]
          queuedTaskList := s.queuedTaskList ++ [s.taskList.length + 1] },
       s.taskList.length + 1) := by
  have hid := newTaskId_eq hids
  have hfresh : (mkTask (s.taskList.length + 1) a d hk).id ∉ s.taskList.map Task.id :=
    fresh_id_not_mem hids
  simp only [newTask, hid]
  rw [if_neg (by simpa using hrun)]
  have := updateTask_append_fresh s.taskList (mkTask (s.taskList.length + 1) a d hk)
    (fun tk => { tk with state := TaskState.Queued }) hfresh
  have hmid : (mkTask (s.taskList.length + 1) a d hk).id
      = s.taskList.length + 1 := rfl
  rw [hmid] at this
  rw [this]

/-! ## The conformance invariant -/

/-- Completing the running task preserves the two conformance-only
invariants, provided no other timeout is pending and — when the completed
task carries `Error` data — the response is its own synthetic failure. -/
theorem CInv_completeTask_aux {s : ReaderState} (hInv : Inv s) {i : Nat}
    {t : Task} (r : ResponseMsg)
    (hrun : s.runningTask = some i) (htf : findTask s i = some t)
    (hto0 : s.timeouts = [])
    (herrmsg : isErrorData t.data = true →
      r.success = false ∧ r.message = errorMessage t.data)
    (hEO : ∀ u ∈ s.taskList, isErrorData u.data = true →
      ∀ o, u.outcome = some o → o = Except.error (errorMessage u.data)) :
    ((completeTask s r).timeouts = [] ∨ ∃ rr, (completeTask s r).timeouts = [rr]
      ∧ (completeTask s r).runningTask = some rr.taskId)
    ∧ (∀ u ∈ (completeTask s r).taskList, isErrorData u.data = true →
        ∀ o, u.outcome = some o → o = Except.error (errorMessage u.data)) := by
  have hnd := ids_nodup hInv.ids
  obtain ⟨tr, htfr, htstr⟩ := hInv.running_state i hrun
  have htr : tr = t := by
    rw [htf] at htfr
    exact (Option.some.inj htfr).symm
  subst htr
  have hti : tr.id = i := findTaskIn_id htf
  have heqt : ∀ t' ∈ s.taskList, t'.id = i → t' = tr := by
    intro t' ht' he
    have h1 := findTaskIn_of_mem hnd ht'
    rw [he] at h1
    rw [show findTaskIn s.taskList i = some tr from htf] at h1
    exact (Option.some.inj h1).symm
  obtain ⟨fileV, lineV, hcw, _⟩ := completeWith_shape htf r
  -- the updated-task-list form of the state after `completeWith`
  have hEOupd : ∀ u ∈ updateTask s.taskList i (fun tk => { tk with
        state := TaskState.Completed
        promiseAlive := false
        outcome := some (if r.success then
            Except.ok { timeTaken := s.now - tr.startTime, message := r.message
                        result := r.result }
          else Except.error r.message) }),
      isErrorData u.data = true →
      ∀ o, u.outcome = some o → o = Except.error (errorMessage u.data) := by
    intro u hu herru o ho
    rcases mem_updateTask' hu with ⟨t', ht', ⟨hti', he⟩ | ⟨_, he⟩⟩
    · have ht'' : t' = tr := heqt t' ht' hti'
      subst ht''
      rw [he] at herru ho ⊢
      dsimp only at herru ho ⊢
      obtain ⟨hs, hm⟩ := herrmsg herru
      rw [hs] at ho
      simp only [Bool.false_eq_true, if_false] at ho
      have : o = Except.error r.message := (Option.some.inj ho).symm
      rw [this, hm]
    · rw [he] at herru ho ⊢
      exact hEO t' ht' herru o ho
  rw [completeTask_some hrun r, hcw]
  obtain hq | ⟨h, rest, hq⟩ :
      s.queuedTaskList = [] ∨ ∃ h rest, s.queuedTaskList = h :: rest := by
    cases s.queuedTaskList with
    | nil => exact Or.inl rfl
    | cons a l => exact Or.inr ⟨a, l, rfl⟩
  · rw [runNextTask_nil (by simpa using hq)]
    constructor
    · left
      simpa using hto0
    · intro u hu
      exact hEOupd u hu
  · obtain ⟨th, hthf0, hthst⟩ := hInv.queued_state h (by rw [hq]; exact List.mem_cons_self h rest)
    have hhi : h ≠ i := by
      intro he
      have : th = tr := heqt th (findTaskIn_mem hthf0) ((findTaskIn_id hthf0).trans he)
      rw [this, htstr] at hthst
      cases hthst
    have hthid : th.id = h := findTaskIn_id hthf0
    have hth' : findTaskIn (updateTask s.taskList i (fun tk => { tk with
        state := TaskState.Completed
        promiseAlive := false
        outcome := some (if r.success then
            Except.ok { timeTaken := s.now - tr.startTime, message := r.message
                        result := r.result }
          else Except.error r.message) })) h = some th := by
      have heq := findTaskIn_updateTask s.taskList i (fun tk => { tk with
          state := TaskState.Completed
          promiseAlive := false
          outcome := some (if r.success then
              Except.ok { timeTaken := s.now - tr.startTime, message := r.message
                          result := r.result }
            else Except.error r.message) }) (fun _ => rfl) h
      rw [heq, if_neg hhi]
      exact hthf0
    rw [runNextTask_cons (by simpa using hq) (by exact hth')]
    by_cases herrth : isErrorData th.data = true
    · rw [runTask_err herrth]
      constructor
      · right
        refine ⟨syntheticResponse th, ?_, ?_⟩
        · show s.timeouts ++ [syntheticResponse th] = [syntheticResponse th]
          rw [hto0]
          rfl
        · show some th.id = some (syntheticResponse th).taskId
          rfl
      · intro u hu herru o ho
        rcases mem_updateTask hu with ⟨t', ht', he | he⟩
        · rw [he] at herru ho ⊢
          exact hEOupd t' ht' herru o ho
        · rw [he] at herru ho ⊢
          exact hEOupd t' ht' herru o ho
    · have herrth' : isErrorData th.data = false := by
        cases hx : isErrorData th.data
        · rfl
        · exact absurd hx herrth
      rw [runTask_post herrth']
      constructor
      · left
        show s.timeouts = []
        exact hto0
      · intro u hu herru o ho
        rcases mem_updateTask hu with ⟨t', ht', he | he⟩
        · rw [he] at herru ho ⊢
          exact hEOupd t' ht' herru o ho
        · rw [he] at herru ho ⊢
          exact hEOupd t' ht' herru o ho

/-- Every conforming scheduler step preserves the conformance invariant. -/
theorem CInv_step {s : ReaderState} (hC : CInv s) {e : Event}
    (hconf : eventConforms s e = true) : CInv (step s e) := by
  have hInv := hC.toInv
  have hTS0 : s.runningTask = none → s.timeouts = [] := by
    intro hrn
    rcases hC.timeouts_shape with h | ⟨rr, _, hrun⟩
    · exact h
    · rw [hrn] at hrun
      cases hrun
  have hkey : ∀ s0 : ReaderState, s0.taskList = s.taskList →
      s0.runningTask = s.runningTask → s0.timeouts = s.timeouts →
      ∀ (a : String) (d : JSValue) (hk : SettleHook),
      ((newTask s0 a d hk).1.timeouts = [] ∨
        ∃ rr, (newTask s0 a d hk).1.timeouts = [rr] ∧
          (newTask s0 a d hk).1.runningTask = some rr.taskId)
      ∧ (∀ u ∈ (newTask s0 a d hk).1.taskList, isErrorData u.data = true →
          ∀ o, u.outcome = some o → o = Except.error (errorMessage u.data)) := by
    intro s0 h1 h2 h3 a d hk
    have hids0 : s0.taskList.map Task.id = List.range' 1 s0.taskList.length := by
      rw [h1]
      exact hInv.ids
    have hEOlift : ∀ u ∈ s0.taskList ++ [mkTask (s0.taskList.length + 1) a d hk],
        isErrorData u.data = true →
        ∀ o, u.outcome = some o → o = Except.error (errorMessage u.data) := by
      intro u hu herru o ho
      rcases List.mem_append.mp hu with hu | hu
      · rw [h1] at hu
        exact hC.error_outcome u hu herru o ho
      · rw [List.mem_singleton.mp hu] at ho
        cases ho
    by_cases hrun0 : s0.runningTask = none
    · have hto_nil : s0.timeouts = [] := by
        rw [h3]
        apply hTS0
        rw [← h2]
        exact hrun0
      rw [newTask_idle hids0 hrun0 a d hk]
      dsimp only
      by_cases herr : isErrorData (mkTask (s0.taskList.length + 1) a d hk).data = true
      · rw [runTask_err herr]
        constructor
        · right
          refine ⟨syntheticResponse (mkTask (s0.taskList.length + 1) a d hk), ?_, rfl⟩
          show s0.timeouts ++ _ = _
          rw [hto_nil]
          rfl
        · intro u hu herru o ho
          rcases mem_updateTask hu with ⟨t', ht', he | he⟩
          · rw [he] at herru ho ⊢
            exact hEOlift t' ht' herru o ho
          · rw [he] at herru ho ⊢
            exact hEOlift t' ht' herru o ho
      · have herr' : isErrorData (mkTask (s0.taskList.length + 1) a d hk).data = false := by
          cases hx : isErrorData (mkTask (s0.taskList.length + 1) a d hk).data
          · rfl
          · exact absurd hx herr
        rw [runTask_post herr']
        constructor
        · left
          show s0.timeouts = []
          exact hto_nil
        · intro u hu herru o ho
          rcases mem_updateTask hu with ⟨t', ht', he | he⟩
          · rw [he] at herru ho ⊢
            exact hEOlift t' ht' herru o ho
          · rw [he] at herru ho ⊢
            exact hEOlift t' ht' herru o ho
    · rw [newTask_busy hids0 hrun0 a d hk]
      dsimp only
      constructor
      · show s0.timeouts = [] ∨ ∃ rr, s0.timeouts = [rr] ∧ s0.runningTask = some rr.taskId
        rw [h3, h2]
        exact hC.timeouts_shape
      · intro u hu herru o ho
        rcases List.mem_append.mp hu with hu | hu
        · rw [h1] at hu
          exact hC.error_outcome u hu herru o ho
        · rw [List.mem_singleton.mp hu] at ho
          cases ho
  cases e with
  | tick dt =>
    exact { toInv := Inv_step hInv (.tick dt)
            timeouts_shape := hC.timeouts_shape
            error_outcome := hC.error_outcome }
  | registerProgress i =>
    refine { toInv := Inv_step hInv (.registerProgress i)
             timeouts_shape := hC.timeouts_shape, error_outcome := ?_ }
    intro u hu herru o ho
    rcases mem_updateTask hu with ⟨t', ht', he | he⟩
    · rw [he] at herru ho ⊢
      exact hC.error_outcome t' ht' herru o ho
    · rw [he] at herru ho ⊢
      exact hC.error_outcome t' ht' herru o ho
  | call c =>
    cases c with
    | sniffLines f n d =>
      exact { toInv := Inv_step hInv _
              timeouts_shape := (hkey s rfl rfl rfl _ _ _).1
              error_outcome := (hkey s rfl rfl rfl _ _ _).2 }
    | loadFile f cfg =>
      cases cfg with
      | none =>
        exact { toInv := Inv_step hInv _
                timeouts_shape := (hkey { s with file := none, lineCount := 0 } rfl rfl rfl _ _ _).1
                error_outcome := (hkey { s with file := none, lineCount := 0 } rfl rfl rfl _ _ _).2 }
      | some c =>
        exact { toInv := Inv_step hInv _
                timeouts_shape := (hkey { s with file := none, lineCount := 0 } rfl rfl rfl _ _ _).1
                error_outcome := (hkey { s with file := none, lineCount := 0 } rfl rfl rfl _ _ _).2 }
    | setChunkSize n =>
      exact { toInv := Inv_step hInv _
              timeouts_shape := (hkey s rfl rfl rfl _ _ _).1
              error_outcome := (hkey s rfl rfl rfl _ _ _).2 }
    | enableVerbose =>
      exact { toInv := Inv_step hInv _
              timeouts_shape := (hkey { s with verboseLogging := true } rfl rfl rfl _ _ _).1
              error_outcome := (hkey { s with verboseLogging := true } rfl rfl rfl _ _ _).2 }
    | getLines2 lr =>
      by_cases hf : s.file.isNone = true
      · have hd : step s (.call (.getLines2 lr))
            = (newTask s "getLines2" notLoadedError .none).1 := by
          show doCall s (.getLines2 lr) = _
          unfold doCall
          dsimp only
          rw [if_pos hf]
        refine { toInv := Inv_step hInv _, timeouts_shape := ?_, error_outcome := ?_ }
        · rw [hd]; exact (hkey s rfl rfl rfl _ _ _).1
        · rw [hd]; exact (hkey s rfl rfl rfl _ _ _).2
      · have hd : step s (.call (.getLines2 lr))
            = (newTask s "getLines2" lr .none).1 := by
          show doCall s (.getLines2 lr) = _
          unfold doCall
          dsimp only
          rw [if_neg hf]
        refine { toInv := Inv_step hInv _, timeouts_shape := ?_, error_outcome := ?_ }
        · rw [hd]; exact (hkey s rfl rfl rfl _ _ _).1
        · rw [hd]; exact (hkey s rfl rfl rfl _ _ _).2
    | getLines start count d =>
      by_cases hf : s.file.isNone = true
      · have hd : step s (.call (.getLines start count d))
            = (newTask s "getLines" notLoadedError .none).1 := by
          show doCall s (.getLines start count d) = _
          unfold doCall
          dsimp only
          rw [if_pos hf]
        refine { toInv := Inv_step hInv _, timeouts_shape := ?_, error_outcome := ?_ }
        · rw [hd]; exact (hkey s rfl rfl rfl _ _ _).1
        · rw [hd]; exact (hkey s rfl rfl rfl _ _ _).2
      · have hd : step s (.call (.getLines start count d))
            = (newTask s "getLines"
                (.obj (fieldsOf [("start", .num start), ("count", .num count)])) .none).1 := by
          show doCall s (.getLines start count d) = _
          unfold doCall
          dsimp only
          rw [if_neg hf]
        refine { toInv := Inv_step hInv _, timeouts_shape := ?_, error_outcome := ?_ }
        · rw [hd]; exact (hkey s rfl rfl rfl _ _ _).1
        · rw [hd]; exact (hkey s rfl rfl rfl _ _ _).2
    | getSporadicLines lr d =>
      exact { toInv := Inv_step hInv _
              timeouts_shape := (hkey s rfl rfl rfl _ _ _).1
              error_outcome := (hkey s rfl rfl rfl _ _ _).2 }
    | iterateLines c start count =>
      by_cases hf : s.file.isNone = true
      · have hd : step s (.call (.iterateLines c start count))
            = (newTask s "getLines" notLoadedError .none).1 := by
          show doCall s (.iterateLines c start count) = _
          unfold doCall
          dsimp only
          rw [if_pos hf]
        refine { toInv := Inv_step hInv _, timeouts_shape := ?_, error_outcome := ?_ }
        · rw [hd]; exact (hkey s rfl rfl rfl _ _ _).1
        · rw [hd]; exact (hkey s rfl rfl rfl _ _ _).2
      · have hd : step s (.call (.iterateLines c start count))
            = (newTask s "iterateLines"
                (.obj (fieldsOf
                  [("config", encodeConfigMessage (getItertorConfigMessage (cloneDeepConfig c))),
                   ("start", optionalNum start), ("count", optionalNum count)])) .none).1 := by
          show doCall s (.iterateLines c start count) = _
          unfold doCall
          dsimp only
          rw [if_neg hf]
        refine { toInv := Inv_step hInv _, timeouts_shape := ?_, error_outcome := ?_ }
        · rw [hd]; exact (hkey s rfl rfl rfl _ _ _).1
        · rw [hd]; exact (hkey s rfl rfl rfl _ _ _).2
    | iterateSporadicLines c lr =>
      exact { toInv := Inv_step hInv _
              timeouts_shape := (hkey s rfl rfl rfl _ _ _).1
              error_outcome := (hkey s rfl rfl rfl _ _ _).2 }
  | worker r =>
    have hmsg : ∃ m ∈ s.posted, m.taskId = r.taskId := by
      have := List.any_eq_true.mp hconf
      rcases this with ⟨m, hm, hpred⟩
      exact ⟨m, hm, of_decide_eq_true hpred⟩
    cases hrun : s.runningTask with
    | none =>
      have hd : step s (.worker r) = s := by
        show (match handleWorkerMessage s r with
          | .ok s1 => s1
          | .error _ => s) = s
        have hh : handleWorkerMessage s r = .ok s := by
          unfold handleWorkerMessage
          rw [hrun]
        rw [hh]
      rw [hd]
      exact hC
    | some i =>
      by_cases hid : r.taskId ≠ i
      · have hd : step s (.worker r) = s := by
          show (match handleWorkerMessage s r with
            | .ok s1 => s1
            | .error _ => s) = s
          have hh : handleWorkerMessage s r = .error
              ("Received task ID (" ++ toString r.taskId ++
                ") does not match the running task ID (" ++ toString i ++ ").") := by
            unfold handleWorkerMessage
            rw [hrun]
            dsimp only
            rw [if_pos hid]
          rw [hh]
        rw [hd]
        exact hC
      · have hid' : r.taskId = i := not_not.mp hid
        by_cases hdone : r.done = true
        · have hd : step s (.worker r) = completeTask s r := by
            show (match handleWorkerMessage s r with
              | .ok s1 => s1
              | .error _ => s) = completeTask s r
            have hh : handleWorkerMessage s r = .ok (completeTask s r) := by
              unfold handleWorkerMessage
              rw [hrun]
              dsimp only
              rw [if_neg hid, if_pos hdone]
            rw [hh]
          obtain ⟨t, htf, htst⟩ := hInv.running_state i hrun
          -- the running task was posted, hence carries normal data
          have htnonerr : isErrorData t.data = false := by
            obtain ⟨m, hm, hmid⟩ := hmsg
            obtain ⟨tp, htpf, htpd, _⟩ := hInv.posted_src m hm
            rw [hmid, hid'] at htpf
            have : tp = t := by
              rw [htf] at htpf
              exact (Option.some.inj htpf).symm
            rw [← this]
            exact htpd
          have hto0 : s.timeouts = [] := by
            rcases hC.timeouts_shape with h | ⟨rr, hto, hrr⟩
            · exact h
            · rw [hrun] at hrr
              have hrid : rr.taskId = i := (Option.some.inj hrr).symm
              obtain ⟨te, htef, hted, _⟩ := hInv.timeout_src rr
                (by rw [hto]; exact List.mem_singleton.mpr rfl)
              rw [hrid, htf] at htef
              have : te = t := (Option.some.inj htef).symm
              rw [this, htnonerr] at hted
              cases hted
          have haux := CInv_completeTask_aux hInv r hrun htf hto0
            (fun hx => absurd hx (by rw [htnonerr]; exact Bool.false_ne_true))
            hC.error_outcome
          rw [hd]
          exact { toInv := by rw [← hd]; exact Inv_step hInv (.worker r)
                  timeouts_shape := haux.1
                  error_outcome := haux.2 }
        · by_cases hvp : validProgressResult r.result = true
          · have hd : step s (.worker r) = { s with
                taskList := updateTask s.taskList i (fun t =>
                  if t.onProgress then
                    { t with progressLog := t.progressLog ++ [numValue r.result] }
                  else t) } := by
              show (match handleWorkerMessage s r with
                | .ok s1 => s1
                | .error _ => s) = _
              have hh : handleWorkerMessage s r = .ok { s with
                  taskList := updateTask s.taskList i (fun t =>
                    if t.onProgress then
                      { t with progressLog := t.progressLog ++ [numValue r.result] }
                    else t) } := by
                unfold handleWorkerMessage
                rw [hrun]
                dsimp only
                rw [if_neg hid, if_neg hdone, if_pos hvp]
              rw [hh]
            rw [hd]
            refine { toInv := by rw [← hd]; exact Inv_step hInv (.worker r)
                     timeouts_shape := hC.timeouts_shape, error_outcome := ?_ }
            intro u hu herru o ho
            rcases mem_updateTask hu with ⟨t', ht', he | he⟩
            · rw [he] at herru ho ⊢
              have hpres : ((if t'.onProgress then
                  { t' with progressLog := t'.progressLog ++ [numValue r.result] }
                  else t') : Task).data = t'.data ∧
                  ((if t'.onProgress then
                  { t' with progressLog := t'.progressLog ++ [numValue r.result] }
                  else t') : Task).outcome = t'.outcome := by
                split <;> exact ⟨rfl, rfl⟩
              rw [hpres.1] at herru ⊢
              rw [hpres.2] at ho
              exact hC.error_outcome t' ht' herru o ho
            · rw [he] at herru ho ⊢
              exact hC.error_outcome t' ht' herru o ho
          · have hd : step s (.worker r) = s := by
              show (match handleWorkerMessage s r with
                | .ok s1 => s1
                | .error _ => s) = s
              have hh : handleWorkerMessage s r = .error "Unkown message type" := by
                unfold handleWorkerMessage
                rw [hrun]
                dsimp only
                rw [if_neg hid, if_neg hdone, if_neg hvp]
              rw [hh]
            rw [hd]
            exact hC
  | fireTimeout =>
    obtain hto | ⟨rr, rest, hto⟩ :
        s.timeouts = [] ∨ ∃ rr rest, s.timeouts = rr :: rest := by
      cases s.timeouts with
      | nil => exact Or.inl rfl
      | cons a l => exact Or.inr ⟨a, l, rfl⟩
    · have hd : step s .fireTimeout = s := by
        show (match s.timeouts with
          | [] => s
          | r :: rest => completeTask { s with timeouts := rest } r) = s
        rw [hto]
      rw [hd]
      exact hC
    · rcases hC.timeouts_shape with h0 | ⟨rr', hto', hrr'⟩
      · rw [h0] at hto
        cases hto
      · rw [hto'] at hto
        have hrr : rr = rr' := List.head_eq_of_cons_eq hto.symm
        have hrest : rest = [] := List.tail_eq_of_cons_eq hto.symm
        subst hrr
        subst hrest
        have hd : step s .fireTimeout
            = completeTask { s with timeouts := [] } rr := by
          show (match s.timeouts with
            | [] => s
            | r :: rest => completeTask { s with timeouts := rest } r) = _
          rw [hto']
        obtain ⟨te, htef, hted, hsynth⟩ := hInv.timeout_src rr
          (by rw [hto']; exact List.mem_singleton.mpr rfl)
        have hInvb : Inv { s with timeouts := [] } := Inv_timeouts_tail hInv hto'
        have haux := CInv_completeTask_aux hInvb rr
          (show ({ s with timeouts := [] } : ReaderState).runningTask
            = some rr.taskId from hrr')
          (show findTask { s with timeouts := [] } rr.taskId = some te from htef)
          rfl
          (fun _ => by rw [hsynth]; exact ⟨rfl, rfl⟩)
          hC.error_outcome
        rw [hd]
        exact { toInv := by rw [← hd]; exact Inv_step hInv .fireTimeout
                timeouts_shape := haux.1
                error_outcome := haux.2 }

/-- The fresh instance satisfies the conformance invariant. -/
theorem CInv_initialState : CInv initialState :=
  { toInv := Inv_initialState
    timeouts_shape := Or.inl rfl
    error_outcome := fun t ht => by cases ht }

/-- The conformance invariant holds along any conforming run. -/
theorem CInv_run {s : ReaderState} (hC : CInv s) (es : List Event)
    (hconf : conformingFrom s es = true) : CInv (run s es) := by
  induction es generalizing s with
  | nil => exact hC
  | cons e rest ih =>
    rw [conformingFrom, Bool.and_eq_true] at hconf
    exact ih (CInv_step hC hconf.1) hconf.2

/-- The conformance invariant holds in every state reachable under a
contract-honouring worker. -/
theorem cinvariant_creachable {s : ReaderState} (hs : CReachable s) : CInv s := by
  obtain ⟨es, hconf, he⟩ := hs
  rw [← he]
  exact CInv_run CInv_initialState es hconf

/-! ## Stability: what a step can and cannot change about an existing task -/

/-- Any single step keeps an existing task findable with the same identity,
action, request data and hook; and a `Completed` task is completely frozen —
its state, outcome, progress log and released promise never change again. -/
theorem step_find_preserves {s : ReaderState} (hInv : Inv s) {j : Nat} {t : Task}
    (htf : findTask s j = some t) (e : Event) :
    ∃ t', findTask (step s e) j = some t' ∧
      t'.id = t.id ∧ t'.action = t.action ∧ t'.data = t.data ∧
      t'.reqTaskId = t.reqTaskId ∧ t'.hook = t.hook ∧
      (t.state = TaskState.Completed →
        t'.state = TaskState.Completed ∧ t'.outcome = t.outcome ∧
        t'.progressLog = t.progressLog ∧ t'.promiseAlive = t.promiseAlive) := by
  have hnd := ids_nodup hInv.ids
  have hjid : t.id = j := findTaskIn_id htf
  have ht_mem : t ∈ s.taskList := findTaskIn_mem htf
  have hbound : t.id ≤ s.taskList.length := (mem_id_bounds hInv.ids ht_mem).2
  -- a triviality: the task itself satisfies the conclusion's task part
  have hself : ∀ t'' : Task, t'' = t →
      t''.id = t.id ∧ t''.action = t.action ∧ t''.data = t.data ∧
      t''.reqTaskId = t.reqTaskId ∧ t''.hook = t.hook ∧
      (t.state = TaskState.Completed →
        t''.state = TaskState.Completed ∧ t''.outcome = t.outcome ∧
        t''.progressLog = t.progressLog ∧ t''.promiseAlive = t.promiseAlive) := by
    intro t'' he
    subst he
    exact ⟨rfl, rfl, rfl, rfl, rfl, fun hc => ⟨hc, rfl, rfl, rfl⟩⟩
  -- effect of `newTask` on the lookup of an existing task
  have hfind_call : ∀ s0 : ReaderState, s0.taskList = s.taskList →
      ∀ (a : String) (d : JSValue) (hk : SettleHook),
      findTask (newTask s0 a d hk).1 j = some t := by
    intro s0 h1 a d hk
    have hids0 : s0.taskList.map Task.id = List.range' 1 s0.taskList.length := by
      rw [h1]; exact hInv.ids
    have hlen : s0.taskList.length = s.taskList.length := by rw [h1]
    have hjn : j ≠ s0.taskList.length + 1 := by
      rw [hlen]
      omega
    have happ : findTaskIn (s0.taskList ++ [mkTask (s0.taskList.length + 1) a d hk]) j
        = some t := by
      apply findTaskIn_append_of_some
      rw [h1]
      exact htf
    by_cases hrun0 : s0.runningTask = none
    · rw [newTask_idle hids0 hrun0 a d hk]
      dsimp only
      by_cases herr : isErrorData (mkTask (s0.taskList.length + 1) a d hk).data = true
      · rw [runTask_err herr]
        show findTaskIn (updateTask _ _ _) j = some t
        rw [findTaskIn_updateTask]
        · rw [if_neg (show ¬ j = (mkTask (s0.taskList.length + 1) a d hk).id from hjn)]
          exact happ
        · exact fun _ => rfl
      · have herr' : isErrorData (mkTask (s0.taskList.length + 1) a d hk).data = false := by
          cases hx : isErrorData (mkTask (s0.taskList.length + 1) a d hk).data
          · rfl
          · exact absurd hx herr
        rw [runTask_post herr']
        show findTaskIn (updateTask _ _ _) j = some t
        rw [findTaskIn_updateTask]
        · rw [if_neg (show ¬ j = (mkTask (s0.taskList.length + 1) a d hk).id from hjn)]
          exact happ
        · exact fun _ => rfl
    · rw [newTask_busy hids0 hrun0 a d hk]
      show findTaskIn (s0.taskList ++ [_]) j = some t
      apply findTaskIn_append_of_some
      rw [h1]
      exact htf
  -- effect of completing the running task (the task list is shared with `s`)
  have hcomplete : ∀ sb : ReaderState, Inv sb → sb.taskList = s.taskList →
      sb.queuedTaskList = s.queuedTaskList → ∀ (i : Nat) (r : ResponseMsg),
      sb.runningTask = some i →
      ∃ t', findTask (completeTask sb r) j = some t' ∧
        t'.id = t.id ∧ t'.action = t.action ∧ t'.data = t.data ∧
        t'.reqTaskId = t.reqTaskId ∧ t'.hook = t.hook ∧
        (t.state = TaskState.Completed →
          t'.state = TaskState.Completed ∧ t'.outcome = t.outcome ∧
          t'.progressLog = t.progressLog ∧ t'.promiseAlive = t.promiseAlive) := by
    intro sb hInvb h1 hq1 i r hrunb
    obtain ⟨tr, htrf, htrst⟩ := hInvb.running_state i hrunb
    have htrfs : findTaskIn s.taskList i = some tr := by rw [← h1]; exact htrf
    obtain ⟨fileV, lineV, hcw, _⟩ := completeWith_shape htrf r
    rw [completeTask_some hrunb r, hcw]
    have hji : t.state = TaskState.Completed → j ≠ i := by
      intro hc he
      have : t = tr := by
        have h2 := htrfs
        rw [← he, ← hjid] at h2
        rw [show findTaskIn s.taskList t.id = some t from findTaskIn_of_mem hnd ht_mem] at h2
        exact Option.some.inj h2
      rw [this, htrst] at hc
      cases hc
    -- lookup after the completion update
    have hfindC : ∀ k : Nat, findTaskIn (updateTask sb.taskList i (fun tk => { tk with
        state := TaskState.Completed
        promiseAlive := false
        outcome := some (if r.success then
            Except.ok { timeTaken := sb.now - tr.startTime, message := r.message
                        result := r.result }
          else Except.error r.message) })) k =
        if k = i then (findTaskIn sb.taskList k).map _ else findTaskIn sb.taskList k :=
      findTaskIn_updateTask sb.taskList i _ (fun _ => rfl)
    obtain hq | ⟨h, rest, hq⟩ :
        sb.queuedTaskList = [] ∨ ∃ h rest, sb.queuedTaskList = h :: rest := by
      cases sb.queuedTaskList with
      | nil => exact Or.inl rfl
      | cons a l => exact Or.inr ⟨a, l, rfl⟩
    · rw [runNextTask_nil (by simpa using hq)]
      show ∃ t', findTaskIn (updateTask sb.taskList i _) j = some t' ∧ _
      rw [hfindC j]
      by_cases hji' : j = i
      · rw [if_pos hji']
        rw [show findTaskIn sb.taskList j = some t from by rw [h1]; exact htf]
        refine ⟨_, rfl, ?_⟩
        refine ⟨rfl, rfl, rfl, rfl, rfl, ?_⟩
        intro hc
        exact absurd hji' (hji hc)
      · rw [if_neg hji']
        exact ⟨t, by rw [h1]; exact htf, hself t rfl⟩
    · obtain ⟨th, hthf0, hthst⟩ := hInvb.queued_state h
        (by rw [hq]; exact List.mem_cons_self h rest)
      have hhi : h ≠ i := by
        intro he
        have h2 := hthf0
        rw [he, htrf] at h2
        have : th = tr := (Option.some.inj h2).symm
        rw [this, htrst] at hthst
        cases hthst
      have hthf1 : findTaskIn (updateTask sb.taskList i (fun tk => { tk with
          state := TaskState.Completed
          promiseAlive := false
          outcome := some (if r.success then
              Except.ok { timeTaken := sb.now - tr.startTime, message := r.message
                          result := r.result }
            else Except.error r.message) })) h = some th := by
        rw [hfindC h, if_neg hhi]
        exact hthf0
      rw [runNextTask_cons (by simpa using hq) (by exact hthf1)]
      have hthid : th.id = h := findTaskIn_id hthf0
      have hjh : t.state = TaskState.Completed → j ≠ h := by
        intro hc he
        have : t = th := by
          have h2 : findTaskIn sb.taskList j = some th := by rw [he]; exact hthf0
          rw [h1] at h2
          rw [← hjid] at h2
          rw [show findTaskIn s.taskList t.id = some t from findTaskIn_of_mem hnd ht_mem] at h2
          exact Option.some.inj h2
        rw [this, hthst] at hc
        cases hc
      have hrunshape : ∀ (herrcase : Bool), True := fun _ => trivial
      by_cases herrth : isErrorData th.data = true
      · rw [runTask_err herrth]
        show ∃ t', findTaskIn (updateTask _ th.id _) j = some t' ∧ _
        rw [findTaskIn_updateTask]
        on_goal 2 => exact fun _ => rfl
        by_cases hjh' : j = th.id
        · have hth_t : th = t := by
            have h2 : findTaskIn s.taskList j = some t := htf
            rw [hjh'] at h2
            have h3 : findTaskIn s.taskList th.id = some th :=
              findTaskIn_of_mem hnd (by rw [← h1]; exact findTaskIn_mem hthf0)
            rw [h3] at h2
            exact Option.some.inj h2
          subst hth_t
          have hfj := hthf1
          rw [← hthid, ← hjh'] at hfj
          rw [if_pos hjh', hfj, Option.map_some']
          refine ⟨_, rfl, ?_⟩
          refine ⟨rfl, rfl, rfl, rfl, rfl, ?_⟩
          intro hc
          exact absurd (hjh'.trans hthid) (hjh hc)
        · rw [if_neg hjh', hfindC j]
          by_cases hji' : j = i
          · rw [if_pos hji']
            rw [show findTaskIn sb.taskList j = some t from by rw [h1]; exact htf]
            refine ⟨_, rfl, rfl, rfl, rfl, rfl, rfl, ?_⟩
            intro hc
            exact absurd hji' (hji hc)
          · rw [if_neg hji']
            exact ⟨t, by rw [h1]; exact htf, hself t rfl⟩
      · have herrth' : isErrorData th.data = false := by
          cases hx : isErrorData th.data
          · rfl
          · exact absurd hx herrth
        rw [runTask_post herrth']
        show ∃ t', findTaskIn (updateTask _ th.id _) j = some t' ∧ _
        rw [findTaskIn_updateTask]
        on_goal 2 => exact fun _ => rfl
        by_cases hjh' : j = th.id
        · have hth_t : th = t := by
            have h2 : findTaskIn s.taskList j = some t := htf
            rw [hjh'] at h2
            have h3 : findTaskIn s.taskList th.id = some th :=
              findTaskIn_of_mem hnd (by rw [← h1]; exact findTaskIn_mem hthf0)
            rw [h3] at h2
            exact Option.some.inj h2
          subst hth_t
          have hfj := hthf1
          rw [← hthid, ← hjh'] at hfj
          rw [if_pos hjh', hfj, Option.map_some']
          refine ⟨_, rfl, ?_⟩
          refine ⟨rfl, rfl, rfl, rfl, rfl, ?_⟩
          intro hc
          exact absurd (hjh'.trans hthid) (hjh hc)
        · rw [if_neg hjh', hfindC j]
          by_cases hji' : j = i
          · rw [if_pos hji']
            rw [show findTaskIn sb.taskList j = some t from by rw [h1]; exact htf]
            refine ⟨_, rfl, rfl, rfl, rfl, rfl, rfl, ?_⟩
            intro hc
            exact absurd hji' (hji hc)
          · rw [if_neg hji']
            exact ⟨t, by rw [h1]; exact htf, hself t rfl⟩
  clear hbound
  cases e with
  | call c =>
    cases c with
    | sniffLines f n d => exact ⟨t, hfind_call s rfl _ _ _, hself t rfl⟩
    | loadFile f cfg =>
      cases cfg with
      | none =>
        exact ⟨t, hfind_call { s with file := none, lineCount := 0 } rfl _ _ _,
          hself t rfl⟩
      | some c =>
        exact ⟨t, hfind_call { s with file := none, lineCount := 0 } rfl _ _ _,
          hself t rfl⟩
    | setChunkSize n => exact ⟨t, hfind_call s rfl _ _ _, hself t rfl⟩
    | enableVerbose =>
      exact ⟨t, hfind_call { s with verboseLogging := true } rfl _ _ _, hself t rfl⟩
    | getLines2 lr =>
      show ∃ t', findTask (doCall s (.getLines2 lr)) j = some t' ∧ _
      unfold doCall
      dsimp only
      split
      · exact ⟨t, hfind_call s rfl _ _ _, hself t rfl⟩
      · exact ⟨t, hfind_call s rfl _ _ _, hself t rfl⟩
    | getLines start count d =>
      show ∃ t', findTask (doCall s (.getLines start count d)) j = some t' ∧ _
      unfold doCall
      dsimp only
      split
      · exact ⟨t, hfind_call s rfl _ _ _, hself t rfl⟩
      · exact ⟨t, hfind_call s rfl _ _ _, hself t rfl⟩
    | getSporadicLines lr d => exact ⟨t, hfind_call s rfl _ _ _, hself t rfl⟩
    | iterateLines c start count =>
      show ∃ t', findTask (doCall s (.iterateLines c start count)) j = some t' ∧ _
      unfold doCall
      dsimp only
      split
      · exact ⟨t, hfind_call s rfl _ _ _, hself t rfl⟩
      · exact ⟨t, hfind_call s rfl _ _ _, hself t rfl⟩
    | iterateSporadicLines c lr => exact ⟨t, hfind_call s rfl _ _ _, hself t rfl⟩
  | worker r =>
    cases hrun : s.runningTask with
    | none =>
      have hd : step s (.worker r) = s := by
        show (match handleWorkerMessage s r with
          | .ok s1 => s1
          | .error _ => s) = s
        have hh : handleWorkerMessage s r = .ok s := by
          unfold handleWorkerMessage
          rw [hrun]
        rw [hh]
      rw [hd]
      exact ⟨t, htf, hself t rfl⟩
    | some i =>
      by_cases hid : r.taskId ≠ i
      · have hd : step s (.worker r) = s := by
          show (match handleWorkerMessage s r with
            | .ok s1 => s1
            | .error _ => s) = s
          have hh : handleWorkerMessage s r = .error
              ("Received task ID (" ++ toString r.taskId ++
                ") does not match the running task ID (" ++ toString i ++ ").") := by
            unfold handleWorkerMessage
            rw [hrun]
            dsimp only
            rw [if_pos hid]
          rw [hh]
        rw [hd]
        exact ⟨t, htf, hself t rfl⟩
      · by_cases hdone : r.done = true
        · have hd : step s (.worker r) = completeTask s r := by
            show (match handleWorkerMessage s r with
              | .ok s1 => s1
              | .error _ => s) = completeTask s r
            have hh : handleWorkerMessage s r = .ok (completeTask s r) := by
              unfold handleWorkerMessage
              rw [hrun]
              dsimp only
              rw [if_neg hid, if_pos hdone]
            rw [hh]
          rw [hd]
          exact hcomplete s hInv rfl rfl i r hrun
        · by_cases hvp : validProgressResult r.result = true
          · have hd : step s (.worker r) = { s with
                taskList := updateTask s.taskList i (fun t =>
                  if t.onProgress then
                    { t with progressLog := t.progressLog ++ [numValue r.result] }
                  else t) } := by
              show (match handleWorkerMessage s r with
                | .ok s1 => s1
                | .error _ => s) = _
              have hh : handleWorkerMessage s r = .ok { s with
                  taskList := updateTask s.taskList i (fun t =>
                    if t.onProgress then
                      { t with progressLog := t.progressLog ++ [numValue r.result] }
                    else t) } := by
                unfold handleWorkerMessage
                rw [hrun]
                dsimp only
                rw [if_neg hid, if_neg hdone, if_pos hvp]
              rw [hh]
            rw [hd]
            obtain ⟨tr, htrf, htrst⟩ := hInv.running_state i hrun
            have hji : t.state = TaskState.Completed → j ≠ i := by
              intro hc he
              have h2 : findTaskIn s.taskList i = some tr := htrf
              rw [← he, ← hjid] at h2
              rw [show findTaskIn s.taskList t.id = some t
                from findTaskIn_of_mem hnd ht_mem] at h2
              have : t = tr := Option.some.inj h2
              rw [this, htrst] at hc
              cases hc
            show ∃ t', findTaskIn (updateTask s.taskList i _) j = some t' ∧ _
            rw [findTaskIn_updateTask]
            on_goal 2 => exact fun u => by split <;> rfl
            by_cases hji' : j = i
            · rw [if_pos hji',
                show findTaskIn s.taskList j = some t from htf, Option.map_some']
              refine ⟨_, rfl, ?_⟩
              constructor
              · show (if t.onProgress then _ else t : Task).id = t.id
                split <;> rfl
              refine ⟨?_, ?_, ?_, ?_, ?_⟩
              · show (if t.onProgress then _ else t : Task).action = t.action
                split <;> rfl
              · show (if t.onProgress then _ else t : Task).data = t.data
                split <;> rfl
              · show (if t.onProgress then _ else t : Task).reqTaskId = t.reqTaskId
                split <;> rfl
              · show (if t.onProgress then _ else t : Task).hook = t.hook
                split <;> rfl
              · intro hc
                exact absurd hji' (hji hc)
            · rw [if_neg hji']
              exact ⟨t, htf, hself t rfl⟩
          · have hd : step s (.worker r) = s := by
              show (match handleWorkerMessage s r with
                | .ok s1 => s1
                | .error _ => s) = s
              have hh : handleWorkerMessage s r = .error "Unkown message type" := by
                unfold handleWorkerMessage
                rw [hrun]
                dsimp only
                rw [if_neg hid, if_neg hdone, if_neg hvp]
              rw [hh]
            rw [hd]
            exact ⟨t, htf, hself t rfl⟩
  | fireTimeout =>
    obtain hto | ⟨rr, rest, hto⟩ :
        s.timeouts = [] ∨ ∃ rr rest, s.timeouts = rr :: rest := by
      cases s.timeouts with
      | nil => exact Or.inl rfl
      | cons a l => exact Or.inr ⟨a, l, rfl⟩
    · have hd : step s .fireTimeout = s := by
        show (match s.timeouts with
          | [] => s
          | r :: rest => completeTask { s with timeouts := rest } r) = s
        rw [hto]
      rw [hd]
      exact ⟨t, htf, hself t rfl⟩
    · have hd : step s .fireTimeout = completeTask { s with timeouts := rest } rr := by
        show (match s.timeouts with
          | [] => s
          | r :: rest => completeTask { s with timeouts := rest } r) = _
        rw [hto]
      rw [hd]
      have hInvb : Inv { s with timeouts := rest } := Inv_timeouts_tail hInv hto
      obtain hrun | ⟨i, hrun⟩ : s.runningTask = none ∨ ∃ i, s.runningTask = some i := by
        cases s.runningTask with
        | none => exact Or.inl rfl
        | some i => exact Or.inr ⟨i, rfl⟩
      · rw [completeTask_none (show ({ s with timeouts := rest } : ReaderState).runningTask
          = none from hrun) rr]
        exact ⟨t, htf, hself t rfl⟩
      · exact hcomplete { s with timeouts := rest } hInvb rfl rfl i rr hrun
  | tick dt => exact ⟨t, htf, hself t rfl⟩
  | registerProgress k =>
    show ∃ t', findTaskIn (updateTask s.taskList k _) j = some t' ∧ _
    rw [findTaskIn_updateTask]
    on_goal 2 => exact fun _ => rfl
    by_cases hjk : j = k
    · rw [if_pos hjk, show findTaskIn s.taskList j = some t from htf, Option.map_some']
      refine ⟨_, rfl, ?_⟩
      exact ⟨rfl, rfl, rfl, rfl, rfl, fun hc => ⟨hc, rfl, rfl, rfl⟩⟩
    · rw [if_neg hjk]
      exact ⟨t, htf, hself t rfl⟩

theorem run_append (s : ReaderState) (es1 es2 : List Event) :
    run s (es1 ++ es2) = run (run s es1) es2 :=
  List.foldl_append step s es1 es2

theorem Reachable_run {s : ReaderState} (hs : Reachable s) (es : List Event) :
    Reachable (run s es) := by
  obtain ⟨es0, h0⟩ := hs
  exact ⟨es0 ++ es, by rw [run_append, h0]⟩

theorem Reachable_step {s : ReaderState} (hs : Reachable s) (e : Event) :
    Reachable (step s e) :=
  Reachable_run hs [e]

theorem CReachable_Reachable {s : ReaderState} (hs : CReachable s) : Reachable s := by
  obtain ⟨es, _, he⟩ := hs
  exact ⟨es, he⟩

theorem conformingFrom_append (s : ReaderState) (es1 es2 : List Event) :
    conformingFrom s (es1 ++ es2)
      = (conformingFrom s es1 && conformingFrom (run s es1) es2) := by
  induction es1 generalizing s with
  | nil => simp [conformingFrom, run]
  | cons e rest ih =>
    show (eventConforms s e && conformingFrom (step s e) (rest ++ es2))
        = ((eventConforms s e && conformingFrom (step s e) rest)
            && conformingFrom (run (step s e) rest) es2)
    rw [ih, Bool.and_assoc]

theorem CReachable_run {s : ReaderState} (hs : CReachable s) (es : List Event)
    (hconf : conformingFrom s es = true) : CReachable (run s es) := by
  obtain ⟨es0, hc0, h0⟩ := hs
  refine ⟨es0 ++ es, ?_, by rw [run_append, h0]⟩
  rw [conformingFrom_append, hc0, Bool.true_and, h0]
  exact hconf

/-- Iterated form of `step_find_preserves` along a whole run. -/
theorem run_find_preserves {s : ReaderState} (hInv : Inv s) {j : Nat} {t : Task}
    (htf : findTask s j = some t) (es : List Event) :
    ∃ t', findTask (run s es) j = some t' ∧
      t'.id = t.id ∧ t'.action = t.action ∧ t'.data = t.data ∧
      t'.reqTaskId = t.reqTaskId ∧ t'.hook = t.hook ∧
      (t.state = TaskState.Completed →
        t'.state = TaskState.Completed ∧ t'.outcome = t.outcome ∧
        t'.progressLog = t.progressLog ∧ t'.promiseAlive = t.promiseAlive) := by
  induction es generalizing s t with
  | nil => exact ⟨t, htf, rfl, rfl, rfl, rfl, rfl, fun hc => ⟨hc, rfl, rfl, rfl⟩⟩
  | cons e rest ih =>
    obtain ⟨t1, h1, hid1, hact1, hdata1, hreq1, hhook1, hfrozen1⟩ :=
      step_find_preserves hInv htf e
    obtain ⟨t2, h2, hid2, hact2, hdata2, hreq2, hhook2, hfrozen2⟩ :=
      ih (Inv_step hInv e) h1
    refine ⟨t2, h2, hid2.trans hid1, hact2.trans hact1, hdata2.trans hdata1,
      hreq2.trans hreq1, hhook2.trans hhook1, ?_⟩
    intro hc
    obtain ⟨hst1, hout1, hpl1, hpa1⟩ := hfrozen1 hc
    obtain ⟨hst2, hout2, hpl2, hpa2⟩ := hfrozen2 hst1
    exact ⟨hst2, hout2.trans hout1, hpl2.trans hpl1, hpa2.trans hpa1⟩

/-! ## Lemmas: the common shape of every public method call -/

/-- Every public action method is a `newTask` call on a state that differs
from the receiver at most in `file`, `lineCount` and `verboseLogging`. -/
theorem doCall_shape (s : ReaderState) (c : PublicCall) :
    ∃ s0 a d hk, doCall s c = (newTask s0 a d hk).1
      ∧ s0.taskList = s.taskList ∧ s0.runningTask = s.runningTask
      ∧ s0.queuedTaskList = s.queuedTaskList ∧ s0.posted = s.posted
      ∧ s0.timeouts = s.timeouts ∧ s0.now = s.now := by
  cases c with
  | sniffLines f n d => exact ⟨s, _, _, _, rfl, rfl, rfl, rfl, rfl, rfl, rfl⟩
  | loadFile f cfg =>
    exact ⟨{ s with file := none, lineCount := 0 }, _, _, _, rfl, rfl, rfl, rfl,
      rfl, rfl, rfl⟩
  | setChunkSize n => exact ⟨s, _, _, _, rfl, rfl, rfl, rfl, rfl, rfl, rfl⟩
  | enableVerbose =>
    exact ⟨{ s with verboseLogging := true }, _, _, _, rfl, rfl, rfl, rfl, rfl,
      rfl, rfl⟩
  | getLines2 lr =>
    by_cases hf : s.file.isNone = true
    · have hdc : doCall s (PublicCall.getLines2 lr)
          = (newTask s "getLines2" notLoadedError SettleHook.none).1 := by
        unfold doCall
        dsimp only
        rw [if_pos hf]
      exact ⟨s, _, _, _, hdc, rfl, rfl, rfl, rfl, rfl, rfl⟩
    · have hdc : doCall s (PublicCall.getLines2 lr)
          = (newTask s "getLines2" lr SettleHook.none).1 := by
        unfold doCall
        dsimp only
        rw [if_neg hf]
      exact ⟨s, _, _, _, hdc, rfl, rfl, rfl, rfl, rfl, rfl⟩
  | getLines start count d =>
    by_cases hf : s.file.isNone = true
    · have hdc : doCall s (PublicCall.getLines start count d)
          = (newTask s "getLines" notLoadedError SettleHook.none).1 := by
        unfold doCall
        dsimp only
        rw [if_pos hf]
      exact ⟨s, _, _, _, hdc, rfl, rfl, rfl, rfl, rfl, rfl⟩
    · have hdc : doCall s (PublicCall.getLines start count d)
          = (newTask s "getLines"
              (JSValue.obj (fieldsOf [("start", JSValue.num start),
                ("count", JSValue.num count)])) SettleHook.none).1 := by
        unfold doCall
        dsimp only
        rw [if_neg hf]
      exact ⟨s, _, _, _, hdc, rfl, rfl, rfl, rfl, rfl, rfl⟩
  | getSporadicLines lr d => exact ⟨s, _, _, _, rfl, rfl, rfl, rfl, rfl, rfl, rfl⟩
  | iterateLines cfg start count =>
    by_cases hf : s.file.isNone = true
    · have hdc : doCall s (PublicCall.iterateLines cfg start count)
          = (newTask s "getLines" notLoadedError SettleHook.none).1 := by
        unfold doCall
        dsimp only
        rw [if_pos hf]
      exact ⟨s, _, _, _, hdc, rfl, rfl, rfl, rfl, rfl, rfl⟩
    · have hdc : doCall s (PublicCall.iterateLines cfg start count)
          = (newTask s "iterateLines"
              (JSValue.obj (fieldsOf
                [("config", encodeConfigMessage (getItertorConfigMessage (cloneDeepConfig cfg))),
                 ("start", optionalNum start), ("count", optionalNum count)]))
              SettleHook.none).1 := by
        unfold doCall
        dsimp only
        rw [if_neg hf]
      exact ⟨s, _, _, _, hdc, rfl, rfl, rfl, rfl, rfl, rfl⟩
  | iterateSporadicLines cfg lr => exact ⟨s, _, _, _, rfl, rfl, rfl, rfl, rfl, rfl, rfl⟩

/-- The task `newTask` creates, looked up at its fresh id: it carries the
requested action and payload, its request is stamped with its own id, and its
promise is pending with live resolvers. -/
theorem newTask_find_fresh {s : ReaderState}
    (hids : s.taskList.map Task.id = List.range' 1 s.taskList.length)
    (a : String) (d : JSValue) (hk : SettleHook) :
    ∃ t, findTask (newTask s a d hk).1 (newTaskId s) = some t
      ∧ t.action = a ∧ t.data = d ∧ t.reqTaskId = newTaskId s
      ∧ t.outcome = none ∧ t.promiseAlive = true := by
  have hid := newTaskId_eq hids
  rw [hid]
  have hfresh : (mkTask (s.taskList.length + 1) a d hk).id ∉ s.taskList.map Task.id :=
    fresh_id_not_mem hids
  have hfind0 : findTaskIn (s.taskList ++ [mkTask (s.taskList.length + 1) a d hk])
      (s.taskList.length + 1) = some (mkTask (s.taskList.length + 1) a d hk) :=
    findTaskIn_append_fresh s.taskList (mkTask (s.taskList.length + 1) a d hk) hfresh
  by_cases hrun : s.runningTask = none
  · rw [newTask_idle hids hrun]
    by_cases herr : isErrorData d = true
    · have herr' : isErrorData (mkTask (s.taskList.length + 1) a d hk).data = true := herr
      rw [runTask_err herr']
      show ∃ t, findTaskIn (updateTask
          (s.taskList ++ [mkTask (s.taskList.length + 1) a d hk])
          (mkTask (s.taskList.length + 1) a d hk).id _)
          (s.taskList.length + 1) = some t ∧ _
      rw [findTaskIn_updateTask]
      on_goal 2 => exact fun _ => rfl
      rw [if_pos (show s.taskList.length + 1
          = (mkTask (s.taskList.length + 1) a d hk).id from rfl), hfind0,
        Option.map_some']
      exact ⟨_, rfl, rfl, rfl, rfl, rfl, rfl⟩
    · have herr' : isErrorData (mkTask (s.taskList.length + 1) a d hk).data = false := by
        simpa using herr
      rw [runTask_post herr']
      show ∃ t, findTaskIn (updateTask
          (s.taskList ++ [mkTask (s.taskList.length + 1) a d hk])
          (mkTask (s.taskList.length + 1) a d hk).id _)
          (s.taskList.length + 1) = some t ∧ _
      rw [findTaskIn_updateTask]
      on_goal 2 => exact fun _ => rfl
      rw [if_pos (show s.taskList.length + 1
          = (mkTask (s.taskList.length + 1) a d hk).id from rfl), hfind0,
        Option.map_some']
      exact ⟨_, rfl, rfl, rfl, rfl, rfl, rfl⟩
  · rw [newTask_busy hids hrun]
    refine ⟨{ mkTask (s.taskList.length + 1) a d hk with state := TaskState.Queued },
      ?_, rfl, rfl, rfl, rfl, rfl⟩
    exact findTaskIn_append_fresh s.taskList _ hfresh

/-- A task whose payload is an `Error` posts nothing at creation, whether it
is dispatched immediately or queued. -/
theorem newTask_err_posted {s : ReaderState}
    (hids : s.taskList.map Task.id = List.range' 1 s.taskList.length)
    (a : String) (d : JSValue) (hk : SettleHook)
    (herr : isErrorData d = true) :
    (newTask s a d hk).1.posted = s.posted := by
  by_cases hrun : s.runningTask = none
  · rw [newTask_idle hids hrun]
    have herr' : isErrorData (mkTask (s.taskList.length + 1) a d hk).data = true := herr
    rw [runTask_err herr']
  · rw [newTask_busy hids hrun]

/-- The effects of `newTask` in an idle reader: the new task starts running
immediately. -/
theorem newTask_idle_effects {s : ReaderState}
    (hids : s.taskList.map Task.id = List.range' 1 s.taskList.length)
    (hrun : s.runningTask = none) (a : String) (d : JSValue) (hk : SettleHook) :
    (newTask s a d hk).1.runningTask = some (newTaskId s)
    ∧ ∃ t, findTask (newTask s a d hk).1 (newTaskId s) = some t
        ∧ t.state = TaskState.Running := by
  have hid := newTaskId_eq hids
  rw [hid, newTask_idle hids hrun]
  have hfresh : (mkTask (s.taskList.length + 1) a d hk).id ∉ s.taskList.map Task.id :=
    fresh_id_not_mem hids
  have hfind0 : findTaskIn (s.taskList ++ [mkTask (s.taskList.length + 1) a d hk])
      (s.taskList.length + 1) = some (mkTask (s.taskList.length + 1) a d hk) :=
    findTaskIn_append_fresh s.taskList (mkTask (s.taskList.length + 1) a d hk) hfresh
  by_cases herr : isErrorData d = true
  · have herr' : isErrorData (mkTask (s.taskList.length + 1) a d hk).data = true := herr
    rw [runTask_err herr']
    refine ⟨rfl, ?_⟩
    show ∃ t, findTaskIn (updateTask
        (s.taskList ++ [mkTask (s.taskList.length + 1) a d hk])
        (mkTask (s.taskList.length + 1) a d hk).id _)
        (s.taskList.length + 1) = some t ∧ _
    rw [findTaskIn_updateTask]
    on_goal 2 => exact fun _ => rfl
    rw [if_pos (show s.taskList.length + 1
        = (mkTask (s.taskList.length + 1) a d hk).id from rfl), hfind0,
      Option.map_some']
    exact ⟨_, rfl, rfl⟩
  · have herr' : isErrorData (mkTask (s.taskList.length + 1) a d hk).data = false := by
      simpa using herr
    rw [runTask_post herr']
    refine ⟨rfl, ?_⟩
    show ∃ t, findTaskIn (updateTask
        (s.taskList ++ [mkTask (s.taskList.length + 1) a d hk])
        (mkTask (s.taskList.length + 1) a d hk).id _)
        (s.taskList.length + 1) = some t ∧ _
    rw [findTaskIn_updateTask]
    on_goal 2 => exact fun _ => rfl
    rw [if_pos (show s.taskList.length + 1
        = (mkTask (s.taskList.length + 1) a d hk).id from rfl), hfind0,
      Option.map_some']
    exact ⟨_, rfl, rfl⟩

/-- The effects of `newTask` in a busy reader: the new task is appended to
the FIFO queue in `Queued` state, and nothing is posted or scheduled. -/
theorem newTask_busy_effects {s : ReaderState}
    (hids : s.taskList.map Task.id = List.range' 1 s.taskList.length)
    (hrun : s.runningTask ≠ none) (a : String) (d : JSValue) (hk : SettleHook) :
    (newTask s a d hk).1.runningTask = s.runningTask
    ∧ (newTask s a d hk).1.queuedTaskList = s.queuedTaskList ++ [newTaskId s]
    ∧ (newTask s a d hk).1.posted = s.posted
    ∧ (newTask s a d hk).1.timeouts = s.timeouts
    ∧ ∃ t, findTask (newTask s a d hk).1 (newTaskId s) = some t
        ∧ t.state = TaskState.Queued := by
  have hid := newTaskId_eq hids
  rw [hid, newTask_busy hids hrun]
  refine ⟨rfl, rfl, rfl, rfl, ?_⟩
  exact ⟨{ mkTask (s.taskList.length + 1) a d hk with state := TaskState.Queued },
    findTaskIn_append_fresh s.taskList _ (fresh_id_not_mem hids), rfl⟩

/-- Tracking a normal-payload task created by `newTask` across any future
events: it is never the source of a synthetic local-failure timeout, and its
request has been posted to the worker whenever it is the running task. -/
theorem newTask_normal_tracking {s : ReaderState} (hInv : Inv s)
    (a : String) (d : JSValue) (hd : isErrorData d = false) :
    (∃ t, findTask (newTask s a d SettleHook.none).1 (newTaskId s) = some t
        ∧ t.action = a ∧ t.data = d)
    ∧ (s.runningTask = none →
        (newTask s a d SettleHook.none).1.posted
          = s.posted ++ [{ action := a, data := d, taskId := newTaskId s }])
    ∧ (∀ es rr, rr ∈ (run (newTask s a d SettleHook.none).1 es).timeouts →
        rr.taskId ≠ newTaskId s)
    ∧ (∀ es, (run (newTask s a d SettleHook.none).1 es).runningTask
          = some (newTaskId s) →
        ∃ m ∈ (run (newTask s a d SettleHook.none).1 es).posted,
          m.taskId = newTaskId s) := by
  obtain ⟨t1, ht1f, ht1a, ht1d, ht1r, _, _⟩ := newTask_find_fresh hInv.ids a d SettleHook.none
  have hInv' : Inv (newTask s a d SettleHook.none).1 :=
    Inv_newTask hInv a d SettleHook.none (fun f hf => by cases hf)
  refine ⟨⟨t1, ht1f, ht1a, ht1d⟩, ?_, ?_, ?_⟩
  · intro hrun
    have hid := newTaskId_eq hInv.ids
    rw [hid, newTask_idle hInv.ids hrun]
    have herr' : isErrorData (mkTask (s.taskList.length + 1) a d SettleHook.none).data
        = false := hd
    rw [runTask_post herr']
    exact rfl
  · intro es rr hrr heq
    have hI := Inv_run hInv' es
    obtain ⟨tt, htt, htterr, _⟩ := hI.timeout_src rr hrr
    rw [heq] at htt
    obtain ⟨t2, ht2, _, _, ht2d, _, _, _⟩ := run_find_preserves hInv' ht1f es
    have htteq : t2 = tt := by
      rw [ht2] at htt
      exact Option.some.inj htt
    rw [← htteq, ht2d, ht1d, hd] at htterr
    exact Bool.noConfusion htterr
  · intro es hrun'
    have hI := Inv_run hInv' es
    obtain ⟨tt, htt, httR⟩ := hI.running_state _ hrun'
    obtain ⟨t2, ht2, _, _, ht2d, _, _, _⟩ := run_find_preserves hInv' ht1f es
    have htteq : tt = t2 := by
      rw [ht2] at htt
      exact (Option.some.inj htt).symm
    have htterr : isErrorData tt.data = false := by
      rw [htteq, ht2d, ht1d, hd]
    have hmem := hI.running_posted _ hrun' tt htt htterr
    refine ⟨requestOf tt, hmem, ?_⟩
    show tt.reqTaskId = newTaskId s
    rw [hI.req_id tt (findTaskIn_mem htt)]
    exact findTaskIn_id htt

/-! ## Claim C2: task ids are 1, 2, 3, … in call order -/

/-- C2: in every reachable state — i.e. after every sequence of public
method calls, worker responses and timer firings — the ids assigned to the
created tasks are exactly `1, 2, 3, …` in creation order, regardless of the
action requested and of which tasks succeed or fail, and each task's request
message is stamped with exactly its own id. -/
theorem c2_task_ids_sequential (s : ReaderState) (hs : Reachable s) :
    s.taskList.map Task.id = List.range' 1 s.taskList.length
    ∧ ∀ t ∈ s.taskList, t.reqTaskId = t.id := by
  have h := invariant_reachable hs
  exact ⟨h.ids, h.req_id⟩

/-- A concrete three-call run (mixed actions): the assigned ids are
`[1, 2, 3]`. -/
theorem c2_task_ids_sequential_witness :
    (run initialState [Event.call (PublicCall.setChunkSize 64),
        Event.call PublicCall.enableVerbose,
        Event.call (PublicCall.getSporadicLines JSValue.null true)]).taskList.map Task.id
      = [1, 2, 3] := by
  have h := (c2_task_ids_sequential
    (run initialState [Event.call (PublicCall.setChunkSize 64),
        Event.call PublicCall.enableVerbose,
        Event.call (PublicCall.getSporadicLines JSValue.null true)]) ⟨_, rfl⟩).1
  exact h.trans (by decide)

/-! ## Claim C8: worker messages arriving while idle are dropped -/

/-- C8: a worker message arriving while no task is running is silently
dropped: the listener returns without raising (`Except.ok`), and the whole
reader state — hence every task's Future — is left unchanged, even when the
message's `taskId` matches no known task. -/
theorem c8_idle_message_dropped (s : ReaderState) (r : ResponseMsg)
    (hrun : s.runningTask = none) :
    handleWorkerMessage s r = Except.ok s ∧ step s (Event.worker r) = s := by
  have hh : handleWorkerMessage s r = Except.ok s := by
    unfold handleWorkerMessage
    rw [hrun]
  refine ⟨hh, ?_⟩
  simp only [step]
  rw [hh]

/-- The dropped-message behaviour at a concrete response whose `taskId`
matches no task at all, delivered to a fresh reader. -/
theorem c8_idle_message_dropped_witness :
    handleWorkerMessage initialState
        { taskId := 42, success := true, done := true, message := "x"
          result := JSValue.null }
      = Except.ok initialState
    ∧ step initialState (Event.worker
        { taskId := 42, success := true, done := true, message := "x"
          result := JSValue.null })
      = initialState :=
  c8_idle_message_dropped initialState _ rfl

/-! ## Claim C6: fatal protocol errors in the worker-message handler -/

/-- C6: while a task is running, the worker-message listener throws a fatal
error (an uncaught `throw`, never a Future rejection — on a throw the state,
and hence every Future, is unchanged) exactly when the response's `taskId`
differs from the running task's id, or when `done` is false and the `result`
is not a number within `[0, 100]`; and when `done` is false and the `result`
is a number within `[0, 100]`, the value is instead forwarded to the running
task's registered progress observer. -/
theorem c6_fatal_protocol_errors (s : ReaderState) (i : Nat) (t : Task)
    (r : ResponseMsg) (hrun : s.runningTask = some i)
    (ht : findTask s i = some t) :
    ((∃ e, handleWorkerMessage s r = Except.error e) ↔
      (r.taskId ≠ i ∨ (r.done = false
        ∧ ¬ ∃ v : Int, r.result = JSValue.num v ∧ 0 ≤ v ∧ v ≤ 100)))
    ∧ ((∃ e, handleWorkerMessage s r = Except.error e) →
        step s (Event.worker r) = s)
    ∧ (∀ v : Int, r.taskId = i → r.done = false → r.result = JSValue.num v →
        0 ≤ v → v ≤ 100 → t.onProgress = true →
        ∃ t', findTask (step s (Event.worker r)) i = some t'
          ∧ t'.progressLog = t.progressLog ++ [v]) := by
  have hvp_iff : ∀ w : JSValue, validProgressResult w = true ↔
      (∃ v : Int, w = JSValue.num v ∧ 0 ≤ v ∧ v ≤ 100) := by
    intro w
    cases w <;> simp [validProgressResult]
  by_cases hid : r.taskId = i
  · have hid' : ¬ (r.taskId ≠ i) := fun hne => hne hid
    by_cases hdone : r.done = true
    · have hh : handleWorkerMessage s r = Except.ok (completeTask s r) := by
        unfold handleWorkerMessage
        rw [hrun]
        dsimp only
        rw [if_neg hid', if_pos hdone]
      refine ⟨⟨?_, ?_⟩, ?_, ?_⟩
      · rintro ⟨e, he⟩
        rw [hh] at he
        cases he
      · rintro (h | ⟨h, _⟩)
        · exact absurd hid h
        · rw [hdone] at h
          cases h
      · rintro ⟨e, he⟩
        rw [hh] at he
        cases he
      · intro v _ hdf
        rw [hdone] at hdf
        cases hdf
    · have hdone' : r.done = false := by simpa using hdone
      by_cases hvp : validProgressResult r.result = true
      · have hh : handleWorkerMessage s r = Except.ok { s with
            taskList := updateTask s.taskList i (fun tk =>
              if tk.onProgress then
                { tk with progressLog := tk.progressLog ++ [numValue r.result] }
              else tk) } := by
          unfold handleWorkerMessage
          rw [hrun]
          dsimp only
          rw [if_neg hid', if_neg hdone, if_pos hvp]
        refine ⟨⟨?_, ?_⟩, ?_, ?_⟩
        · rintro ⟨e, he⟩
          rw [hh] at he
          cases he
        · rintro (h | ⟨_, hnv⟩)
          · exact absurd hid h
          · exact absurd ((hvp_iff r.result).mp hvp) hnv
        · rintro ⟨e, he⟩
          rw [hh] at he
          cases he
        · intro v _ _ hres _ _ hop
          simp only [step]
          rw [hh]
          show ∃ t', findTaskIn (updateTask s.taskList i _) i = some t' ∧ _
          rw [findTaskIn_updateTask]
          on_goal 2 =>
            intro u
            dsimp only
            split <;> rfl
          rw [if_pos rfl, show findTaskIn s.taskList i = some t from ht,
            Option.map_some']
          refine ⟨_, rfl, ?_⟩
          dsimp only
          rw [if_pos hop, hres]
          exact rfl
      · have hh : handleWorkerMessage s r = Except.error "Unkown message type" := by
          unfold handleWorkerMessage
          rw [hrun]
          dsimp only
          rw [if_neg hid', if_neg hdone, if_neg hvp]
        refine ⟨⟨fun _ => Or.inr ⟨hdone', ?_⟩, fun _ => ⟨_, hh⟩⟩, ?_, ?_⟩
        · intro hex
          exact hvp ((hvp_iff r.result).mpr hex)
        · intro _
          simp only [step]
          rw [hh]
        · intro v _ _ hres h0 h100 _
          exact absurd ((hvp_iff r.result).mpr ⟨v, hres, h0, h100⟩) hvp
  · have hid' : r.taskId ≠ i := hid
    have hh : handleWorkerMessage s r = Except.error
        ("Received task ID (" ++ toString r.taskId ++
          ") does not match the running task ID (" ++ toString i ++ ").") := by
      unfold handleWorkerMessage
      rw [hrun]
      dsimp only
      rw [if_pos hid']
    refine ⟨⟨fun _ => Or.inl hid', fun _ => ⟨_, hh⟩⟩, ?_, ?_⟩
    · intro _
      simp only [step]
      rw [hh]
    · intro v hti
      exact absurd hti hid'

/-- C6 at concrete inputs: with task `1` running (a `getSporadicLines`
request) and a progress observer registered, a response stamped `taskId = 2`
makes the listener throw, and a `done = false` response carrying `50`
appends `50` to the task's progress log. -/
theorem c6_fatal_protocol_errors_witness :
    (∃ e, handleWorkerMessage
        (run initialState [Event.call (PublicCall.getSporadicLines JSValue.null true),
          Event.registerProgress 1])
        { taskId := 2, success := true, done := true, message := "", result := JSValue.null }
      = Except.error e)
    ∧ (∃ t', findTask (step
          (run initialState [Event.call (PublicCall.getSporadicLines JSValue.null true),
            Event.registerProgress 1])
          (Event.worker { taskId := 1, success := true, done := false, message := ""
                          result := JSValue.num 50 })) 1 = some t'
        ∧ t'.progressLog = [] ++ [50]) := by
  refine ⟨((c6_fatal_protocol_errors
      (run initialState [Event.call (PublicCall.getSporadicLines JSValue.null true),
        Event.registerProgress 1]) 1
      { id := 1, action := "getSporadicLines"
        data := JSValue.obj (fieldsOf [("linesRanges", JSValue.null),
          ("decode", JSValue.boolean true)])
        reqTaskId := 1, state := TaskState.Running, startTime := 0
        hook := SettleHook.none, onProgress := true, progressLog := []
        promiseAlive := true, outcome := none }
      { taskId := 2, success := true, done := true, message := "", result := JSValue.null }
      rfl rfl).1).mpr (Or.inl (by decide)), ?_⟩
  exact (c6_fatal_protocol_errors
      (run initialState [Event.call (PublicCall.getSporadicLines JSValue.null true),
        Event.registerProgress 1]) 1
      { id := 1, action := "getSporadicLines"
        data := JSValue.obj (fieldsOf [("linesRanges", JSValue.null),
          ("decode", JSValue.boolean true)])
        reqTaskId := 1, state := TaskState.Running, startTime := 0
        hook := SettleHook.none, onProgress := true, progressLog := []
        promiseAlive := true, outcome := none }
      { taskId := 1, success := true, done := false, message := ""
        result := JSValue.num 50 }
      rfl rfl).2.2 50 rfl rfl rfl (by decide) (by decide) rfl

/-! ## Claim C7: terminal settlement of the running task -/

/-- C7: a terminal response (`done = true`) whose `taskId` matches the
running task settles that task's Future: it is fulfilled with
`{timeTaken, message, result}` — `timeTaken` being the completion time minus
the recorded start time, `message` and `result` copied from the response —
exactly when the response's `success` is true, and rejected with exactly the
response's `message` otherwise; and the task's resolver references are
released at that point (`promiseAlive = false`). -/
theorem c7_terminal_settlement (s : ReaderState) (hs : Reachable s) (i : Nat)
    (t : Task) (r : ResponseMsg) (hrun : s.runningTask = some i)
    (ht : findTask s i = some t) (hid : r.taskId = i) (hdone : r.done = true) :
    ∃ t', findTask (step s (Event.worker r)) i = some t'
      ∧ t'.state = TaskState.Completed
      ∧ t'.promiseAlive = false
      ∧ t'.outcome = some (if r.success then
            Except.ok { timeTaken := s.now - t.startTime, message := r.message
                        result := r.result }
          else Except.error r.message) := by
  have hInv := invariant_reachable hs
  have hid' : ¬ (r.taskId ≠ i) := fun hne => hne hid
  have hh : handleWorkerMessage s r = Except.ok (completeTask s r) := by
    unfold handleWorkerMessage
    rw [hrun]
    dsimp only
    rw [if_neg hid', if_pos hdone]
  have hstep : step s (Event.worker r) = completeTask s r := by
    simp only [step]
    rw [hh]
  obtain ⟨tr, htrf, htrR⟩ := hInv.running_state i hrun
  have ht_eq : tr = t := by
    rw [ht] at htrf
    exact (Option.some.inj htrf).symm
  rw [ht_eq] at htrR
  set outc : Except String TaskResponse :=
    if r.success then
      Except.ok { timeTaken := s.now - t.startTime, message := r.message
                  result := r.result }
    else Except.error r.message with houtc
  set fC : Task → Task := fun tk =>
    { tk with state := TaskState.Completed, outcome := some outc
              promiseAlive := false } with hfC
  have hcw : ∃ fileV lineV,
      completeWith s i r = { s with
        taskList := updateTask s.taskList i fC
        file := fileV, lineCount := lineV } := by
    unfold completeWith
    rw [show findTask s i = some t from ht]
    cases hsucc : r.success
    · refine ⟨s.file, s.lineCount, ?_⟩
      simp only [Bool.false_eq_true, if_false]
      rw [hfC, houtc, hsucc]
      simp
    · cases hhk : t.hook with
      | none =>
        refine ⟨s.file, s.lineCount, ?_⟩
        rw [hfC, houtc, hsucc]
        simp [applyHook, hhk]
      | loadFile ff =>
        refine ⟨some ff, resultLineCount r.result, ?_⟩
        rw [hfC, houtc, hsucc]
        simp [applyHook, hhk]
  obtain ⟨fileV, lineV, hcweq⟩ := hcw
  have hres : completeTask s r = runNextTask { s with
      taskList := updateTask s.taskList i fC
      file := fileV, lineCount := lineV
      runningTask := none } := by
    unfold completeTask
    rw [hrun]
    dsimp only
    rw [hcweq]
  rw [hstep, hres]
  have hfind := findTaskIn_updateTask s.taskList i fC (fun _ => rfl)
  obtain hq | ⟨h, rest, hq⟩ : s.queuedTaskList = []
      ∨ ∃ h rest, s.queuedTaskList = h :: rest := by
    cases s.queuedTaskList with
    | nil => exact Or.inl rfl
    | cons h rest => exact Or.inr ⟨h, rest, rfl⟩
  · have hq2 : ({ s with
        taskList := updateTask s.taskList i fC
        file := fileV, lineCount := lineV
        runningTask := none } : ReaderState).queuedTaskList = [] := hq
    rw [runNextTask_nil hq2]
    show ∃ t', findTaskIn (updateTask s.taskList i fC) i = some t' ∧ _
    rw [hfind i, if_pos rfl, show findTaskIn s.taskList i = some t from ht,
      Option.map_some']
    exact ⟨fC t, rfl, rfl, rfl, rfl⟩
  · obtain ⟨th, hthf, hthq⟩ := hInv.queued_state h (hq ▸ List.mem_cons_self h rest)
    have hne_hi : h ≠ i := by
      intro he
      rw [he] at hthf
      rw [show findTask s i = some t from ht] at hthf
      rw [← Option.some.inj hthf, htrR] at hthq
      cases hthq
    have hthid : th.id = h := findTaskIn_id hthf
    have hni : ¬ i = th.id := fun he => hne_hi (by rw [hthid] at he; exact he.symm)
    have hth2 : findTask ({ s with
        taskList := updateTask s.taskList i fC
        file := fileV, lineCount := lineV
        runningTask := none } : ReaderState) h = some th := by
      show findTaskIn (updateTask s.taskList i fC) h = some th
      rw [hfind h, if_neg hne_hi]
      exact hthf
    have hq2 : ({ s with
        taskList := updateTask s.taskList i fC
        file := fileV, lineCount := lineV
        runningTask := none } : ReaderState).queuedTaskList = h :: rest := hq
    rw [runNextTask_cons hq2 hth2]
    obtain herr | herr : isErrorData th.data = true ∨ isErrorData th.data = false := by
      cases isErrorData th.data
      · exact Or.inr rfl
      · exact Or.inl rfl
    · rw [runTask_err herr]
      show ∃ t', findTaskIn (updateTask (updateTask s.taskList i fC) th.id _) i
        = some t' ∧ _
      rw [findTaskIn_updateTask]
      on_goal 2 => exact fun _ => rfl
      rw [if_neg hni, hfind i, if_pos rfl,
        show findTaskIn s.taskList i = some t from ht, Option.map_some']
      exact ⟨fC t, rfl, rfl, rfl, rfl⟩
    · rw [runTask_post herr]
      show ∃ t', findTaskIn (updateTask (updateTask s.taskList i fC) th.id _) i
        = some t' ∧ _
      rw [findTaskIn_updateTask]
      on_goal 2 => exact fun _ => rfl
      rw [if_neg hni, hfind i, if_pos rfl,
        show findTaskIn s.taskList i = some t from ht, Option.map_some']
      exact ⟨fC t, rfl, rfl, rfl, rfl⟩

/-- C7 at concrete inputs: a successful terminal response for the running
`getSporadicLines` task fulfils it with `{timeTaken := 0, message := "done",
result := null}` and releases the resolver references. -/
theorem c7_terminal_settlement_witness :
    ∃ t', findTask (step
        (run initialState [Event.call (PublicCall.getSporadicLines JSValue.null true)])
        (Event.worker { taskId := 1, success := true, done := true, message := "done"
                        result := JSValue.null })) 1 = some t'
      ∧ t'.state = TaskState.Completed
      ∧ t'.promiseAlive = false
      ∧ t'.outcome = some (Except.ok { timeTaken := 0, message := "done"
                                       result := JSValue.null }) :=
  c7_terminal_settlement _ ⟨_, rfl⟩ 1
    { id := 1, action := "getSporadicLines"
      data := JSValue.obj (fieldsOf [("linesRanges", JSValue.null),
        ("decode", JSValue.boolean true)])
      reqTaskId := 1, state := TaskState.Running, startTime := 0
      hook := SettleHook.none, onProgress := false, progressLog := []
      promiseAlive := true, outcome := none }
    { taskId := 1, success := true, done := true, message := "done"
      result := JSValue.null }
    rfl rfl rfl rfl

/-! ## Claim C3: settlement is final — but late observers are dropped -/

/-- C3 (amended): every Future settles exactly once — a task's promise is
settled exactly when the task is `Completed`, and once `Completed` its
outcome, progress log and released resolvers are frozen under every further
event (so no second settlement and no progress delivery after settlement
ever happens); but an observer registered via `then` or `catch` *after*
settlement receives nothing, because `dispose` has nulled the promise
reference that `then`/`catch` guard on. -/
theorem c3_settlement_amended (s : ReaderState) (hs : Reachable s) :
    (∀ t ∈ s.taskList, (t.outcome.isSome ↔ t.state = TaskState.Completed)
      ∧ (t.promiseAlive = true ↔ t.state ≠ TaskState.Completed))
    ∧ (∀ (j : Nat) (t : Task), findTask s j = some t →
        t.state = TaskState.Completed → ∀ es : List Event,
        ∃ t', findTask (run s es) j = some t'
          ∧ t'.state = TaskState.Completed ∧ t'.outcome = t.outcome
          ∧ t'.progressLog = t.progressLog ∧ t'.promiseAlive = t.promiseAlive)
    ∧ (∀ t ∈ s.taskList, t.state = TaskState.Completed →
        thenDelivered t = none ∧ catchDelivered t = none) := by
  have hInv := invariant_reachable hs
  refine ⟨fun t ht => ⟨hInv.settled_iff t ht, hInv.alive_iff t ht⟩, ?_, ?_⟩
  · intro j t htf hcomp es
    obtain ⟨t', h', _, _, _, _, _, hfr⟩ := run_find_preserves hInv htf es
    obtain ⟨hst, hout, hpl, hpa⟩ := hfr hcomp
    exact ⟨t', h', hst, hout, hpl, hpa⟩
  · intro t ht hcomp
    have halive : t.promiseAlive = false := by
      cases hpa : t.promiseAlive
      · rfl
      · exact absurd hcomp ((hInv.alive_iff t ht).mp hpa)
    constructor
    · unfold thenDelivered
      rw [halive]
      rfl
    · unfold catchDelivered
      rw [halive]
      rfl

/-- C3 is false as stated: after a task has settled, `dispose` has already
nulled `this.promise`, so `then` and `catch` silently drop callbacks
registered from then on — here a fulfilled task whose already-computed
outcome a late `then` observer never receives. -/
theorem c3_late_observer_counterexample :
    findTask (run initialState
        [Event.call (PublicCall.getSporadicLines JSValue.null true),
         Event.worker { taskId := 1, success := true, done := true, message := "ok"
                        result := JSValue.null }]) 1
      = some { id := 1, action := "getSporadicLines"
               data := JSValue.obj (fieldsOf [("linesRanges", JSValue.null),
                 ("decode", JSValue.boolean true)])
               reqTaskId := 1, state := TaskState.Completed, startTime := 0
               hook := SettleHook.none, onProgress := false, progressLog := []
               promiseAlive := false
               outcome := some (Except.ok { timeTaken := 0, message := "ok"
                                            result := JSValue.null }) }
    ∧ thenDelivered { id := 1, action := "getSporadicLines"
                      data := JSValue.obj (fieldsOf [("linesRanges", JSValue.null),
                        ("decode", JSValue.boolean true)])
                      reqTaskId := 1, state := TaskState.Completed, startTime := 0
                      hook := SettleHook.none, onProgress := false, progressLog := []
                      promiseAlive := false
                      outcome := some (Except.ok { timeTaken := 0, message := "ok"
                                                   result := JSValue.null }) } = none
    ∧ ¬ (thenDelivered { id := 1, action := "getSporadicLines"
                         data := JSValue.obj (fieldsOf [("linesRanges", JSValue.null),
                           ("decode", JSValue.boolean true)])
                         reqTaskId := 1, state := TaskState.Completed, startTime := 0
                         hook := SettleHook.none, onProgress := false, progressLog := []
                         promiseAlive := false
                         outcome := some (Except.ok { timeTaken := 0, message := "ok"
                                                      result := JSValue.null }) }
          = some { timeTaken := 0, message := "ok", result := JSValue.null }) :=
  ⟨rfl, rfl, fun h => Option.noConfusion h⟩

/-- C3 amended at concrete inputs: the settled task of a two-event run stays
settled with the same outcome across further events, and late observers on
it receive nothing. -/
theorem c3_settlement_amended_witness :
    (∃ t', findTask (run (run initialState
          [Event.call (PublicCall.getSporadicLines JSValue.null true),
           Event.worker { taskId := 1, success := true, done := true, message := "ok"
                          result := JSValue.null }])
        [Event.tick 5, Event.call PublicCall.enableVerbose]) 1 = some t'
      ∧ t'.state = TaskState.Completed
      ∧ t'.outcome = some (Except.ok { timeTaken := 0, message := "ok"
                                       result := JSValue.null })
      ∧ t'.progressLog = [] ∧ t'.promiseAlive = false)
    ∧ thenDelivered { id := 1, action := "getSporadicLines"
                      data := JSValue.obj (fieldsOf [("linesRanges", JSValue.null),
                        ("decode", JSValue.boolean true)])
                      reqTaskId := 1, state := TaskState.Completed, startTime := 0
                      hook := SettleHook.none, onProgress := false, progressLog := []
                      promiseAlive := false
                      outcome := some (Except.ok { timeTaken := 0, message := "ok"
                                                   result := JSValue.null }) } = none := by
  constructor
  · exact (c3_settlement_amended (run initialState
        [Event.call (PublicCall.getSporadicLines JSValue.null true),
         Event.worker { taskId := 1, success := true, done := true, message := "ok"
                        result := JSValue.null }]) ⟨_, rfl⟩).2.1 1
      { id := 1, action := "getSporadicLines"
        data := JSValue.obj (fieldsOf [("linesRanges", JSValue.null),
          ("decode", JSValue.boolean true)])
        reqTaskId := 1, state := TaskState.Completed, startTime := 0
        hook := SettleHook.none, onProgress := false, progressLog := []
        promiseAlive := false
        outcome := some (Except.ok { timeTaken := 0, message := "ok"
                                     result := JSValue.null }) }
      rfl rfl [Event.tick 5, Event.call PublicCall.enableVerbose]
  · exact ((c3_settlement_amended (run initialState
        [Event.call (PublicCall.getSporadicLines JSValue.null true),
         Event.worker { taskId := 1, success := true, done := true, message := "ok"
                        result := JSValue.null }]) ⟨_, rfl⟩).2.2
      { id := 1, action := "getSporadicLines"
        data := JSValue.obj (fieldsOf [("linesRanges", JSValue.null),
          ("decode", JSValue.boolean true)])
        reqTaskId := 1, state := TaskState.Completed, startTime := 0
        hook := SettleHook.none, onProgress := false, progressLog := []
        promiseAlive := false
        outcome := some (Except.ok { timeTaken := 0, message := "ok"
                                     result := JSValue.null }) }
      (List.mem_singleton.mpr rfl) rfl).1

/-! ## Claim C1: single flight and FIFO dispatch -/

/-- C1 (amended): in every reachable state at most one task is `Running`
(any two `Running` tasks are equal); a public call dispatches its new task
immediately exactly when no task is running, and otherwise appends it to the
FIFO pending queue in `Queued` state without posting anything; when the
running task completes, the head of the queue is dispatched next, and — when
its payload is not the local precondition-failure `Error` — its request is
posted to the worker at that point and was never posted before; a queued
task's request is never in the posted log.  (The claim's unconditional
"its request is posted at that point" fails for `Error`-payload tasks, which
never post; see the counterexample.) -/
theorem c1_single_flight_fifo_amended (s : ReaderState) (hs : Reachable s) :
    (∀ t1 ∈ s.taskList, ∀ t2 ∈ s.taskList, t1.state = TaskState.Running →
      t2.state = TaskState.Running → t1 = t2)
    ∧ (∀ c : PublicCall, s.runningTask = none →
        (step s (Event.call c)).runningTask = some (newTaskId s)
        ∧ ∃ t, findTask (step s (Event.call c)) (newTaskId s) = some t
            ∧ t.state = TaskState.Running)
    ∧ (∀ c : PublicCall, s.runningTask ≠ none →
        (step s (Event.call c)).runningTask = s.runningTask
        ∧ (step s (Event.call c)).queuedTaskList = s.queuedTaskList ++ [newTaskId s]
        ∧ (step s (Event.call c)).posted = s.posted
        ∧ ∃ t, findTask (step s (Event.call c)) (newTaskId s) = some t
            ∧ t.state = TaskState.Queued)
    ∧ (∀ r : ResponseMsg, s.runningTask = some r.taskId → r.done = true →
        (s.queuedTaskList = [] → (step s (Event.worker r)).runningTask = none)
        ∧ (∀ h rest, s.queuedTaskList = h :: rest →
            ∃ th, findTask s h = some th
              ∧ (step s (Event.worker r)).runningTask = some h
              ∧ (step s (Event.worker r)).queuedTaskList = rest
              ∧ (∃ t', findTask (step s (Event.worker r)) h = some t'
                  ∧ t'.state = TaskState.Running)
              ∧ (isErrorData th.data = false →
                  (step s (Event.worker r)).posted = s.posted ++ [requestOf th]
                  ∧ requestOf th ∉ s.posted)))
    ∧ (∀ i ∈ s.queuedTaskList, ∀ m ∈ s.posted, m.taskId ≠ i) := by
  have hInv := invariant_reachable hs
  have hnd := ids_nodup hInv.ids
  refine ⟨?_, ?_, ?_, ?_, hInv.queued_unposted⟩
  · intro t1 ht1 t2 ht2 hr1 hr2
    have h1 := hInv.running_unique t1 ht1 hr1
    have h2 := hInv.running_unique t2 ht2 hr2
    rw [h1] at h2
    have hid12 : t1.id = t2.id := Option.some.inj h2
    have f1 := findTaskIn_of_mem hnd ht1
    have f2 := findTaskIn_of_mem hnd ht2
    rw [hid12, f2] at f1
    exact (Option.some.inj f1).symm
  · intro c hrun
    obtain ⟨s0, a, d, hk, hdc, hteq, hreq, _, _, _, _⟩ := doCall_shape s c
    have hids0 : s0.taskList.map Task.id = List.range' 1 s0.taskList.length := by
      rw [hteq]
      exact hInv.ids
    have hrun0 : s0.runningTask = none := by
      rw [hreq]
      exact hrun
    have hnid : newTaskId s0 = newTaskId s := by
      unfold newTaskId
      rw [hteq]
    have hstep : step s (Event.call c) = (newTask s0 a d hk).1 := hdc
    rw [hstep, ← hnid]
    exact newTask_idle_effects hids0 hrun0 a d hk
  · intro c hrun
    obtain ⟨s0, a, d, hk, hdc, hteq, hreq, hqeq, hpeq, _, _⟩ := doCall_shape s c
    have hids0 : s0.taskList.map Task.id = List.range' 1 s0.taskList.length := by
      rw [hteq]
      exact hInv.ids
    have hrun0 : s0.runningTask ≠ none := by
      rw [hreq]
      exact hrun
    have hnid : newTaskId s0 = newTaskId s := by
      unfold newTaskId
      rw [hteq]
    obtain ⟨e1, e2, e3, e4, e5⟩ := newTask_busy_effects hids0 hrun0 a d hk
    have hstep : step s (Event.call c) = (newTask s0 a d hk).1 := hdc
    rw [hstep, ← hnid]
    exact ⟨e1.trans hreq, by rw [e2, hqeq], e3.trans hpeq, e5⟩
  · intro r hrun hdone
    have hid' : ¬ (r.taskId ≠ r.taskId) := fun hne => hne rfl
    obtain ⟨t, htf, htst⟩ := hInv.running_state r.taskId hrun
    have hh : handleWorkerMessage s r = Except.ok (completeTask s r) := by
      unfold handleWorkerMessage
      rw [hrun]
      dsimp only
      rw [if_neg hid', if_pos hdone]
    have hstep : step s (Event.worker r) = completeTask s r := by
      simp only [step]
      rw [hh]
    set outc : Except String TaskResponse :=
      if r.success then
        Except.ok { timeTaken := s.now - t.startTime, message := r.message
                    result := r.result }
      else Except.error r.message with houtc
    set fC : Task → Task := fun tk =>
      { tk with state := TaskState.Completed, outcome := some outc
                promiseAlive := false } with hfC
    have hcw : ∃ fileV lineV,
        completeWith s r.taskId r = { s with
          taskList := updateTask s.taskList r.taskId fC
          file := fileV, lineCount := lineV } := by
      unfold completeWith
      rw [show findTask s r.taskId = some t from htf]
      cases hsucc : r.success
      · refine ⟨s.file, s.lineCount, ?_⟩
        simp only [Bool.false_eq_true, if_false]
        rw [hfC, houtc, hsucc]
        simp
      · cases hhk : t.hook with
        | none =>
          refine ⟨s.file, s.lineCount, ?_⟩
          rw [hfC, houtc, hsucc]
          simp [applyHook, hhk]
        | loadFile ff =>
          refine ⟨some ff, resultLineCount r.result, ?_⟩
          rw [hfC, houtc, hsucc]
          simp [applyHook, hhk]
    obtain ⟨fileV, lineV, hcweq⟩ := hcw
    have hres : completeTask s r = runNextTask { s with
        taskList := updateTask s.taskList r.taskId fC
        file := fileV, lineCount := lineV
        runningTask := none } := by
      unfold completeTask
      rw [hrun]
      dsimp only
      rw [hcweq]
    have hfind := findTaskIn_updateTask s.taskList r.taskId fC (fun _ => rfl)
    refine ⟨?_, ?_⟩
    · intro hq
      have hq2 : ({ s with
          taskList := updateTask s.taskList r.taskId fC
          file := fileV, lineCount := lineV
          runningTask := none } : ReaderState).queuedTaskList = [] := hq
      rw [hstep, hres, runNextTask_nil hq2]
    · intro h rest hq
      obtain ⟨th, hthf, hthq⟩ := hInv.queued_state h (hq ▸ List.mem_cons_self h rest)
      have hne_hi : h ≠ r.taskId := by
        intro he
        rw [he] at hthf
        rw [show findTask s r.taskId = some t from htf] at hthf
        rw [← Option.some.inj hthf, htst] at hthq
        cases hthq
      have hthid : th.id = h := findTaskIn_id hthf
      refine ⟨th, hthf, ?_⟩
      have hth2 : findTask ({ s with
          taskList := updateTask s.taskList r.taskId fC
          file := fileV, lineCount := lineV
          runningTask := none } : ReaderState) h = some th := by
        show findTaskIn (updateTask s.taskList r.taskId fC) h = some th
        rw [hfind h, if_neg hne_hi]
        exact hthf
      have hq2 : ({ s with
          taskList := updateTask s.taskList r.taskId fC
          file := fileV, lineCount := lineV
          runningTask := none } : ReaderState).queuedTaskList = h :: rest := hq
      rw [hstep, hres, runNextTask_cons hq2 hth2]
      obtain herr | herr : isErrorData th.data = true ∨ isErrorData th.data = false := by
        cases isErrorData th.data
        · exact Or.inr rfl
        · exact Or.inl rfl
      · rw [runTask_err herr]
        refine ⟨?_, rfl, ?_, ?_⟩
        · show some th.id = some h
          rw [hthid]
        · show ∃ t', findTaskIn (updateTask (updateTask s.taskList r.taskId fC)
            th.id _) h = some t' ∧ _
          rw [findTaskIn_updateTask]
          on_goal 2 => exact fun _ => rfl
          rw [if_pos hthid.symm,
            show findTaskIn (updateTask s.taskList r.taskId fC) h = some th from hth2,
            Option.map_some']
          exact ⟨_, rfl, rfl⟩
        · intro hfe
          rw [herr] at hfe
          cases hfe
      · rw [runTask_post herr]
        refine ⟨?_, rfl, ?_, ?_⟩
        · show some th.id = some h
          rw [hthid]
        · show ∃ t', findTaskIn (updateTask (updateTask s.taskList r.taskId fC)
            th.id _) h = some t' ∧ _
          rw [findTaskIn_updateTask]
          on_goal 2 => exact fun _ => rfl
          rw [if_pos hthid.symm,
            show findTaskIn (updateTask s.taskList r.taskId fC) h = some th from hth2,
            Option.map_some']
          exact ⟨_, rfl, rfl⟩
        · intro _
          refine ⟨rfl, ?_⟩
          intro hmem
          have hreqid : (requestOf th).taskId = h := by
            show th.reqTaskId = h
            rw [hInv.req_id th (findTaskIn_mem hthf), hthid]
          exact hInv.queued_unposted h (hq ▸ List.mem_cons_self h rest)
            (requestOf th) hmem hreqid

/-- C1 is false as stated for the spec's own scenario: `getLines` dispatched
while `loadFile` is still running creates an `Error`-payload task (the file
is still null); when `loadFile` completes, the queued task is dispatched as
the claim says — but its request is never posted to the worker (the posted
log still holds only the `loadFile` request); a synthetic local-failure
timeout is scheduled instead. -/
theorem c1_queued_error_request_counterexample :
    (run initialState
        [Event.call (PublicCall.loadFile (JSValue.file "a.txt") Option.none),
         Event.call (PublicCall.getLines 0 10 true)]).queuedTaskList = [2]
    ∧ (step (run initialState
        [Event.call (PublicCall.loadFile (JSValue.file "a.txt") Option.none),
         Event.call (PublicCall.getLines 0 10 true)])
        (Event.worker { taskId := 1, success := true, done := true, message := "ok"
                        result := JSValue.obj (fieldsOf [("lineCount", JSValue.num 3)]) })).runningTask
      = some 2
    ∧ (step (run initialState
        [Event.call (PublicCall.loadFile (JSValue.file "a.txt") Option.none),
         Event.call (PublicCall.getLines 0 10 true)])
        (Event.worker { taskId := 1, success := true, done := true, message := "ok"
                        result := JSValue.obj (fieldsOf [("lineCount", JSValue.num 3)]) })).posted.map
        PostedMsg.taskId = [1]
    ∧ (step (run initialState
        [Event.call (PublicCall.loadFile (JSValue.file "a.txt") Option.none),
         Event.call (PublicCall.getLines 0 10 true)])
        (Event.worker { taskId := 1, success := true, done := true, message := "ok"
                        result := JSValue.obj (fieldsOf [("lineCount", JSValue.num 3)]) })).timeouts.map
        ResponseMsg.taskId = [2] :=
  ⟨rfl, rfl, rfl, rfl⟩

/-- C1 amended at concrete inputs: a second call while `loadFile` runs is
queued (not dispatched), and on `loadFile`'s terminal response the queue head
is dispatched and the queue drained. -/
theorem c1_single_flight_fifo_witness :
    (step (run initialState
        [Event.call (PublicCall.loadFile (JSValue.file "a.txt") Option.none)])
      (Event.call (PublicCall.getLines 0 10 true))).queuedTaskList = [2]
    ∧ (step (run initialState
        [Event.call (PublicCall.loadFile (JSValue.file "a.txt") Option.none),
         Event.call (PublicCall.getLines 0 10 true)])
        (Event.worker { taskId := 1, success := true, done := true, message := "ok"
                        result := JSValue.obj (fieldsOf [("lineCount", JSValue.num 3)]) })).runningTask
      = some 2
    ∧ (step (run initialState
        [Event.call (PublicCall.loadFile (JSValue.file "a.txt") Option.none),
         Event.call (PublicCall.getLines 0 10 true)])
        (Event.worker { taskId := 1, success := true, done := true, message := "ok"
                        result := JSValue.obj (fieldsOf [("lineCount", JSValue.num 3)]) })).queuedTaskList
      = [] := by
  have h1 := ((c1_single_flight_fifo_amended (run initialState
      [Event.call (PublicCall.loadFile (JSValue.file "a.txt") Option.none)])
      ⟨_, rfl⟩).2.2.1 (PublicCall.getLines 0 10 true)
      (fun hcon => Option.noConfusion hcon)).2.1
  have h2 := (c1_single_flight_fifo_amended (run initialState
      [Event.call (PublicCall.loadFile (JSValue.file "a.txt") Option.none),
       Event.call (PublicCall.getLines 0 10 true)]) ⟨_, rfl⟩).2.2.2.1
      { taskId := 1, success := true, done := true, message := "ok"
        result := JSValue.obj (fieldsOf [("lineCount", JSValue.num 3)]) }
      rfl rfl
  obtain ⟨th, _, ha, hb, _, _⟩ := h2.2 2 [] rfl
  exact ⟨h1, ha, hb⟩

/-! ## Claim C9: the sporadic actions never take the local not-loaded path -/

/-- C9: `getSporadicLines` and `iterateSporadicLines` never check the loaded
file — the created task always carries the normal (non-`Error`) payload, its
request is posted immediately when the reader is idle, no synthetic
local-failure timeout ever carries its id (so it can never receive the local
"TxtReader has not loaded a file yet." rejection), and whenever it is the
running task its request has been posted to the worker. -/
theorem c9_sporadic_always_posted (s : ReaderState) (hs : Reachable s)
    (lr : JSValue) (d : Bool) (cfg : IIteratorConfig) :
    ((∃ t, findTask (step s (Event.call (PublicCall.getSporadicLines lr d)))
          (newTaskId s) = some t
        ∧ t.data = JSValue.obj (fieldsOf [("linesRanges", lr),
            ("decode", JSValue.boolean d)])
        ∧ isErrorData t.data = false)
    ∧ (s.runningTask = none →
        (step s (Event.call (PublicCall.getSporadicLines lr d))).posted
          = s.posted ++ [{ action := "getSporadicLines"
                           data := JSValue.obj (fieldsOf [("linesRanges", lr),
                             ("decode", JSValue.boolean d)])
                           taskId := newTaskId s }])
    ∧ (∀ es rr, rr ∈ (run (step s (Event.call (PublicCall.getSporadicLines lr d)))
          es).timeouts → rr.taskId ≠ newTaskId s)
    ∧ (∀ es, (run (step s (Event.call (PublicCall.getSporadicLines lr d)))
            es).runningTask = some (newTaskId s) →
        ∃ m ∈ (run (step s (Event.call (PublicCall.getSporadicLines lr d)))
            es).posted, m.taskId = newTaskId s))
    ∧ ((∃ t, findTask (step s (Event.call (PublicCall.iterateSporadicLines cfg lr)))
          (newTaskId s) = some t
        ∧ t.data = JSValue.obj (fieldsOf
            [("config", encodeConfigMessage (getItertorConfigMessage (cloneDeepConfig cfg))),
             ("lines", lr)])
        ∧ isErrorData t.data = false)
    ∧ (s.runningTask = none →
        (step s (Event.call (PublicCall.iterateSporadicLines cfg lr))).posted
          = s.posted ++ [{ action := "iterateSporadicLines"
                           data := JSValue.obj (fieldsOf
                             [("config", encodeConfigMessage (getItertorConfigMessage (cloneDeepConfig cfg))),
                              ("lines", lr)])
                           taskId := newTaskId s }])
    ∧ (∀ es rr, rr ∈ (run (step s (Event.call (PublicCall.iterateSporadicLines cfg lr)))
          es).timeouts → rr.taskId ≠ newTaskId s)
    ∧ (∀ es, (run (step s (Event.call (PublicCall.iterateSporadicLines cfg lr)))
            es).runningTask = some (newTaskId s) →
        ∃ m ∈ (run (step s (Event.call (PublicCall.iterateSporadicLines cfg lr)))
            es).posted, m.taskId = newTaskId s)) := by
  have hInv := invariant_reachable hs
  constructor
  · have h := newTask_normal_tracking hInv "getSporadicLines"
      (JSValue.obj (fieldsOf [("linesRanges", lr), ("decode", JSValue.boolean d)]))
      rfl
    obtain ⟨⟨t1, h1f, _, h1d⟩, h2, h3, h4⟩ := h
    have h1e : isErrorData t1.data = false := by
      rw [h1d]
      rfl
    exact ⟨⟨t1, h1f, h1d, h1e⟩, h2, h3, h4⟩
  · have h := newTask_normal_tracking hInv "iterateSporadicLines"
      (JSValue.obj (fieldsOf
        [("config", encodeConfigMessage (getItertorConfigMessage (cloneDeepConfig cfg))),
         ("lines", lr)]))
      rfl
    obtain ⟨⟨t1, h1f, _, h1d⟩, h2, h3, h4⟩ := h
    have h1e : isErrorData t1.data = false := by
      rw [h1d]
      rfl
    exact ⟨⟨t1, h1f, h1d, h1e⟩, h2, h3, h4⟩

/-- C9 at concrete inputs: with no file loaded, `getSporadicLines` posts its
request immediately, and an `iterateSporadicLines` task is the running task
with its request in the posted log. -/
theorem c9_sporadic_always_posted_witness :
    (step initialState (Event.call (PublicCall.getSporadicLines JSValue.null true))).posted
      = [] ++ [{ action := "getSporadicLines"
                 data := JSValue.obj (fieldsOf [("linesRanges", JSValue.null),
                   ("decode", JSValue.boolean true)])
                 taskId := 1 }]
    ∧ ∃ m ∈ (run (step initialState (Event.call (PublicCall.iterateSporadicLines
          { eachLine := JSValue.func "function (raw) \x7b \x7d", scope := Option.none }
          JSValue.null))) []).posted, m.taskId = 1 := by
  constructor
  · exact (c9_sporadic_always_posted initialState ⟨[], rfl⟩ JSValue.null true
      { eachLine := JSValue.func "function (raw) \x7b \x7d"
        scope := Option.none }).1.2.1 rfl
  · exact (c9_sporadic_always_posted initialState ⟨[], rfl⟩ JSValue.null true
      { eachLine := JSValue.func "function (raw) \x7b \x7d"
        scope := Option.none }).2.2.2.2 [] rfl

/-! ## Claim C5: getLines before a successful loadFile -/

/-- C5: in any state reachable under a contract-honouring worker in which no
`loadFile` task has ever been fulfilled, a `getLines` call creates a task
carrying the not-loaded `Error` and a still-pending Future, posts nothing to
the worker at that point, never has a message with its id posted along any
future events, and — along any further contract-honouring events — if its
Future ever settles, it settles as a rejection with exactly the message
"TxtReader has not loaded a file yet." (the settlement itself arrives
asynchronously, via the scheduled zero-delay timeout, never as a synchronous
throw of the call). -/
theorem c5_get_lines_before_load (s : ReaderState) (hs : CReachable s)
    (hnl : ∀ t ∈ s.taskList, t.action = "loadFile" →
      ∀ rr, t.outcome ≠ some (Except.ok rr))
    (start count : Int) (d : Bool) :
    (∃ t, findTask (step s (Event.call (PublicCall.getLines start count d)))
        (newTaskId s) = some t
      ∧ t.data = notLoadedError ∧ t.outcome = none ∧ t.promiseAlive = true)
    ∧ (step s (Event.call (PublicCall.getLines start count d))).posted = s.posted
    ∧ (∀ es m, m ∈ (run (step s (Event.call (PublicCall.getLines start count d)))
          es).posted → m.taskId ≠ newTaskId s)
    ∧ (∀ es, conformingFrom (step s (Event.call (PublicCall.getLines start count d)))
          es = true →
        ∀ t, findTask (run (step s (Event.call (PublicCall.getLines start count d)))
            es) (newTaskId s) = some t →
        ∀ o, t.outcome = some o →
          o = Except.error "TxtReader has not loaded a file yet.") := by
  have hC := cinvariant_creachable hs
  have hInv := hC.toInv
  have hfile : s.file.isNone = true := by
    cases hf : s.file with
    | none => rfl
    | some f =>
      obtain ⟨t, htmem, hact, rr, hout⟩ := hInv.file_src f hf
      exact absurd hout (hnl t htmem hact rr)
  have hdc : step s (Event.call (PublicCall.getLines start count d))
      = (newTask s "getLines" notLoadedError SettleHook.none).1 := by
    show doCall s (PublicCall.getLines start count d) = _
    unfold doCall
    dsimp only
    rw [if_pos hfile]
  obtain ⟨t1, ht1f, _, ht1d, _, ht1o, ht1p⟩ :=
    newTask_find_fresh hInv.ids "getLines" notLoadedError SettleHook.none
  have hInv' : Inv (newTask s "getLines" notLoadedError SettleHook.none).1 :=
    Inv_newTask hInv "getLines" notLoadedError SettleHook.none (fun f hf => by cases hf)
  refine ⟨?_, ?_, ?_, ?_⟩
  · rw [hdc]
    exact ⟨t1, ht1f, ht1d, ht1o, ht1p⟩
  · rw [hdc]
    exact newTask_err_posted hInv.ids "getLines" notLoadedError SettleHook.none rfl
  · intro es m hm heq
    rw [hdc] at hm
    have hI := Inv_run hInv' es
    obtain ⟨tp, htp, htperr, _⟩ := hI.posted_src m hm
    rw [heq] at htp
    obtain ⟨t2, ht2, _, _, ht2d, _, _, _⟩ := run_find_preserves hInv' ht1f es
    have htpeq : t2 = tp := by
      rw [ht2] at htp
      exact Option.some.inj htp
    rw [← htpeq, ht2d, ht1d] at htperr
    exact Bool.noConfusion htperr
  · intro es hconf t htf o ho
    rw [hdc] at hconf htf
    have hC' : CInv (newTask s "getLines" notLoadedError SettleHook.none).1 := by
      have := CInv_step hC (show eventConforms s
        (Event.call (PublicCall.getLines start count d)) = true from rfl)
      rw [hdc] at this
      exact this
    have hCf : CInv (run (newTask s "getLines" notLoadedError SettleHook.none).1 es) :=
      CInv_run hC' es hconf
    obtain ⟨t2, ht2, _, _, ht2d, _, _, _⟩ := run_find_preserves hInv' ht1f es
    have hteq : t = t2 := by
      rw [ht2] at htf
      exact (Option.some.inj htf).symm
    have htderr : isErrorData t.data = true := by
      rw [hteq, ht2d, ht1d]
      rfl
    have h := hCf.error_outcome t (findTaskIn_mem htf) htderr o ho
    rw [h, hteq, ht2d, ht1d]
    rfl

/-- C5 at concrete inputs: a fresh reader, `getLines(0, 10)` — the created
task holds the not-loaded `Error` with a pending Future, nothing is posted,
and when the scheduled zero-delay timeout fires the Future is rejected with
exactly the not-loaded message. -/
theorem c5_get_lines_before_load_witness :
    (∃ t, findTask (step initialState (Event.call (PublicCall.getLines 0 10 true))) 1
        = some t
      ∧ t.data = notLoadedError ∧ t.outcome = none ∧ t.promiseAlive = true)
    ∧ (step initialState (Event.call (PublicCall.getLines 0 10 true))).posted = []
    ∧ (Except.error "TxtReader has not loaded a file yet."
        : Except String TaskResponse)
      = Except.error "TxtReader has not loaded a file yet." := by
  have h := c5_get_lines_before_load initialState ⟨[], rfl, rfl⟩
    (fun t ht => absurd ht (List.not_mem_nil t)) 0 10 true
  refine ⟨h.1, h.2.1, ?_⟩
  exact h.2.2.2 [Event.fireTimeout] rfl
    { id := 1, action := "getLines", data := notLoadedError, reqTaskId := 1
      state := TaskState.Completed, startTime := 0, hook := SettleHook.none
      onProgress := false, progressLog := [], promiseAlive := false
      outcome := some (Except.error "TxtReader has not loaded a file yet.") }
    rfl (Except.error "TxtReader has not loaded a file yet.") rfl

end TxtReaderModel
